import Mathlib

/-!
# Buffer manager (part3/buf.C): embedding and verification

The buffer manager of `buf.C` is embedded as pure functions over an explicit
manager state.

* C++ `int` values (page numbers, frame numbers, pin counts) are integers; signed
  overflow is undefined in C++ and is not modelled.
* A `File*` is the address of the file object, `0` being `NULL`.
* Every call made through a `File*` is appended to a trace kept in the state; its
  result is supplied by the collaborators record, as a function of the trace so far.
* A reference parameter (`int &frame`, `Page *&page`, `int &pageNo`) is an argument
  giving the value on entry together with a component of the result giving the value
  on return.  A local variable that is read before the code assigns it (`int frameNo;`)
  is an argument giving its indeterminate initial value.
* An array access whose index the code does not bound (`bufTable[frameNo]`,
  `bufTable[PageNo]`) yields `none` for the whole call when the index is outside the
  array.
* The header `buf.h` and the hash table are not among the sources: `Set`, `Clear`,
  `advanceClock` and the three hash table operations are modelled from the
  specification, and the numeric values of the `Status` enumerators are a parameter.
-/

namespace Buf

/-- Status values named in buf.C; OTHER stands for any further enumerator of the
enumeration, which is declared outside the sources. -/
inductive Status where
  | OK
  | UNIXERR
  | HASHTBLERROR
  | HASHNOTFOUND
  | BUFFEREXCEEDED
  | PAGENOTPINNED
  | BADBUFFER
  | PAGEPINNED
  | OTHER (n : Nat)
  deriving DecidableEq, Repr

/-- Numeric values of the Status enumerators.  The enumeration is declared in a header
that is not among the sources, so the values are a parameter; distinct enumerators
have distinct values. -/
structure StatusCode where
  toInt : Status → Int
  inj : Function.Injective toInt

/-- Conversion of a Status to bool in a C++ condition: true exactly when nonzero. -/
def StatusCode.truthy (sc : StatusCode) (s : Status) : Bool :=
  decide (sc.toInt s ≠ 0)

/-- Address of a File object; 0 is NULL. -/
abbrev FilePtr := Nat

/-- Content of one page, kept abstract. -/
abbrev PageData := Nat

/-- A call issued to a File Handle. -/
inductive IOEvent where
  | read (file : FilePtr) (pageNo : Int)
  | write (file : FilePtr) (pageNo : Int) (data : PageData)
  | allocate (file : FilePtr)
  | dispose (file : FilePtr) (pageNo : Int)
  deriving DecidableEq, Repr

/-- Value of a Page pointer: the address of a pool slot, or an address outside the pool. -/
inductive PagePtr where
  | pool (frameNo : Int)
  | foreign (addr : Nat)
  deriving DecidableEq, Repr

/-- Results of the external collaborators, each a function of the File Handle calls
issued so far.  fileAllocate also receives the value its reference parameter held on
entry and returns the value it holds on return.  insertErr tells whether the hash
table reports an internal error on an insert. -/
structure Collab where
  fileRead : List IOEvent → FilePtr → Int → Status × PageData
  fileWrite : List IOEvent → FilePtr → Int → PageData → Status
  fileAllocate : List IOEvent → FilePtr → Int → Status × Int
  fileDispose : List IOEvent → FilePtr → Int → Status
  insertErr : List IOEvent → FilePtr → Int → Int → Bool

/-- Frame descriptor (class BufDesc). -/
structure BufDesc where
  file : FilePtr
  pageNo : Int
  frameNo : Int
  pinCnt : Int
  dirty : Bool
  valid : Bool
  refbit : Bool
  deriving DecidableEq, Repr

instance : Inhabited BufDesc := ⟨⟨0, 0, 0, 0, false, false, false⟩⟩

/-- Modelled from the spec: BufDesc::Set of buf.h, which is not among the sources.
"record file and page number, set pinCnt = 1, refbit = true, dirty = false,
valid = true". -/
def BufDesc.Set (d : BufDesc) (filePtr : FilePtr) (pageNum : Int) : BufDesc :=
  { d with file := filePtr, pageNo := pageNum, pinCnt := 1, dirty := false,
           refbit := true, valid := true }

/-- Modelled from the spec: BufDesc::Clear of buf.h, which is not among the sources.
"reset to unoccupied, pin count and dirty reset"; the page number of an unoccupied
descriptor is -1, as flushFile writes it. -/
def BufDesc.Clear (d : BufDesc) : BufDesc :=
  { d with pinCnt := 0, file := 0, pageNo := -1, dirty := false, refbit := false,
           valid := false }

/-- The fields of a descriptor other than refbit and frameNo. -/
def BufDesc.core (d : BufDesc) : FilePtr × Int × Int × Bool × Bool :=
  (d.file, d.pageNo, d.pinCnt, d.dirty, d.valid)

/-- Modelled from the spec: the Page Index (class BufHashTbl, not among the sources), a
map from (file, pageNo) to a frame number with unique keys, kept as a list of entries. -/
structure BufHashTbl where
  entries : List (FilePtr × Int × Int)
  deriving DecidableEq, Repr

/-- The frame number the index holds for a key, if any. -/
def BufHashTbl.find (ht : BufHashTbl) (file : FilePtr) (pageNo : Int) : Option Int :=
  (ht.entries.find? (fun e => decide (e.1 = file ∧ e.2.1 = pageNo))).map (fun e => e.2.2)

/-- Modelled from the spec: "lookup(file, pageNo) -> frameNo | NotFound".  The frame
number is returned through a reference parameter, which a failed lookup leaves as it
was. -/
def BufHashTbl.lookup (ht : BufHashTbl) (file : FilePtr) (pageNo : Int) (frameNo : Int) :
    Status × Int :=
  match ht.find file pageNo with
  | some f => (Status.OK, f)
  | none => (Status.HASHNOTFOUND, frameNo)

/-- Modelled from the spec: "insert(file, pageNo, frameNo) -> OK | IndexError", keys
staying unique: an insert of a key already present, or one on which the table reports
an internal error, fails and changes nothing. -/
def BufHashTbl.insert (ht : BufHashTbl) (file : FilePtr) (pageNo : Int) (frameNo : Int)
    (err : Bool) : Status × BufHashTbl :=
  if err = true ∨ (ht.find file pageNo).isSome = true then (Status.HASHTBLERROR, ht)
  else (Status.OK, ⟨(file, pageNo, frameNo) :: ht.entries⟩)

/-- Modelled from the spec: "remove(file, pageNo) -> OK | NotFound". -/
def BufHashTbl.remove (ht : BufHashTbl) (file : FilePtr) (pageNo : Int) :
    Status × BufHashTbl :=
  if (ht.find file pageNo).isSome = true then
    (Status.OK, ⟨ht.entries.filter (fun e => !decide (e.1 = file ∧ e.2.1 = pageNo))⟩)
  else (Status.HASHNOTFOUND, ht)

/-- State of a BufMgr: clock hand, hash table, descriptor array, page pool, and the
File Handle calls issued so far.  numBufs is the length of the descriptor array. -/
structure BufMgr where
  clockHand : Nat
  hashTable : BufHashTbl
  bufTable : List BufDesc
  bufPool : List PageData
  trace : List IOEvent
  deriving DecidableEq, Repr

/-- Number of frames. -/
def BufMgr.numBufs (m : BufMgr) : Nat := m.bufTable.length

/-- Read bufTable[i] for an index the code keeps below numBufs. -/
def BufMgr.desc (m : BufMgr) (i : Nat) : BufDesc := m.bufTable.getD i default

/-- Read bufTable[i] for an index the code does not bound. -/
def BufMgr.descAt (m : BufMgr) (i : Int) : Option BufDesc :=
  if 0 ≤ i then m.bufTable[i.toNat]? else none

/-- Overwrite bufTable[i]. -/
def BufMgr.setDesc (m : BufMgr) (i : Nat) (d : BufDesc) : BufMgr :=
  { m with bufTable := m.bufTable.set i d }

/-- Read bufPool[i]. -/
def BufMgr.page (m : BufMgr) (i : Nat) : PageData := m.bufPool.getD i 0

/-- Store page content through a Page pointer: a pointer into the pool changes that
slot, any other pointer changes memory outside the manager. -/
def BufMgr.store (m : BufMgr) (page : PagePtr) (data : PageData) : BufMgr :=
  match page with
  | PagePtr.pool i => if 0 ≤ i then { m with bufPool := m.bufPool.set i.toNat data } else m
  | PagePtr.foreign _ => m

/-- Constructor BufMgr::BufMgr(bufs): descriptors and pages zeroed, frameNo = i, all
invalid, empty hash table, clock hand on the last frame.  The interface requires
bufs > 0; at bufs = 0, where "bufs - 1" in the code is -1, there is no frame and the hand
is 0 here. -/
def BufMgr.init (bufs : Nat) : BufMgr :=
  { clockHand := bufs - 1
    hashTable := ⟨[]⟩
    bufTable := (List.range bufs).map
      (fun i => ⟨0, 0, (i : Int), 0, false, false, false⟩)
    bufPool := List.replicate bufs 0
    trace := [] }

/-- Modelled from the spec: BufMgr::advanceClock of buf.h, which is not among the
sources.  "a single integer cursor over frame indices, advanced modulo pool size". -/
def BufMgr.advanceClock (m : BufMgr) : BufMgr :=
  { m with clockHand := (m.clockHand + 1) % m.numBufs }

/-- Body of the loop of BufMgr::flushFile, for the k frames from index i on. -/
def flushFileLoop (env : Collab) (file : FilePtr) : Nat → Nat → BufMgr → Status × BufMgr
  | 0, _, m => (Status.OK, m)
  | k + 1, i, m =>
    let tmpbuf := m.desc i
    if tmpbuf.valid = true ∧ tmpbuf.file = file then
      if tmpbuf.pinCnt > 0 then (Status.PAGEPINNED, m)
      else
        let status :=
          if tmpbuf.dirty = true then
            env.fileWrite m.trace tmpbuf.file tmpbuf.pageNo (m.page i)
          else Status.OK
        let m1 :=
          if tmpbuf.dirty = true then
            { m with trace := m.trace ++ [IOEvent.write tmpbuf.file tmpbuf.pageNo (m.page i)] }
          else m
        if status ≠ Status.OK then (status, m1)
        else
          let m2 := { m1 with hashTable := (m1.hashTable.remove file tmpbuf.pageNo).2 }
          let m3 := m2.setDesc i
            { tmpbuf with dirty := false, file := 0, pageNo := -1, valid := false }
          flushFileLoop env file k (i + 1) m3
    else if tmpbuf.valid = false ∧ tmpbuf.file = file then (Status.BADBUFFER, m)
    else flushFileLoop env file k (i + 1) m

/-- The method BufMgr::flushFile(file). -/
def flushFile (env : Collab) (m : BufMgr) (file : FilePtr) : Status × BufMgr :=
  flushFileLoop env file m.numBufs 0 m

/-- Body of the loop of BufMgr::allocBuf, for n remaining iterations; frame is the
reference parameter, which the code never assigns. -/
def allocBufLoop (env : Collab) : Nat → BufMgr → Int → Status × BufMgr × Int
  | 0, m, frame => (Status.BUFFEREXCEEDED, m, frame)
  | n + 1, m, frame =>
    let m1 := m.advanceClock
    let d := m1.desc m1.clockHand
    if d.valid = false then (Status.OK, m1, frame)
    else if d.refbit = true then
      allocBufLoop env n (m1.setDesc m1.clockHand { d with refbit := false }) frame
    else if d.pinCnt > 0 then allocBufLoop env n m1 frame
    else if d.dirty = true then
      if (flushFile env m1 d.file).1 ≠ Status.OK then
        (Status.UNIXERR, (flushFile env m1 d.file).2, frame)
      else (Status.OK, (flushFile env m1 d.file).2, frame)
    else (Status.OK, m1, frame)

/-- The method BufMgr::allocBuf(frame): status, state and value of frame on return. -/
def allocBuf (env : Collab) (m : BufMgr) (frame : Int) : Status × BufMgr × Int :=
  allocBufLoop env (m.numBufs * 2) m frame

/-- The method BufMgr::readPage(file, PageNo, page): status, state and value of page on
return.  frameNo0 is the indeterminate initial value of the local frameNo.  pinCnt is an
int: "pinCnt++" at 2147483647 overflows, which is undefined behaviour, so the call has no
result there. -/
def readPage (env : Collab) (m : BufMgr) (file : FilePtr) (PageNo : Int) (page : PagePtr)
    (frameNo0 : Int) : Option (Status × BufMgr × PagePtr) :=
  let l := m.hashTable.lookup file PageNo frameNo0
  if l.1 = Status.HASHNOTFOUND then
    let a := allocBuf env m l.2
    let t := a.1
    let m1 := a.2.1
    let frameNo := a.2.2
    if t ≠ Status.OK then some (t, m1, page)
    else
      let r := env.fileRead m1.trace file PageNo
      let m2 := { m1 with trace := m1.trace ++ [IOEvent.read file PageNo] }
      if r.1 ≠ Status.OK then some (Status.UNIXERR, m2, page)
      else
        let m3 := m2.store page r.2
        let ins := m3.hashTable.insert file PageNo frameNo
          (env.insertErr m3.trace file PageNo frameNo)
        if ins.1 = Status.HASHTBLERROR then some (Status.HASHTBLERROR, m3, page)
        else
          let m4 := { m3 with hashTable := ins.2 }
          match m4.descAt frameNo with
          | none => none
          | some d => some (Status.OK, m4.setDesc frameNo.toNat (d.Set file PageNo), page)
  else
    let frameNo := l.2
    match m.descAt frameNo with
    | none => none
    | some d =>
      if d.pinCnt < 2147483647 then
        some (Status.OK,
          m.setDesc frameNo.toNat { d with pinCnt := d.pinCnt + 1, refbit := true },
          PagePtr.pool frameNo)
      else none

/-- The method BufMgr::unPinPage(file, PageNo, dirty).  frameNo0 is the indeterminate
initial value of the local frameNo; sc gives the numeric values of the statuses, which
decide the condition "if (hashTable->lookup(...))".  "pinCnt--" at -2147483648 overflows
the int, which is undefined behaviour, so the call has no result there. -/
def unPinPage (sc : StatusCode) (m : BufMgr) (file : FilePtr) (PageNo : Int) (dirty : Bool)
    (frameNo0 : Int) : Option (Status × BufMgr) :=
  let l := m.hashTable.lookup file PageNo frameNo0
  let frameNo := l.2
  if sc.truthy l.1 = true then
    match m.descAt PageNo with
    | none => none
    | some dp =>
      if dp.pinCnt ≤ 0 then some (Status.PAGENOTPINNED, m)
      else
        match m.descAt frameNo with
        | none => none
        | some d =>
          if -2147483648 < d.pinCnt then
            let d1 := { d with pinCnt := d.pinCnt - 1 }
            let d2 := if dirty = true then { d1 with dirty := true } else d1
            some (Status.OK, m.setDesc frameNo.toNat d2)
          else none
  else some (Status.HASHNOTFOUND, m)

/-- The method BufMgr::allocPage(file, pageNo, page): status, state, and the values of
pageNo and page on return.  frameNo0 is the indeterminate initial value of the local
frameNo. -/
def allocPage (env : Collab) (m : BufMgr) (file : FilePtr) (pageNo0 : Int) (page : PagePtr)
    (frameNo0 : Int) : Option (Status × BufMgr × Int × PagePtr) :=
  let al := env.fileAllocate m.trace file pageNo0
  let pageNo := al.2
  let m0 := { m with trace := m.trace ++ [IOEvent.allocate file] }
  let a := allocBuf env m0 frameNo0
  let s := a.1
  let m1 := a.2.1
  let frameNo := a.2.2
  if s ≠ Status.OK then some (s, m1, pageNo, page)
  else
    let ins := m1.hashTable.insert file pageNo frameNo
      (env.insertErr m1.trace file pageNo frameNo)
    if ins.1 = Status.HASHTBLERROR then some (Status.HASHTBLERROR, m1, pageNo, page)
    else
      let m2 := { m1 with hashTable := ins.2 }
      match m2.descAt frameNo with
      | none => none
      | some d => some (Status.OK, m2.setDesc frameNo.toNat (d.Set file pageNo), pageNo, page)

/-- The method BufMgr::disposePage(file, pageNo). -/
def disposePage (env : Collab) (m : BufMgr) (file : FilePtr) (pageNo : Int) :
    Option (Status × BufMgr) :=
  let l := m.hashTable.lookup file pageNo 0
  let frameNo := l.2
  let cleared : Option BufMgr :=
    if l.1 = Status.OK then
      match m.descAt frameNo with
      | none => none
      | some d => some (m.setDesc frameNo.toNat d.Clear)
    else some m
  match cleared with
  | none => none
  | some m1 =>
    let m2 := { m1 with hashTable := (m1.hashTable.remove file pageNo).2 }
    some (env.fileDispose m2.trace file pageNo,
          { m2 with trace := m2.trace ++ [IOEvent.dispose file pageNo] })

/-- One call of the public interface, with the values of its arguments on entry. -/
inductive Call where
  | readPage (file : FilePtr) (PageNo : Int) (page : PagePtr) (frameNo0 : Int)
  | allocPage (file : FilePtr) (pageNo0 : Int) (page : PagePtr) (frameNo0 : Int)
  | unPinPage (file : FilePtr) (PageNo : Int) (dirty : Bool) (frameNo0 : Int)
  | disposePage (file : FilePtr) (pageNo : Int)
  | flushFile (file : FilePtr)
  deriving DecidableEq, Repr

/-- State after one call, when the call has defined behaviour. -/
def step (sc : StatusCode) (env : Collab) (m : BufMgr) : Call → Option BufMgr
  | Call.readPage file PageNo page frameNo0 =>
    (readPage env m file PageNo page frameNo0).map (fun r => r.2.1)
  | Call.allocPage file pageNo0 page frameNo0 =>
    (allocPage env m file pageNo0 page frameNo0).map (fun r => r.2.1)
  | Call.unPinPage file PageNo dirty frameNo0 =>
    (unPinPage sc m file PageNo dirty frameNo0).map (fun r => r.2)
  | Call.disposePage file pageNo => (disposePage env m file pageNo).map (fun r => r.2)
  | Call.flushFile file => some (flushFile env m file).2

/-- State after a sequence of calls. -/
def run (sc : StatusCode) (env : Collab) (m : BufMgr) : List Call → Option BufMgr
  | [] => some m
  | c :: cs =>
    match step sc env m c with
    | none => none
    | some m1 => run sc env m1 cs

/-! ## Auxiliary definitions used in the statements and proofs -/

/-- States that differ only in reference bits and the clock hand. -/
def ScanRel (m m0 : BufMgr) : Prop :=
  m0.bufTable.map BufDesc.core = m.bufTable.map BufDesc.core ∧
  m0.hashTable = m.hashTable ∧ m0.bufPool = m.bufPool ∧ m0.trace = m.trace

/-- What a call of allocBuf amounts to: a scan that changes only reference bits and
the clock hand and ends in state m0, followed by nothing (no frame found, or the hand
is on an invalid frame or a clean victim), or by a flush of the file of the dirty
victim under the hand. -/
def ScanOutcome (env : Collab) (m0 : BufMgr) (frame : Int) (r : Status × BufMgr × Int) :
    Prop :=
  r = (Status.BUFFEREXCEEDED, m0, frame) ∨
  (r = (Status.OK, m0, frame) ∧
    ((m0.desc m0.clockHand).valid = false ∨
      ((m0.desc m0.clockHand).valid = true ∧ (m0.desc m0.clockHand).refbit = false ∧
        (m0.desc m0.clockHand).pinCnt ≤ 0 ∧ (m0.desc m0.clockHand).dirty = false))) ∨
  ((m0.desc m0.clockHand).valid = true ∧ (m0.desc m0.clockHand).refbit = false ∧
    (m0.desc m0.clockHand).pinCnt ≤ 0 ∧ (m0.desc m0.clockHand).dirty = true ∧
    r = (if (flushFile env m0 (m0.desc m0.clockHand).file).1 ≠ Status.OK
          then Status.UNIXERR else Status.OK,
         (flushFile env m0 (m0.desc m0.clockHand).file).2, frame))

/-- The write-back step of flushFile on frame i: the call is appended to the trace. -/
def logWrite (m : BufMgr) (i : Nat) : BufMgr :=
  { m with trace := m.trace ++ [IOEvent.write (m.desc i).file (m.desc i).pageNo (m.page i)] }

/-- The release step of flushFile on frame i: its mapping is removed from the hash
table and its descriptor is marked unoccupied. -/
def releaseFrame (m : BufMgr) (file : FilePtr) (i : Nat) : BufMgr :=
  ({ m with hashTable := (m.hashTable.remove file (m.desc i).pageNo).2 } : BufMgr).setDesc i
    { m.desc i with dirty := false, file := 0, pageNo := -1, valid := false }

/-- No valid unpinned frame holds the page (f, p). -/
def NoUnpinnedHolder (m : BufMgr) (f : FilePtr) (p : Int) : Prop :=
  ∀ (j : Nat) (dj : BufDesc), m.bufTable[j]? = some dj → dj.valid = true → dj.pinCnt ≤ 0 →
    ¬ (dj.file = f ∧ dj.pageNo = p)

/-- Descriptor/index agreement: a frame is valid exactly when the Page Index maps some
(file, pageNo) to it, and every key mapped to a frame is the page its descriptor records. -/
def IndexAgrees (m : BufMgr) : Prop :=
  ∀ (i : Nat) (d : BufDesc), m.bufTable[i]? = some d →
    ((d.valid = true ↔ ∃ f p, m.hashTable.find f p = some (i : Int)) ∧
      ∀ f p, m.hashTable.find f p = some (i : Int) → f = d.file ∧ p = d.pageNo)

/-- Every valid frame is mapped: the Page Index maps the page a valid descriptor records
to the frame of that descriptor. -/
def ValidMapped (m : BufMgr) : Prop :=
  ∀ (i : Nat) (d : BufDesc), m.bufTable[i]? = some d → d.valid = true →
    m.hashTable.find d.file d.pageNo = some (i : Int)

/-- States the manager can be in: a freshly constructed manager, and every state a call
of the public interface with defined behaviour leads to, whatever the collaborators
answer. -/
inductive Reachable (sc : StatusCode) : BufMgr → Prop where
  | init (bufs : Nat) : Reachable sc (BufMgr.init bufs)
  | call (env : Collab) (m m1 : BufMgr) (c : Call) :
      Reachable sc m → step sc env m c = some m1 → Reachable sc m1

/-! ## Concrete inputs -/

/-- An encoding of the statuses in which OK is 0 and every error is positive. -/
def StatusCode.zeroOK : StatusCode where
  toInt
    | Status.OK => 0
    | Status.UNIXERR => 1
    | Status.HASHTBLERROR => 2
    | Status.HASHNOTFOUND => 3
    | Status.BUFFEREXCEEDED => 4
    | Status.PAGENOTPINNED => 5
    | Status.BADBUFFER => 6
    | Status.PAGEPINNED => 7
    | Status.OTHER n => 8 + (n : Int)
  inj := by
    intro a b h
    cases a <;> cases b <;> simp at h ⊢ <;> omega

/-- Collaborators that never fail: a read of page p yields content 100 + p, allocatePage
yields the number after the one passed in. -/
def envOK : Collab where
  fileRead := fun _ _ p => (Status.OK, 100 + p.toNat)
  fileWrite := fun _ _ _ _ => Status.OK
  fileAllocate := fun _ _ p => (Status.OK, p + 1)
  fileDispose := fun _ _ _ => Status.OK
  insertErr := fun _ _ _ _ => false

/-- Two frames, both valid and pinned, holding pages 0 and 1 of file 5. -/
def poolAllPinned : BufMgr :=
  { clockHand := 1
    hashTable := ⟨[(5, 0, 0), (5, 1, 1)]⟩
    bufTable := [⟨5, 0, 0, 1, false, true, true⟩, ⟨5, 1, 1, 2, true, true, false⟩]
    bufPool := [10, 11]
    trace := [] }

/-- Frame 0 pinned on page 0 of file 6, frame 1 an unpinned dirty page 1 of file 5. -/
def poolPinnedAndDirty : BufMgr :=
  { clockHand := 0
    hashTable := ⟨[(6, 0, 0), (5, 1, 1)]⟩
    bufTable := [⟨6, 0, 0, 1, false, true, false⟩, ⟨5, 1, 1, 0, true, true, false⟩]
    bufPool := [10, 11]
    trace := [] }

/-- One frame holding the clean, unpinned page 1 of file 5, as left by a readPage of
that page on a fresh pool followed by one decrement of its pin count. -/
def poolCleanVictim : BufMgr :=
  { clockHand := 0
    hashTable := ⟨[(5, 1, 0)]⟩
    bufTable := [⟨5, 1, 0, 0, false, true, true⟩]
    bufPool := [0]
    trace := [IOEvent.read 5 1] }

/-- Frame 0 holds page 1 of file 5 with one pin; frame 1 is unoccupied: the state a
readPage of that page leaves a fresh pool of two frames in. -/
def poolPinnedOnce : BufMgr :=
  { clockHand := 0
    hashTable := ⟨[(5, 1, 0)]⟩
    bufTable := [⟨5, 1, 0, 1, false, true, true⟩, ⟨0, 0, 1, 0, false, false, false⟩]
    bufPool := [0, 0]
    trace := [IOEvent.read 5 1] }

/-- The pool poolPinnedOnce with pin count k on frame 0: the state k readPage calls of
page 1 of file 5, none answered by an unPinPage, leave a fresh pool of two frames in. -/
def poolPinned (k : Int) : BufMgr :=
  { clockHand := 0
    hashTable := ⟨[(5, 1, 0)]⟩
    bufTable := [⟨5, 1, 0, k, false, true, true⟩, ⟨0, 0, 1, 0, false, false, false⟩]
    bufPool := [0, 0]
    trace := [IOEvent.read 5 1] }

/-- Frame 0 holds page 1 of file 5 with the largest pin count an int can hold. -/
def poolPinnedMax : BufMgr := poolPinned 2147483647

/-- Frame 0 holds page 1 of file 5, unpinned; frame 1 holds page 0 of file 6, pinned. -/
def poolUnpinnedAndPinned : BufMgr :=
  { clockHand := 1
    hashTable := ⟨[(6, 0, 1), (5, 1, 0)]⟩
    bufTable := [⟨5, 1, 0, 0, false, true, true⟩, ⟨6, 0, 1, 1, false, true, true⟩]
    bufPool := [0, 0]
    trace := [IOEvent.read 5 1, IOEvent.read 6 0] }

/-- Calls on a fresh pool of two frames: read pages 7 and 0 of file 5 (the local frameNo
holding, each time, the frame allocBuf stopped on), then unpin page 0 of file 5 and
page 0 of file 6, which is not cached. -/
def callsReadUnpin : List Call :=
  [Call.readPage 5 7 (PagePtr.foreign 0) 0, Call.readPage 5 0 (PagePtr.foreign 0) 1,
   Call.unPinPage 5 0 false 1, Call.unPinPage 6 0 false 1]

/-- The calls of callsReadUnpin followed by the same two unpins once more. -/
def callsUnpinTwice : List Call :=
  callsReadUnpin ++ [Call.unPinPage 5 0 false 1, Call.unPinPage 6 0 false 1]

/-- The calls of callsReadUnpin followed by a read of page 9 of file 5. -/
def callsEvictClean : List Call :=
  callsReadUnpin ++ [Call.readPage 5 9 (PagePtr.foreign 0) 1]

/-! ## Definitions for the scan of allocBuf and the write-backs of flushFile -/

/-- How the scan of allocBuf ends: the loop ran out, or the clock hand is on an invalid
frame, on a clean victim, or on a dirty victim. -/
inductive ScanStop where
  | exhausted
  | invalidFrame
  | cleanVictim
  | dirtyVictim
  deriving DecidableEq, Repr

/-- Result of the scan of allocBuf: how it ended, the state it ended in, and the number of
calls of advanceClock it made. -/
structure Scan where
  stop : ScanStop
  state : BufMgr
  advances : Nat
  deriving DecidableEq, Repr

/-- One more advance of the clock counted. -/
def Scan.bump (s : Scan) (k : Nat) : Scan := { s with advances := s.advances + k }

/-- The loop of BufMgr::allocBuf up to the point where it returns or calls flushFile, for
n remaining iterations, counting the calls of advanceClock. -/
def scanLoop : Nat → BufMgr → Scan
  | 0, m => ⟨ScanStop.exhausted, m, 0⟩
  | n + 1, m =>
    let m1 := m.advanceClock
    let d := m1.desc m1.clockHand
    if d.valid = false then ⟨ScanStop.invalidFrame, m1, 1⟩
    else if d.refbit = true then
      (scanLoop n (m1.setDesc m1.clockHand { d with refbit := false })).bump 1
    else if d.pinCnt > 0 then (scanLoop n m1).bump 1
    else if d.dirty = true then ⟨ScanStop.dirtyVictim, m1, 1⟩
    else ⟨ScanStop.cleanVictim, m1, 1⟩

/-- The scan of one call of allocBuf: at most 2 * numBufs iterations. -/
def allocScan (m : BufMgr) : Scan := scanLoop (m.numBufs * 2) m

/-- What allocBuf does once its scan has ended. -/
def finishAlloc (env : Collab) (frame : Int) (s : Scan) : Status × BufMgr × Int :=
  match s.stop with
  | ScanStop.exhausted => (Status.BUFFEREXCEEDED, s.state, frame)
  | ScanStop.invalidFrame => (Status.OK, s.state, frame)
  | ScanStop.cleanVictim => (Status.OK, s.state, frame)
  | ScanStop.dirtyVictim =>
    if (flushFile env s.state (s.state.desc s.state.clockHand).file).1 ≠ Status.OK then
      (Status.UNIXERR, (flushFile env s.state (s.state.desc s.state.clockHand).file).2, frame)
    else (Status.OK, (flushFile env s.state (s.state.desc s.state.clockHand).file).2, frame)

/-- The writePage calls a complete flush of the file issues for the k frames from index i
on: one for each frame that is valid, owned by the file and dirty, in index order, with
the content of its pool slot. -/
def dirtyWritesFrom (file : FilePtr) (m : BufMgr) : Nat → Nat → List IOEvent
  | 0, _ => []
  | k + 1, i =>
    (if (m.desc i).valid = true ∧ (m.desc i).file = file ∧ (m.desc i).dirty = true then
      [IOEvent.write file (m.desc i).pageNo (m.page i)]
    else []) ++ dirtyWritesFrom file m k (i + 1)

/-- Whether a File Handle call is a writePage of the given page of the given file. -/
def IOEvent.isWriteOf (file : FilePtr) (pageNo : Int) : IOEvent → Bool
  | IOEvent.write f p _ => decide (f = file ∧ p = pageNo)
  | _ => false

/-- Whether a File Handle call is a writePage. -/
def IOEvent.isWrite : IOEvent → Bool
  | IOEvent.write _ _ _ => true
  | _ => false

/-- Whether a File Handle call is a readPage. -/
def IOEvent.isRead : IOEvent → Bool
  | IOEvent.read _ _ => true
  | _ => false

/-- Collaborators that never fail except allocatePage, which reports UNIXERR and leaves
its reference parameter as it was. -/
def envAllocFails : Collab where
  fileRead := fun _ _ p => (Status.OK, 100 + p.toNat)
  fileWrite := fun _ _ _ _ => Status.OK
  fileAllocate := fun _ _ p => (Status.UNIXERR, p)
  fileDispose := fun _ _ _ => Status.OK
  insertErr := fun _ _ _ _ => false

/-- Collaborators that never fail except writePage, which always reports UNIXERR. -/
def envWriteFails : Collab where
  fileRead := fun _ _ p => (Status.OK, 100 + p.toNat)
  fileWrite := fun _ _ _ _ => Status.UNIXERR
  fileAllocate := fun _ _ p => (Status.OK, p + 1)
  fileDispose := fun _ _ _ => Status.OK
  insertErr := fun _ _ _ _ => false

/-- Two frames of file 5: frame 0 holds page 0, unpinned and dirty; frame 1 holds
page 1, pinned.  The clock hand is on frame 1. -/
def poolDirtyThenPinned : BufMgr :=
  { clockHand := 1
    hashTable := ⟨[(5, 1, 1), (5, 0, 0)]⟩
    bufTable := [⟨5, 0, 0, 0, true, true, false⟩, ⟨5, 1, 1, 1, false, true, false⟩]
    bufPool := [40, 41]
    trace := [] }

/-- Two frames of file 5, both unpinned: frame 0 holds page 0, dirty; frame 1 holds
page 1, clean.  The clock hand is on frame 1. -/
def poolDirtyAndClean : BufMgr :=
  { clockHand := 1
    hashTable := ⟨[(5, 1, 1), (5, 0, 0)]⟩
    bufTable := [⟨5, 0, 0, 0, true, true, false⟩, ⟨5, 1, 1, 0, false, true, false⟩]
    bufPool := [40, 41]
    trace := [] }

/-- Three frames, all valid, clean, unpinned and referenced, with the clock hand on
frame 1. -/
def poolAllReferenced : BufMgr :=
  { clockHand := 1
    hashTable := ⟨[(5, 2, 2), (5, 1, 1), (5, 0, 0)]⟩
    bufTable := [⟨5, 0, 0, 0, false, true, true⟩, ⟨5, 1, 1, 0, false, true, true⟩,
                 ⟨5, 2, 2, 0, false, true, true⟩]
    bufPool := [40, 41, 42]
    trace := [] }

/-- Two consistency conditions on a state: an unoccupied descriptor names no file, and
every frame number the Page Index holds is the index of a frame of the pool. -/
def Sane (m : BufMgr) : Prop :=
  (∀ d ∈ m.bufTable, d.valid = false → d.file = 0) ∧
  (∀ f p fr, m.hashTable.find f p = some fr → 0 ≤ fr ∧ fr < (m.numBufs : Int))

/-! ## Lemmas -/

theorem core_clearRef (d : BufDesc) : ({ d with refbit := false } : BufDesc).core = d.core := rfl

theorem desc_of_getElem? {m : BufMgr} {i : Nat} {d : BufDesc} (h : m.bufTable[i]? = some d) :
    m.desc i = d := by
  simp [BufMgr.desc, List.getD_eq_getElem?_getD, h]

theorem getElem?_of_desc_valid {m : BufMgr} {i : Nat} (h : (m.desc i).valid = true) :
    m.bufTable[i]? = some (m.desc i) := by
  unfold BufMgr.desc at *
  rw [List.getD_eq_getElem?_getD] at *
  cases hq : m.bufTable[i]? with
  | none => rw [hq] at h; simp at h
  | some d => simp

theorem map_core_set_same (l : List BufDesc) (i : Nat) (d : BufDesc)
    (h : d.core = (l.getD i default).core) :
    (l.set i d).map BufDesc.core = l.map BufDesc.core := by
  rw [List.map_set]
  apply List.ext_getElem?
  intro j
  by_cases hj : i = j
  · subst hj
    by_cases hi : i < l.length
    · simp [List.getElem?_set, hi, h, List.getD_eq_getElem?_getD, List.getElem?_eq_getElem hi]
    · simp [List.getElem?_set, hi]
      have : l.length ≤ i := Nat.le_of_not_lt hi
      simp [List.getElem?_eq_none this]
  · simp [List.getElem?_set, hj]

theorem ScanRel.refl (m : BufMgr) : ScanRel m m := ⟨rfl, rfl, rfl, rfl⟩

theorem ScanRel.trans {a b c : BufMgr} (h1 : ScanRel a b) (h2 : ScanRel b c) : ScanRel a c :=
  ⟨h2.1.trans h1.1, h2.2.1.trans h1.2.1, h2.2.2.1.trans h1.2.2.1, h2.2.2.2.trans h1.2.2.2⟩

theorem ScanRel.advance (m : BufMgr) : ScanRel m m.advanceClock := ⟨rfl, rfl, rfl, rfl⟩

theorem ScanRel.clearRef (m : BufMgr) (i : Nat) :
    ScanRel m (m.setDesc i { m.desc i with refbit := false }) :=
  ⟨map_core_set_same _ _ _ rfl, rfl, rfl, rfl⟩

theorem ScanRel.length {m m0 : BufMgr} (h : ScanRel m m0) : m0.numBufs = m.numBufs := by
  have := congrArg List.length h.1
  simpa [BufMgr.numBufs] using this

theorem advanceClock_lt (m : BufMgr) (h : 0 < m.numBufs) :
    m.advanceClock.clockHand < m.advanceClock.numBufs := by
  simp only [BufMgr.advanceClock, BufMgr.numBufs] at *
  exact Nat.mod_lt _ h

theorem setDesc_numBufs (m : BufMgr) (i : Nat) (d : BufDesc) :
    (m.setDesc i d).numBufs = m.numBufs := by
  simp [BufMgr.setDesc, BufMgr.numBufs]

theorem allocBufLoop_scan (env : Collab) (n : Nat) :
    ∀ (m : BufMgr) (frame : Int), ∃ m0, ScanRel m m0 ∧
      (0 < m.numBufs → (0 < n ∨ m.clockHand < m.numBufs) → m0.clockHand < m0.numBufs) ∧
      ScanOutcome env m0 frame (allocBufLoop env n m frame) := by
  induction n with
  | zero =>
    intro m frame
    refine ⟨m, ScanRel.refl m, ?_, Or.inl rfl⟩
    intro _ h
    rcases h with h | h
    · exact absurd h (Nat.lt_irrefl 0)
    · exact h
  | succ n ih =>
    intro m frame
    have hlt : 0 < m.numBufs → m.advanceClock.clockHand < m.advanceClock.numBufs :=
      advanceClock_lt m
    by_cases hv : (m.advanceClock.desc m.advanceClock.clockHand).valid = false
    · refine ⟨m.advanceClock, ScanRel.advance m, fun h _ => hlt h, Or.inr (Or.inl ⟨?_, Or.inl hv⟩)⟩
      simp [allocBufLoop, hv]
    · have hv1 : (m.advanceClock.desc m.advanceClock.clockHand).valid = true := by
        simpa using hv
      by_cases hr : (m.advanceClock.desc m.advanceClock.clockHand).refbit = true
      · obtain ⟨m0, hrel, hin, hout⟩ := ih
          (m.advanceClock.setDesc m.advanceClock.clockHand
            { m.advanceClock.desc m.advanceClock.clockHand with refbit := false }) frame
        refine ⟨m0, (ScanRel.advance m).trans ((ScanRel.clearRef _ _).trans hrel), ?_, ?_⟩
        · intro h _
          apply hin
          · rw [setDesc_numBufs]; exact h
          · right
            rw [setDesc_numBufs]
            exact hlt h
        · have : allocBufLoop env (n + 1) m frame = allocBufLoop env n
              (m.advanceClock.setDesc m.advanceClock.clockHand
                { m.advanceClock.desc m.advanceClock.clockHand with refbit := false }) frame := by
            simp [allocBufLoop, hv1, hr]
          rw [this]
          exact hout
      · have hr1 : (m.advanceClock.desc m.advanceClock.clockHand).refbit = false := by
          simpa using hr
        by_cases hp : (m.advanceClock.desc m.advanceClock.clockHand).pinCnt > 0
        · obtain ⟨m0, hrel, hin, hout⟩ := ih m.advanceClock frame
          refine ⟨m0, (ScanRel.advance m).trans hrel, ?_, ?_⟩
          · intro h _
            exact hin h (Or.inr (hlt h))
          · have : allocBufLoop env (n + 1) m frame = allocBufLoop env n m.advanceClock frame := by
              simp [allocBufLoop, hv1, hr1, hp]
            rw [this]
            exact hout
        · have hp1 : (m.advanceClock.desc m.advanceClock.clockHand).pinCnt ≤ 0 :=
            Int.not_lt.mp hp
          by_cases hd : (m.advanceClock.desc m.advanceClock.clockHand).dirty = true
          · refine ⟨m.advanceClock, ScanRel.advance m, fun h _ => hlt h,
              Or.inr (Or.inr ⟨hv1, hr1, hp1, hd, ?_⟩)⟩
            simp only [allocBufLoop, hv1, hr1, hp, hd]
            simp
            split <;> simp_all
          · have hd1 : (m.advanceClock.desc m.advanceClock.clockHand).dirty = false := by
              simpa using hd
            refine ⟨m.advanceClock, ScanRel.advance m, fun h _ => hlt h,
              Or.inr (Or.inl ⟨?_, Or.inr ⟨hv1, hr1, hp1, hd1⟩⟩)⟩
            simp [allocBufLoop, hv1, hr1, hp, hd1]

theorem find?_filter_of_imp {α : Type} (p q : α → Bool) (l : List α)
    (h : ∀ a, q a = true → p a = true) :
    (l.filter p).find? q = l.find? q := by
  induction l with
  | nil => rfl
  | cons e es ih =>
    by_cases hq : q e = true
    · have hp := h e hq
      simp [List.filter_cons, hp, List.find?_cons, hq]
    · have hq1 : q e = false := by simpa using hq
      by_cases hp : p e = true
      · simp [List.filter_cons, hp, List.find?_cons, hq1, ih]
      · simp [List.filter_cons, hp, List.find?_cons, hq1, ih]

theorem find_remove_ne (ht : BufHashTbl) (file : FilePtr) (pageNo : Int) (f : FilePtr) (p : Int)
    (h : ¬ (file = f ∧ pageNo = p)) :
    (ht.remove file pageNo).2.find f p = ht.find f p := by
  unfold BufHashTbl.remove
  split
  · simp only [BufHashTbl.find]
    rw [find?_filter_of_imp]
    intro e he
    have he1 : e.1 = f ∧ e.2.1 = p := by simpa using he
    have : ¬ (e.1 = file ∧ e.2.1 = pageNo) := by
      rintro ⟨h1, h2⟩
      exact h ⟨h1.symm.trans he1.1, h2.symm.trans he1.2⟩
    simp only [Bool.not_eq_true', decide_eq_false_iff_not]
    exact this
  · rfl

theorem find_remove_self (ht : BufHashTbl) (file : FilePtr) (pageNo : Int) :
    (ht.remove file pageNo).2.find file pageNo = none := by
  unfold BufHashTbl.remove
  split
  · simp only [BufHashTbl.find, Option.map_eq_none', List.find?_eq_none]
    intro e he
    have := (List.mem_filter.mp he).2
    simp only [Bool.not_eq_true', decide_eq_false_iff_not] at this
    simpa using this
  · rename_i h
    simpa using h

theorem flushFileLoop_succ (env : Collab) (file : FilePtr) (k i : Nat) (m : BufMgr) :
    flushFileLoop env file (k + 1) i m =
      if (m.desc i).valid = true ∧ (m.desc i).file = file then
        if (m.desc i).pinCnt > 0 then (Status.PAGEPINNED, m)
        else if (m.desc i).dirty = true then
          if env.fileWrite m.trace (m.desc i).file (m.desc i).pageNo (m.page i) ≠ Status.OK then
            (env.fileWrite m.trace (m.desc i).file (m.desc i).pageNo (m.page i), logWrite m i)
          else flushFileLoop env file k (i + 1) (releaseFrame (logWrite m i) file i)
        else flushFileLoop env file k (i + 1) (releaseFrame m file i)
      else if (m.desc i).valid = false ∧ (m.desc i).file = file then (Status.BADBUFFER, m)
      else flushFileLoop env file k (i + 1) m := by
  simp only [flushFileLoop]
  by_cases hd : (m.desc i).dirty = true
  · simp only [hd, if_true]
    rfl
  · simp only [hd, if_false]
    simp
    rfl

/-- Induction principle for flushFile: a reflexive and transitive relation that every
write-back and every release of a valid unpinned frame of the file respects holds
between the state before and the state after. -/
theorem flushFileLoop_rel (env : Collab) (file : FilePtr) (R : BufMgr → BufMgr → Prop)
    (hrefl : ∀ m, R m m) (htrans : ∀ a b c, R a b → R b c → R a c)
    (hwrite : ∀ m i, (m.desc i).valid = true → (m.desc i).file = file →
      (m.desc i).pinCnt ≤ 0 → (m.desc i).dirty = true → R m (logWrite m i))
    (hrel : ∀ m i, (m.desc i).valid = true → (m.desc i).file = file →
      (m.desc i).pinCnt ≤ 0 → R m (releaseFrame m file i)) :
    ∀ (k i : Nat) (m : BufMgr), R m (flushFileLoop env file k i m).2 := by
  intro k
  induction k with
  | zero => intro i m; exact hrefl m
  | succ k ih =>
    intro i m
    rw [flushFileLoop_succ]
    split_ifs with h1 h2 h3 h4 h5
    · exact hrefl m
    · exact hwrite m i h1.1 h1.2 (Int.not_lt.mp h2) h3
    · have hw := hwrite m i h1.1 h1.2 (Int.not_lt.mp h2) h3
      refine htrans _ _ _ hw (htrans _ _ _ (hrel (logWrite m i) i h1.1 h1.2 (Int.not_lt.mp h2)) (ih _ _))
    · exact htrans _ _ _ (hrel m i h1.1 h1.2 (Int.not_lt.mp h2)) (ih _ _)
    · exact hrefl m
    · exact ih _ _

theorem releaseFrame_bufTable (m : BufMgr) (file : FilePtr) (i : Nat) :
    (releaseFrame m file i).bufTable =
      m.bufTable.set i { m.desc i with dirty := false, file := 0, pageNo := -1, valid := false } :=
  rfl

theorem flushFileLoop_fields (env : Collab) (file : FilePtr) (k i : Nat) (m : BufMgr) :
    (flushFileLoop env file k i m).2.clockHand = m.clockHand ∧
    (flushFileLoop env file k i m).2.bufPool = m.bufPool ∧
    (flushFileLoop env file k i m).2.numBufs = m.numBufs := by
  refine flushFileLoop_rel env file
    (fun a b => b.clockHand = a.clockHand ∧ b.bufPool = a.bufPool ∧ b.numBufs = a.numBufs)
    (fun _ => ⟨rfl, rfl, rfl⟩) ?_ ?_ ?_ k i m
  · intro a b c h1 h2
    exact ⟨h2.1.trans h1.1, h2.2.1.trans h1.2.1, h2.2.2.trans h1.2.2⟩
  · intro m i _ _ _ _
    exact ⟨rfl, rfl, rfl⟩
  · intro m i _ _ _
    refine ⟨rfl, rfl, ?_⟩
    simp [BufMgr.numBufs, releaseFrame_bufTable]

/-- A frame that is valid and pinned is left as it is by flushFile. -/
theorem flushFileLoop_keeps_pinned (env : Collab) (file : FilePtr) (k i : Nat) (m : BufMgr)
    (j : Nat) (d : BufDesc) (hd : m.bufTable[j]? = some d) (hv : d.valid = true)
    (hp : 0 < d.pinCnt) :
    (flushFileLoop env file k i m).2.bufTable[j]? = some d := by
  have key := flushFileLoop_rel env file
    (fun a b => ∀ (j : Nat) (d : BufDesc), a.bufTable[j]? = some d → d.valid = true →
      0 < d.pinCnt → b.bufTable[j]? = some d)
    (fun _ _ _ h _ _ => h) ?_ ?_ ?_ k i m
  · exact key j d hd hv hp
  · intro a b c h1 h2 j d hd hv hp
    exact h2 j d (h1 j d hd hv hp) hv hp
  · intro m i _ _ _ _ j d hd _ _
    exact hd
  · intro m i _ _ hpin j d hd _ hp
    rw [releaseFrame_bufTable]
    have hne : i ≠ j := by
      rintro rfl
      rw [desc_of_getElem? hd] at hpin
      exact absurd hp (Int.not_lt.mpr hpin)
    rw [List.getElem?_set_ne hne]
    exact hd

/-- The flush of a file leaves the index entry of a page alone when no valid unpinned
frame holds that page. -/
theorem flushFileLoop_keeps_index (env : Collab) (file : FilePtr) (k i : Nat) (m : BufMgr)
    (f : FilePtr) (p : Int) (hq : NoUnpinnedHolder m f p) :
    (flushFileLoop env file k i m).2.hashTable.find f p = m.hashTable.find f p := by
  have key := flushFileLoop_rel env file
    (fun a b => NoUnpinnedHolder a f p →
      (NoUnpinnedHolder b f p ∧ b.hashTable.find f p = a.hashTable.find f p))
    (fun _ h => ⟨h, rfl⟩) ?_ ?_ ?_ k i m
  · exact (key hq).2
  · intro a b c h1 h2 ha
    obtain ⟨hb, e1⟩ := h1 ha
    obtain ⟨hc, e2⟩ := h2 hb
    exact ⟨hc, e2.trans e1⟩
  · intro m i _ _ _ _ h
    exact ⟨h, rfl⟩
  · intro m i hv hf hpin h
    have hne : ¬ (file = f ∧ (m.desc i).pageNo = p) := by
      have := h i (m.desc i) (getElem?_of_desc_valid hv) hv hpin
      rwa [hf] at this
    refine ⟨?_, find_remove_ne _ _ _ _ _ hne⟩
    intro j dj hdj hvj hpj
    rw [releaseFrame_bufTable] at hdj
    by_cases hij : i = j
    · subst hij
      rw [List.getElem?_set] at hdj
      split at hdj
      · split at hdj
        · cases hdj
          simp at hvj
        · cases hdj
      · rename_i hne
        exact absurd rfl hne
    · rw [List.getElem?_set_ne hij] at hdj
      exact h j dj hdj hvj hpj

theorem desc_mem {m : BufMgr} {i : Nat} (h : i < m.numBufs) : m.desc i ∈ m.bufTable := by
  unfold BufMgr.desc
  unfold BufMgr.numBufs at h
  rw [List.getD_eq_getElem?_getD, List.getElem?_eq_getElem h]
  exact List.getElem_mem h

theorem getElem?_desc {m : BufMgr} {i : Nat} (h : i < m.numBufs) :
    m.bufTable[i]? = some (m.desc i) := by
  unfold BufMgr.desc
  unfold BufMgr.numBufs at h
  rw [List.getD_eq_getElem?_getD, List.getElem?_eq_getElem h]
  rfl

theorem ScanRel.core_getElem? {m m0 : BufMgr} (h : ScanRel m m0) (i : Nat) :
    (m0.bufTable[i]?).map BufDesc.core = (m.bufTable[i]?).map BufDesc.core := by
  rw [← List.getElem?_map, ← List.getElem?_map, h.1]

theorem ScanRel.symm {m m0 : BufMgr} (h : ScanRel m m0) : ScanRel m0 m :=
  ⟨h.1.symm, h.2.1.symm, h.2.2.1.symm, h.2.2.2.symm⟩

/-- Across a scan, the frame at an index keeps all fields but the reference bit. -/
theorem ScanRel.frame {m m0 : BufMgr} (h : ScanRel m m0) {i : Nat} {d : BufDesc}
    (hd : m.bufTable[i]? = some d) :
    ∃ d0, m0.bufTable[i]? = some d0 ∧ d0.core = d.core := by
  have := h.core_getElem? i
  rw [hd] at this
  cases h0 : m0.bufTable[i]? with
  | none => rw [h0] at this; simp at this
  | some d0 =>
    rw [h0] at this
    exact ⟨d0, rfl, by simpa using this⟩

theorem core_fields {d d0 : BufDesc} (h : d0.core = d.core) :
    d0.file = d.file ∧ d0.pageNo = d.pageNo ∧ d0.pinCnt = d.pinCnt ∧ d0.dirty = d.dirty ∧
      d0.valid = d.valid := by
  simp only [BufDesc.core, Prod.mk.injEq] at h
  exact h

theorem allocBuf_zero (env : Collab) (m : BufMgr) (frame : Int) (h : m.numBufs = 0) :
    allocBuf env m frame = (Status.BUFFEREXCEEDED, m, frame) := by
  simp [allocBuf, h, allocBufLoop]

/-- The scan decomposition for allocBuf itself. -/
theorem allocBuf_scan (env : Collab) (m : BufMgr) (frame : Int) :
    ∃ m0, ScanRel m m0 ∧ (0 < m.numBufs → m0.clockHand < m0.numBufs) ∧
      ScanOutcome env m0 frame (allocBuf env m frame) := by
  obtain ⟨m0, hrel, hin, hout⟩ := allocBufLoop_scan env (m.numBufs * 2) m frame
  exact ⟨m0, hrel, fun h => hin h (Or.inl (Nat.mul_pos h (by decide))), hout⟩

/-- When every frame is valid and pinned, allocBuf finds no frame: it returns
BUFFEREXCEEDED after a scan that changes only reference bits and the clock hand. -/
theorem allocBuf_all_pinned (env : Collab) (m : BufMgr) (frame : Int)
    (hall : ∀ d ∈ m.bufTable, d.valid = true ∧ 0 < d.pinCnt) :
    ∃ m0, ScanRel m m0 ∧ allocBuf env m frame = (Status.BUFFEREXCEEDED, m0, frame) := by
  by_cases hN : m.numBufs = 0
  · exact ⟨m, ScanRel.refl m, allocBuf_zero env m frame hN⟩
  · obtain ⟨m0, hrel, hin, hout⟩ := allocBuf_scan env m frame
    have hlt := hin (Nat.pos_of_ne_zero hN)
    obtain ⟨dm, hdm, hcore⟩ := hrel.symm.frame (getElem?_desc hlt)
    have hmem : dm ∈ m.bufTable := List.getElem?_mem hdm
    obtain ⟨hv, hp⟩ := hall dm hmem
    obtain ⟨-, -, hpc, -, hvc⟩ := core_fields hcore
    rw [hvc] at hv
    rw [hpc] at hp
    refine ⟨m0, hrel, ?_⟩
    rcases hout with h | ⟨-, h | ⟨-, -, h, -⟩⟩ | ⟨-, -, h, -⟩
    · exact h
    · rw [hv] at h; exact absurd h (by decide)
    · exact absurd hp (Int.not_lt.mpr h)
    · exact absurd hp (Int.not_lt.mpr h)

theorem ValidMapped_init (bufs : Nat) : ValidMapped (BufMgr.init bufs) := by
  intro i d hd hv
  simp only [BufMgr.init, List.getElem?_map, Option.map_eq_some'] at hd
  obtain ⟨a, -, rfl⟩ := hd
  cases hv

theorem ValidMapped_scan {m m0 : BufMgr} (h : ScanRel m m0) (hm : ValidMapped m) :
    ValidMapped m0 := by
  intro i d0 hd0 hv0
  obtain ⟨d, hd, hc⟩ := h.symm.frame hd0
  obtain ⟨hf, hp, -, -, hv⟩ := core_fields hc
  rw [h.2.1, ← hf, ← hp]
  exact hm i d hd (hv.trans hv0)

theorem ValidMapped_flushFileLoop (env : Collab) (file : FilePtr) (k i : Nat) (m : BufMgr)
    (hm : ValidMapped m) : ValidMapped (flushFileLoop env file k i m).2 := by
  refine flushFileLoop_rel env file (fun a b => ValidMapped a → ValidMapped b)
    (fun _ h => h) (fun _ _ _ h1 h2 h => h2 (h1 h)) ?_ ?_ k i m hm
  · intro m i _ _ _ _ h
    exact h
  · intro m i hv hf _ h j dj hdj hvj
    rw [releaseFrame_bufTable] at hdj
    by_cases hij : i = j
    · subst hij
      rw [List.getElem?_set] at hdj
      split at hdj
      · split at hdj
        · cases hdj
          simp at hvj
        · cases hdj
      · rename_i hne
        exact absurd rfl hne
    · rw [List.getElem?_set_ne hij] at hdj
      have hj := h j dj hdj hvj
      have hi := h i (m.desc i) (getElem?_of_desc_valid hv) hv
      have hne : ¬ (file = dj.file ∧ (m.desc i).pageNo = dj.pageNo) := by
        rintro ⟨e1, e2⟩
        rw [hf, e1, e2, hj] at hi
        have : (j : Int) = (i : Int) := Option.some.inj hi
        exact hij (Int.ofNat.inj this).symm
      show (m.hashTable.remove file (m.desc i).pageNo).2.find dj.file dj.pageNo = some (j : Int)
      rw [find_remove_ne _ _ _ _ _ hne]
      exact hj

theorem ValidMapped_allocBuf (env : Collab) (m : BufMgr) (frame : Int) (hm : ValidMapped m) :
    ValidMapped (allocBuf env m frame).2.1 := by
  obtain ⟨m0, hrel, -, hout⟩ := allocBuf_scan env m frame
  have h0 := ValidMapped_scan hrel hm
  rcases hout with h | ⟨h, -⟩ | ⟨-, -, -, -, h⟩ <;> rw [h]
  · exact h0
  · exact h0
  · exact ValidMapped_flushFileLoop env _ _ _ m0 h0

theorem ValidMapped_congr {m m1 : BufMgr} (hb : m1.bufTable = m.bufTable)
    (hh : m1.hashTable = m.hashTable) (hm : ValidMapped m) : ValidMapped m1 := by
  intro i d hd hv
  rw [hb] at hd
  rw [hh]
  exact hm i d hd hv

theorem find_cons (file : FilePtr) (p fr : Int) (es : List (FilePtr × Int × Int))
    (f : FilePtr) (q : Int) :
    (BufHashTbl.mk ((file, p, fr) :: es)).find f q =
      if file = f ∧ p = q then some fr else (BufHashTbl.mk es).find f q := by
  simp only [BufHashTbl.find, List.find?_cons]
  by_cases h : file = f ∧ p = q
  · simp [h]
  · simp only [h, decide_False, if_false]

theorem descAt_some {m : BufMgr} {fr : Int} {d : BufDesc} (h : m.descAt fr = some d) :
    0 ≤ fr ∧ m.bufTable[fr.toNat]? = some d := by
  unfold BufMgr.descAt at h
  split at h
  · rename_i h0
    exact ⟨h0, h⟩
  · cases h

theorem insert_ok {ht : BufHashTbl} {file : FilePtr} {p fr : Int} {err : Bool}
    (h : (ht.insert file p fr err).1 ≠ Status.HASHTBLERROR) :
    ht.find file p = none ∧ (ht.insert file p fr err).2 = ⟨(file, p, fr) :: ht.entries⟩ := by
  unfold BufHashTbl.insert at h ⊢
  split at h
  · exact absurd rfl h
  · rename_i hc
    push_neg at hc
    rw [if_neg (by push_neg; exact hc)]
    refine ⟨?_, rfl⟩
    have := hc.2
    simpa using this

/-- Inserting a mapping and setting up the frame it names keeps every valid frame mapped. -/
theorem ValidMapped_insert_Set (m : BufMgr) (file : FilePtr) (p fr : Int) (err : Bool)
    (d : BufDesc) (hm : ValidMapped m)
    (hins : (m.hashTable.insert file p fr err).1 ≠ Status.HASHTBLERROR)
    (hd : ({ m with hashTable := (m.hashTable.insert file p fr err).2 } : BufMgr).descAt fr
      = some d) :
    ValidMapped (({ m with hashTable := (m.hashTable.insert file p fr err).2 } : BufMgr).setDesc
      fr.toNat (d.Set file p)) := by
  obtain ⟨hnone, htab⟩ := insert_ok hins
  obtain ⟨h0, hdm⟩ := descAt_some hd
  intro j dj hdj hvj
  simp only [BufMgr.setDesc] at hdj ⊢
  rw [htab, find_cons]
  by_cases hj : fr.toNat = j
  · subst hj
    rw [List.getElem?_set] at hdj
    split at hdj
    · split at hdj
      · cases hdj
        simp [BufDesc.Set, Int.toNat_of_nonneg h0]
      · cases hdj
    · rename_i hne
      exact absurd rfl hne
  · rw [List.getElem?_set_ne hj] at hdj
    have := hm j dj hdj hvj
    have hne : ¬ (file = dj.file ∧ p = dj.pageNo) := by
      rintro ⟨e1, e2⟩
      rw [← e1, ← e2, hnone] at this
      cases this
    rw [if_neg hne]
    exact this

/-- Overwriting a descriptor by one with the same file, page number and valid flag keeps
every valid frame mapped. -/
theorem ValidMapped_setDesc_same (m : BufMgr) (i : Nat) (d d1 : BufDesc) (hm : ValidMapped m)
    (hd : m.bufTable[i]? = some d) (hf : d1.file = d.file) (hp : d1.pageNo = d.pageNo)
    (hv : d1.valid = d.valid) : ValidMapped (m.setDesc i d1) := by
  intro j dj hdj hvj
  simp only [BufMgr.setDesc] at hdj ⊢
  by_cases hj : i = j
  · subst hj
    rw [List.getElem?_set] at hdj
    split at hdj
    · split at hdj
      · cases hdj
        rw [hf, hp]
        exact hm i d hd (hv.symm.trans hvj)
      · cases hdj
    · rename_i hne
      exact absurd rfl hne
  · rw [List.getElem?_set_ne hj] at hdj
    exact hm j dj hdj hvj

theorem ValidMapped_readPage (env : Collab) (m : BufMgr) (file : FilePtr) (PageNo : Int)
    (page : PagePtr) (frameNo0 : Int) (r : Status × BufMgr × PagePtr) (hm : ValidMapped m)
    (h : readPage env m file PageNo page frameNo0 = some r) : ValidMapped r.2.1 := by
  unfold readPage at h
  simp only at h
  have ha := ValidMapped_allocBuf env m (m.hashTable.lookup file PageNo frameNo0).2 hm
  split at h
  · split at h
    · cases h; exact ha
    · split at h
      · cases h
        exact ValidMapped_congr rfl rfl ha
      · have hst : ∀ (x : BufMgr) (pg : PagePtr) (dt : PageData), ValidMapped x →
            ValidMapped (x.store pg dt) := by
          intro x pg dt hx
          unfold BufMgr.store
          split
          · split
            · exact ValidMapped_congr rfl rfl hx
            · exact hx
          · exact hx
        split at h
        · cases h
          exact hst _ _ _ (ValidMapped_congr rfl rfl ha)
        · rename_i hins
          split at h
          · cases h
          · rename_i d hd
            cases h
            exact ValidMapped_insert_Set _ _ _ _ _ d
              (hst _ _ _ (ValidMapped_congr rfl rfl ha)) hins hd
  · split at h
    · cases h
    · rename_i d hd
      split at h
      · cases h
        obtain ⟨-, hdm⟩ := descAt_some hd
        exact ValidMapped_setDesc_same m _ d _ hm hdm rfl rfl rfl
      · cases h

theorem ValidMapped_unPinPage (sc : StatusCode) (m : BufMgr) (file : FilePtr) (PageNo : Int)
    (dirty : Bool) (frameNo0 : Int) (r : Status × BufMgr) (hm : ValidMapped m)
    (h : unPinPage sc m file PageNo dirty frameNo0 = some r) : ValidMapped r.2 := by
  unfold unPinPage at h
  simp only at h
  split at h
  · split at h
    · cases h
    · split at h
      · cases h; exact hm
      · split at h
        · cases h
        · rename_i d hd
          split at h
          · cases h
            obtain ⟨-, hdm⟩ := descAt_some hd
            refine ValidMapped_setDesc_same m _ d _ hm hdm ?_ ?_ ?_ <;> split <;> rfl
          · cases h
  · cases h; exact hm

theorem ValidMapped_allocPage (env : Collab) (m : BufMgr) (file : FilePtr) (pageNo0 : Int)
    (page : PagePtr) (frameNo0 : Int) (r : Status × BufMgr × Int × PagePtr)
    (hm : ValidMapped m) (h : allocPage env m file pageNo0 page frameNo0 = some r) :
    ValidMapped r.2.1 := by
  unfold allocPage at h
  simp only at h
  have ha := ValidMapped_allocBuf env
    { m with trace := m.trace ++ [IOEvent.allocate file] } frameNo0
    (ValidMapped_congr rfl rfl hm)
  split at h
  · cases h; exact ha
  · split at h
    · cases h; exact ha
    · rename_i hins
      split at h
      · cases h
      · rename_i d hd
        cases h
        exact ValidMapped_insert_Set _ _ _ _ _ d ha hins hd

theorem remove_absent {ht : BufHashTbl} {file : FilePtr} {p : Int}
    (h : ht.find file p = none) : (ht.remove file p).2 = ht := by
  unfold BufHashTbl.remove
  rw [h]
  rfl

theorem ValidMapped_disposePage (env : Collab) (m : BufMgr) (file : FilePtr) (pageNo : Int)
    (r : Status × BufMgr) (hm : ValidMapped m)
    (h : disposePage env m file pageNo = some r) : ValidMapped r.2 := by
  unfold disposePage at h
  simp only at h
  cases hfind : m.hashTable.find file pageNo with
  | none =>
    simp only [BufHashTbl.lookup, hfind] at h
    simp only [reduceCtorEq, if_false, Option.some.injEq] at h
    subst h
    exact ValidMapped_congr (m := m) rfl (remove_absent hfind) hm
  | some fr =>
    simp only [BufHashTbl.lookup, hfind, if_true] at h
    cases hd : m.descAt fr with
    | none => rw [hd] at h; cases h
    | some d =>
      rw [hd] at h
      simp only [Option.some.injEq] at h
      subst h
      obtain ⟨h0, hdm⟩ := descAt_some hd
      intro j dj hdj hvj
      simp only [BufMgr.setDesc] at hdj ⊢
      by_cases hj : fr.toNat = j
      · subst hj
        rw [List.getElem?_set] at hdj
        split at hdj
        · split at hdj
          · cases hdj
            simp [BufDesc.Clear] at hvj
          · cases hdj
        · rename_i hne
          exact absurd rfl hne
      · rw [List.getElem?_set_ne hj] at hdj
        have hmj := hm j dj hdj hvj
        have hne : ¬ (file = dj.file ∧ pageNo = dj.pageNo) := by
          rintro ⟨e1, e2⟩
          rw [← e1, ← e2, hfind] at hmj
          have : fr = (j : Int) := Option.some.inj hmj
          apply hj
          rw [this]
          rfl
        rw [find_remove_ne _ _ _ _ _ hne]
        exact hmj

/-- Every call of the public interface keeps every valid frame mapped. -/
theorem ValidMapped_step (sc : StatusCode) (env : Collab) (m m1 : BufMgr) (c : Call)
    (hm : ValidMapped m) (h : step sc env m c = some m1) : ValidMapped m1 := by
  cases c with
  | readPage file PageNo page frameNo0 =>
    simp only [step, Option.map_eq_some'] at h
    obtain ⟨r, hr, rfl⟩ := h
    exact ValidMapped_readPage env m file PageNo page frameNo0 r hm hr
  | allocPage file pageNo0 page frameNo0 =>
    simp only [step, Option.map_eq_some'] at h
    obtain ⟨r, hr, rfl⟩ := h
    exact ValidMapped_allocPage env m file pageNo0 page frameNo0 r hm hr
  | unPinPage file PageNo dirty frameNo0 =>
    simp only [step, Option.map_eq_some'] at h
    obtain ⟨r, hr, rfl⟩ := h
    exact ValidMapped_unPinPage sc m file PageNo dirty frameNo0 r hm hr
  | disposePage file pageNo =>
    simp only [step, Option.map_eq_some'] at h
    obtain ⟨r, hr, rfl⟩ := h
    exact ValidMapped_disposePage env m file pageNo r hm hr
  | flushFile file =>
    simp only [step, Option.some.injEq] at h
    subst h
    exact ValidMapped_flushFileLoop env file _ _ m hm

/-- In every state the manager can reach, every valid frame is mapped by the Page Index. -/
theorem Reachable.validMapped {sc : StatusCode} {m : BufMgr} (h : Reachable sc m) :
    ValidMapped m := by
  induction h with
  | init bufs => exact ValidMapped_init bufs
  | call env m m1 c _ hstep ih => exact ValidMapped_step sc env m m1 c ih hstep

/-- In every state the manager can reach, at most one valid frame holds a given page. -/
theorem Reachable.unique_holder {sc : StatusCode} {m : BufMgr} (h : Reachable sc m)
    (i j : Nat) (di dj : BufDesc) (hi : m.bufTable[i]? = some di) (hj : m.bufTable[j]? = some dj)
    (hvi : di.valid = true) (hvj : dj.valid = true) (hf : dj.file = di.file)
    (hp : dj.pageNo = di.pageNo) : j = i := by
  have h1 := h.validMapped i di hi hvi
  have h2 := h.validMapped j dj hj hvj
  rw [hf, hp, h1] at h2
  exact (Int.ofNat.inj (Option.some.inj h2)).symm

/-- A scan changes no frame in a way that matters to NoUnpinnedHolder. -/
theorem NoUnpinnedHolder_scan {m m0 : BufMgr} (h : ScanRel m m0) {f : FilePtr} {p : Int}
    (hq : NoUnpinnedHolder m f p) : NoUnpinnedHolder m0 f p := by
  intro j dj hdj hvj hpj hkey
  obtain ⟨dm, hdm, hcm⟩ := h.symm.frame hdj
  obtain ⟨hf, hpn, hpc, -, hvl⟩ := core_fields hcm
  exact hq j dm hdm (hvl.trans hvj) (hpc ▸ hpj) ⟨hf.trans hkey.1, hpn.trans hkey.2⟩

/-- The index entry of a page that no valid unpinned frame holds is left alone by allocBuf. -/
theorem allocBuf_keeps_index (env : Collab) (m : BufMgr) (frame : Int) (f : FilePtr) (p : Int)
    (hq : NoUnpinnedHolder m f p) :
    (allocBuf env m frame).2.1.hashTable.find f p = m.hashTable.find f p := by
  obtain ⟨m0, hrel, -, hout⟩ := allocBuf_scan env m frame
  rcases hout with h | ⟨h, -⟩ | ⟨-, -, -, -, h⟩ <;> rw [h]
  · show m0.hashTable.find f p = _
    rw [hrel.2.1]
  · show m0.hashTable.find f p = _
    rw [hrel.2.1]
  · rw [← hrel.2.1]
    exact flushFileLoop_keeps_index env _ _ _ m0 f p (NoUnpinnedHolder_scan hrel hq)

/-- When at most one valid frame holds the page of a pinned frame, no valid unpinned frame
holds it. -/
theorem NoUnpinnedHolder_of_unique (m : BufMgr) (i : Nat) (d : BufDesc)
    (hd : m.bufTable[i]? = some d) (hp : 0 < d.pinCnt)
    (huniq : ∀ (j : Nat) (dj : BufDesc), m.bufTable[j]? = some dj → dj.valid = true →
      dj.file = d.file → dj.pageNo = d.pageNo → j = i) :
    NoUnpinnedHolder m d.file d.pageNo := by
  intro j dj hdj hvj hpj hkey
  have hji := huniq j dj hdj hvj hkey.1 hkey.2
  subst hji
  rw [hd] at hdj
  cases hdj
  exact absurd hp (Int.not_lt.mpr hpj)

/-- In every state the manager can reach, the Page Index still maps the page of a valid
pinned frame to that frame after allocBuf. -/
theorem allocBuf_keeps_mapping_of_reachable (sc : StatusCode) (env : Collab) (m : BufMgr)
    (frame : Int) (i : Nat) (d : BufDesc) (hr : Reachable sc m)
    (hd : m.bufTable[i]? = some d) (hv : d.valid = true) (hp : 0 < d.pinCnt) :
    (allocBuf env m frame).2.1.hashTable.find d.file d.pageNo = some (i : Int) := by
  rw [allocBuf_keeps_index env m frame d.file d.pageNo
    (NoUnpinnedHolder_of_unique m i d hd hp
      (fun j dj hj hvj hf hpn => hr.unique_holder i j d dj hd hj hv hvj hf hpn))]
  exact hr.validMapped i d hd hv

theorem find_remove_none (ht : BufHashTbl) (file : FilePtr) (pageNo : Int) (f : FilePtr)
    (p : Int) (h : ht.find f p = none) : (ht.remove file pageNo).2.find f p = none := by
  by_cases hk : file = f ∧ pageNo = p
  · rw [hk.1, hk.2]
    exact find_remove_self ht f p
  · rw [find_remove_ne _ _ _ _ _ hk]
    exact h

/-- A page the index does not map stays unmapped through flushFile. -/
theorem flushFileLoop_keeps_unmapped (env : Collab) (file : FilePtr) (k i : Nat) (m : BufMgr)
    (f : FilePtr) (p : Int) (h : m.hashTable.find f p = none) :
    (flushFileLoop env file k i m).2.hashTable.find f p = none := by
  refine flushFileLoop_rel env file
    (fun a b => a.hashTable.find f p = none → b.hashTable.find f p = none)
    (fun _ h => h) (fun _ _ _ h1 h2 h => h2 (h1 h)) ?_ ?_ k i m h
  · intro m i _ _ _ _ h
    exact h
  · intro m i _ _ _ h
    exact find_remove_none _ _ _ _ _ h

theorem desc_setDesc_ne (m : BufMgr) (i j : Nat) (d : BufDesc) (h : i ≠ j) :
    (m.setDesc i d).desc j = m.desc j := by
  simp [BufMgr.setDesc, BufMgr.desc, List.getD_eq_getElem?_getD, List.getElem?_set_ne h]

theorem desc_releaseFrame_ne (m : BufMgr) (file : FilePtr) (i j : Nat) (h : i ≠ j) :
    (releaseFrame m file i).desc j = m.desc j := by
  unfold releaseFrame
  rw [desc_setDesc_ne _ _ _ _ h]
  rfl

/-- When flushFile returns OK, the page of every frame of the file that the loop examined
and found valid is no longer mapped by the index. -/
theorem flushFileLoop_OK_unmaps (env : Collab) (file : FilePtr) (k : Nat) :
    ∀ (i : Nat) (m : BufMgr), (flushFileLoop env file k i m).1 = Status.OK →
      ∀ j, i ≤ j → j < i + k → (m.desc j).valid = true → (m.desc j).file = file →
        (flushFileLoop env file k i m).2.hashTable.find file (m.desc j).pageNo = none := by
  induction k with
  | zero =>
    intro i m _ j h1 h2
    omega
  | succ k ih =>
    intro i m hok j hij hjk hv hf
    have hrest : ∀ m1 : BufMgr, (i = j → m1.hashTable.find file (m.desc j).pageNo = none) →
        (i ≠ j → m1.desc j = m.desc j) →
        (flushFileLoop env file k (i + 1) m1).1 = Status.OK →
        (flushFileLoop env file k (i + 1) m1).2.hashTable.find file (m.desc j).pageNo = none := by
      intro m1 hself hother hok1
      by_cases hj : i = j
      · exact flushFileLoop_keeps_unmapped env file k (i + 1) m1 _ _ (hself hj)
      · have hlt : i + 1 ≤ j := Nat.lt_of_le_of_ne hij hj
        have hjk1 : j < i + 1 + k := by omega
        have := ih (i + 1) m1 hok1 j hlt hjk1
        rw [hother hj] at this
        exact this hv hf
    rw [flushFileLoop_succ] at hok ⊢
    by_cases c1 : (m.desc i).valid = true ∧ (m.desc i).file = file
    · rw [if_pos c1] at hok ⊢
      by_cases c2 : (m.desc i).pinCnt > 0
      · rw [if_pos c2] at hok
        cases hok
      · rw [if_neg c2] at hok ⊢
        by_cases c3 : (m.desc i).dirty = true
        · rw [if_pos c3] at hok ⊢
          by_cases c4 : env.fileWrite m.trace (m.desc i).file (m.desc i).pageNo (m.page i)
              ≠ Status.OK
          · rw [if_pos c4] at hok
            exact absurd hok c4
          · rw [if_neg c4] at hok ⊢
            refine hrest _ ?_ ?_ hok
            · intro hj
              subst hj
              exact find_remove_self _ _ _
            · intro hj
              rw [desc_releaseFrame_ne _ _ _ _ hj]
              rfl
        · rw [if_neg c3] at hok ⊢
          refine hrest _ ?_ ?_ hok
          · intro hj
            subst hj
            exact find_remove_self _ _ _
          · intro hj
            exact desc_releaseFrame_ne _ _ _ _ hj
    · rw [if_neg c1] at hok ⊢
      by_cases c5 : (m.desc i).valid = false ∧ (m.desc i).file = file
      · rw [if_pos c5] at hok
        cases hok
      · rw [if_neg c5] at hok ⊢
        refine hrest m ?_ (fun _ => rfl) hok
        intro hj
        subst hj
        exact absurd ⟨hv, hf⟩ c1

/-- The frame under the clock hand when allocBuf returns: the state m0 the scan ended in
has the hand where allocBuf leaves it, and its descriptor there agrees, up to the
reference bit, with the descriptor v the frame had before the call. -/
theorem allocBuf_hand (env : Collab) (m : BufMgr) (frame : Int) (v : BufDesc)
    (hv : m.bufTable[(allocBuf env m frame).2.1.clockHand]? = some v) :
    ∃ m0, ScanRel m m0 ∧ ScanOutcome env m0 frame (allocBuf env m frame) ∧
      m0.clockHand = (allocBuf env m frame).2.1.clockHand ∧
      m0.bufTable[m0.clockHand]? = some (m0.desc m0.clockHand) ∧
      (m0.desc m0.clockHand).core = v.core := by
  obtain ⟨m0, hrel, -, hout⟩ := allocBuf_scan env m frame
  have hhand : m0.clockHand = (allocBuf env m frame).2.1.clockHand := by
    rcases hout with h | ⟨h, -⟩ | ⟨-, -, -, -, h⟩ <;> rw [h]
    exact ((flushFileLoop_fields env _ _ _ m0).1).symm
  rw [← hhand] at hv
  obtain ⟨d0, hd0, hc0⟩ := hrel.frame hv
  refine ⟨m0, hrel, hout, hhand, ?_, ?_⟩
  · rw [desc_of_getElem? hd0]; exact hd0
  · rw [desc_of_getElem? hd0]; exact hc0

/-- The dirty half of the eviction side effect: when allocBuf returns OK and the frame
under the clock hand was valid and dirty before the call, the page it held is no longer
mapped by the index. -/
theorem allocBuf_dirty_victim_unmapped (env : Collab) (m : BufMgr) (frame : Int) (v : BufDesc)
    (hok : (allocBuf env m frame).1 = Status.OK)
    (hv : m.bufTable[(allocBuf env m frame).2.1.clockHand]? = some v)
    (hvalid : v.valid = true) (hdirty : v.dirty = true) :
    (allocBuf env m frame).2.1.hashTable.find v.file v.pageNo = none := by
  obtain ⟨m0, -, hout, -, hin, hcore⟩ := allocBuf_hand env m frame v hv
  obtain ⟨hf, hpn, -, hdt, hvl⟩ := core_fields hcore
  have hlt : m0.clockHand < m0.numBufs := (List.getElem?_eq_some_iff.mp hin).1
  rw [← hf, ← hpn]
  rcases hout with h | ⟨h, hc | ⟨-, -, -, hc⟩⟩ | ⟨-, -, -, -, h⟩
  · rw [h] at hok; simp at hok
  · rw [hvl, hvalid] at hc; cases hc
  · rw [hdt, hdirty] at hc; cases hc
  · rw [h] at hok ⊢
    have hflush : (flushFile env m0 (m0.desc m0.clockHand).file).1 = Status.OK := by
      by_contra hne
      simp [hne] at hok
    exact flushFileLoop_OK_unmaps env _ _ 0 m0 hflush m0.clockHand (Nat.zero_le _)
      (by simpa using hlt) (hvl.trans hvalid) rfl

/-- The clean half, as the code has it: when allocBuf returns OK and the frame under the
clock hand was valid and clean before the call, the index is exactly as it was, so a
mapping of the page that frame held is still there. -/
theorem allocBuf_clean_victim_index (env : Collab) (m : BufMgr) (frame : Int) (v : BufDesc)
    (hok : (allocBuf env m frame).1 = Status.OK)
    (hv : m.bufTable[(allocBuf env m frame).2.1.clockHand]? = some v)
    (hclean : v.dirty = false) :
    (allocBuf env m frame).2.1.hashTable = m.hashTable := by
  obtain ⟨m0, hrel, hout, -, -, hcore⟩ := allocBuf_hand env m frame v hv
  obtain ⟨-, -, -, hdt, -⟩ := core_fields hcore
  rcases hout with h | ⟨h, -⟩ | ⟨-, -, -, hc, -⟩
  · rw [h] at hok; simp at hok
  · rw [h]; exact hrel.2.1
  · rw [hdt, hclean] at hc; cases hc

/-! ## The claims -/

/-- C1: in a pool of any size (in particular N ≥ 1) whose frames are all valid with
pinCnt > 0, readPage of a page the Page Index does not map returns BUFFEREXCEEDED, issues
no File Handle call (the trace is unchanged), and leaves the file, pageNo, pinCnt, dirty and
valid fields of every frame and the Page Index unchanged. -/
theorem readPage_all_pinned_exceeded (env : Collab) (m : BufMgr) (file : FilePtr)
    (PageNo : Int) (page : PagePtr) (frameNo0 : Int)
    (hall : ∀ d ∈ m.bufTable, d.valid = true ∧ 0 < d.pinCnt)
    (hmiss : m.hashTable.find file PageNo = none) :
    ∃ m1, readPage env m file PageNo page frameNo0 = some (Status.BUFFEREXCEEDED, m1, page) ∧
      m1.trace = m.trace ∧
      m1.bufTable.map BufDesc.core = m.bufTable.map BufDesc.core ∧
      m1.hashTable = m.hashTable := by
  obtain ⟨m0, hrel, halloc⟩ := allocBuf_all_pinned env m frameNo0 hall
  refine ⟨m0, ?_, hrel.2.2.2, hrel.1, hrel.2.1⟩
  simp [readPage, BufHashTbl.lookup, hmiss, halloc]

/-- C1 at a concrete input: readPage on the pool of two pinned frames. -/
theorem readPage_all_pinned_exceeded_witness :
    ∃ m1, readPage envOK poolAllPinned 5 7 (PagePtr.foreign 0) 0 =
        some (Status.BUFFEREXCEEDED, m1, PagePtr.foreign 0) ∧
      m1.trace = poolAllPinned.trace ∧
      m1.bufTable.map BufDesc.core = poolAllPinned.bufTable.map BufDesc.core ∧
      m1.hashTable = poolAllPinned.hashTable :=
  readPage_all_pinned_exceeded envOK poolAllPinned 5 7 (PagePtr.foreign 0) 0
    (by decide) (by decide)

/-- C2: allocBuf, whatever status it returns, leaves a frame that was valid with pinCnt > 0
valid with the same file, pageNo, pinCnt and dirty flag; the Page Index entry of its page is
as before, provided no other valid frame holds the same (file, pageNo), which is so in
every state the manager can reach (Reachable.unique_holder); and when allocBuf returns OK
the frame under the clock hand was, before the call, invalid or had pinCnt ≤ 0. -/
theorem allocBuf_keeps_pinned_frames (env : Collab) (m : BufMgr) (frame : Int) (i : Nat)
    (d : BufDesc) (hd : m.bufTable[i]? = some d) (hv : d.valid = true) (hp : 0 < d.pinCnt) :
    (∃ d1, (allocBuf env m frame).2.1.bufTable[i]? = some d1 ∧ d1.valid = true ∧
      d1.file = d.file ∧ d1.pageNo = d.pageNo ∧ d1.pinCnt = d.pinCnt ∧ d1.dirty = d.dirty) ∧
    ((∀ (j : Nat) (dj : BufDesc), m.bufTable[j]? = some dj → dj.valid = true →
        dj.file = d.file → dj.pageNo = d.pageNo → j = i) →
      (allocBuf env m frame).2.1.hashTable.find d.file d.pageNo =
        m.hashTable.find d.file d.pageNo) ∧
    ((allocBuf env m frame).1 = Status.OK →
      ∃ v, m.bufTable[(allocBuf env m frame).2.1.clockHand]? = some v ∧
        (v.valid = false ∨ v.pinCnt ≤ 0)) := by
  obtain ⟨m0, hrel, hin, hout⟩ := allocBuf_scan env m frame
  have hpos : 0 < m.numBufs := by
    unfold BufMgr.numBufs
    exact (List.getElem?_eq_some_iff.mp hd).1 |> Nat.zero_lt_of_lt
  have hlt := hin hpos
  obtain ⟨d0, hd0, hc0⟩ := hrel.frame hd
  obtain ⟨hf0, hpn0, hpc0, hdt0, hvl0⟩ := core_fields hc0
  -- the frame under the hand, before the call
  obtain ⟨v, hvm, hvc⟩ := hrel.symm.frame (getElem?_desc hlt)
  obtain ⟨-, -, hvpc, -, hvvl⟩ := core_fields hvc
  have hflush : ∀ file, ((flushFile env m0 file).2.bufTable[i]? = some d0) := by
    intro file
    exact flushFileLoop_keeps_pinned env file _ _ m0 i d0 hd0 (hvl0.trans hv) (hpc0 ▸ hp)
  have hhand : ∀ file, (flushFile env m0 file).2.clockHand = m0.clockHand := fun file =>
    (flushFileLoop_fields env file _ _ m0).1
  have hidx : (∀ (j : Nat) (dj : BufDesc), m.bufTable[j]? = some dj → dj.valid = true →
        dj.file = d.file → dj.pageNo = d.pageNo → j = i) →
      (allocBuf env m frame).2.1.hashTable.find d.file d.pageNo =
        m.hashTable.find d.file d.pageNo := fun huniq =>
    allocBuf_keeps_index env m frame d.file d.pageNo
      (NoUnpinnedHolder_of_unique m i d hd hp huniq)
  have good : ∀ x : BufDesc, x.core = d.core → x.valid = true ∧
      x.file = d.file ∧ x.pageNo = d.pageNo ∧ x.pinCnt = d.pinCnt ∧ x.dirty = d.dirty := by
    intro x hx
    obtain ⟨a, b, c, e, f⟩ := core_fields hx
    exact ⟨f.trans hv, a, b, c, e⟩
  refine ⟨?_, hidx, ?_⟩
  · rcases hout with h | ⟨h, -⟩ | ⟨-, -, -, -, h⟩ <;> rw [h]
    · exact ⟨d0, hd0, good d0 hc0⟩
    · exact ⟨d0, hd0, good d0 hc0⟩
    · exact ⟨d0, hflush _, good d0 hc0⟩
  · rcases hout with h | ⟨h, hcase⟩ | ⟨-, -, h3, -, h⟩ <;> rw [h]
    · intro hc
      simp at hc
    · intro _
      refine ⟨v, hvm, ?_⟩
      rcases hcase with hc | ⟨-, -, hc, -⟩
      · left; rw [hvvl]; exact hc
      · right; rw [hvpc]; exact hc
    · intro _
      simp only [hhand]
      exact ⟨v, hvm, Or.inr (by rw [hvpc]; exact h3)⟩

/-- C2 at a concrete input: allocBuf evicts the dirty frame 1 and leaves the pinned frame 0
and its index entry alone. -/
theorem allocBuf_keeps_pinned_frames_witness :
    (allocBuf envOK poolPinnedAndDirty 0).1 = Status.OK ∧
    (allocBuf envOK poolPinnedAndDirty 0).2.1.hashTable.find 6 0 =
      poolPinnedAndDirty.hashTable.find 6 0 ∧
    ∃ d1, (allocBuf envOK poolPinnedAndDirty 0).2.1.bufTable[0]? = some d1 ∧ d1.valid = true ∧
      d1.file = 6 ∧ d1.pageNo = 0 ∧ d1.pinCnt = 1 ∧ d1.dirty = false :=
  have h := allocBuf_keeps_pinned_frames envOK poolPinnedAndDirty 0 0
    ⟨6, 0, 0, 1, false, true, false⟩ (by decide) (by decide) (by decide)
  ⟨by decide, h.2.1 (by
      intro j dj hj _ hf _
      match j, hj with
      | 0, _ => rfl
      | 1, hj =>
        have : dj = ⟨5, 1, 1, 0, true, true, false⟩ := by
          simpa [poolPinnedAndDirty] using hj.symm
        subst this
        exact absurd hf (by decide)
      | n + 2, hj => simp [poolPinnedAndDirty] at hj), h.1⟩

/-- The parameter frame of allocBuf has on return the value it had on entry. -/
theorem allocBuf_frame (env : Collab) (m : BufMgr) (frame : Int) :
    (allocBuf env m frame).2.2 = frame := by
  obtain ⟨m0, -, -, hout⟩ := allocBuf_scan env m frame
  rcases hout with h | ⟨h, -⟩ | ⟨-, -, -, -, h⟩ <;> rw [h]

/-- C3 (code defect): on a fresh pool of one frame, entered with frame = 7, allocBuf
returns OK with the clock hand on frame 0, and frame is still 7: the code never assigns
its output parameter. -/
theorem allocBuf_frame_not_assigned (env : Collab) :
    (allocBuf env (BufMgr.init 1) 7).1 = Status.OK ∧
    (allocBuf env (BufMgr.init 1) 7).2.1.clockHand = 0 ∧
    (allocBuf env (BufMgr.init 1) 7).2.2 = 7 :=
  ⟨rfl, rfl, rfl⟩

/-- C4 (code defect): on a pool whose only frame holds the clean unpinned page (5, 1),
allocBuf returns OK with the hand on that frame, and the Page Index still maps (5, 1)
to it. -/
theorem allocBuf_clean_victim_stays_mapped (env : Collab) :
    poolCleanVictim.bufTable[0]? = some ⟨5, 1, 0, 0, false, true, true⟩ ∧
    (allocBuf env poolCleanVictim 0).1 = Status.OK ∧
    (allocBuf env poolCleanVictim 0).2.1.clockHand = 0 ∧
    (allocBuf env poolCleanVictim 0).2.1.hashTable.find 5 1 = some 0 :=
  ⟨rfl, rfl, rfl, rfl⟩

theorem truthy_OK_or_HASHNOTFOUND (sc : StatusCode) :
    sc.truthy Status.OK = true ∨ sc.truthy Status.HASHNOTFOUND = true := by
  by_contra hcon
  push_neg at hcon
  obtain ⟨h1, h2⟩ := hcon
  simp only [StatusCode.truthy, decide_eq_true_eq, ne_eq, not_not] at h1 h2
  have := sc.inj (h1.trans h2.symm)
  cases this

theorem IndexAgrees_init (bufs : Nat) : IndexAgrees (BufMgr.init bufs) := by
  intro i d hd
  have hv : d.valid = false := by
    simp only [BufMgr.init, List.getElem?_map, Option.map_eq_some'] at hd
    obtain ⟨a, -, rfl⟩ := hd
    rfl
  constructor
  · constructor
    · intro h; rw [hv] at h; cases h
    · rintro ⟨f, p, h⟩
      simp [BufMgr.init, BufHashTbl.find] at h
  · intro f p h
    simp [BufMgr.init, BufHashTbl.find] at h

/-- C5 (code defect): after callsEvictClean on a fresh pool of two frames, under every
numbering of the statuses, the Page Index maps (5, 0) to frame 1 while the descriptor of
frame 1 records page (5, 9): descriptor and index disagree. -/
theorem run_leaves_stale_mapping (sc : StatusCode) :
    ∃ m, run sc envOK (BufMgr.init 2) callsEvictClean = some m ∧
      m.hashTable.find 5 0 = some 1 ∧
      m.bufTable[1]? = some ⟨5, 9, 1, 1, false, true, true⟩ ∧
      ¬ IndexAgrees m := by
  have key : ∃ m, run sc envOK (BufMgr.init 2) callsEvictClean = some m ∧
      m.hashTable.find 5 0 = some 1 ∧
      m.bufTable[1]? = some ⟨5, 9, 1, 1, false, true, true⟩ := by
    cases h1 : sc.truthy Status.OK <;> cases h2 : sc.truthy Status.HASHNOTFOUND
    · rcases truthy_OK_or_HASHNOTFOUND sc with h | h
      · rw [h1] at h; cases h
      · rw [h2] at h; cases h
    all_goals
      simp [callsEvictClean, callsReadUnpin, run, step, readPage, unPinPage, allocBuf,
        allocBufLoop, BufMgr.init, BufHashTbl.lookup, BufHashTbl.find, BufHashTbl.insert,
        envOK, h1, h2, BufMgr.descAt, BufMgr.desc, BufMgr.setDesc, BufMgr.advanceClock,
        BufMgr.numBufs, BufMgr.store, BufDesc.Set, List.range, List.range.loop]
  obtain ⟨m, hrun, hfind, hd⟩ := key
  refine ⟨m, hrun, hfind, hd, ?_⟩
  intro hag
  have := ((hag 1 _ hd).2 5 0 hfind).2
  simp at this

/-- The pool poolPinnedOnce is the state after one readPage on a fresh pool. -/
theorem poolPinnedOnce_reached :
    readPage envOK (BufMgr.init 2) 5 1 (PagePtr.foreign 0) 0 =
      some (Status.OK, poolPinnedOnce, PagePtr.foreign 0) := by
  decide

/-- The pool poolCleanVictim is reached from a fresh pool when OK is numbered 0. -/
theorem poolCleanVictim_reached :
    run StatusCode.zeroOK envOK (BufMgr.init 1)
      [Call.readPage 5 1 (PagePtr.foreign 0) 0, Call.unPinPage 9 0 false 0] =
      some poolCleanVictim := by
  decide

/-- The pool poolUnpinnedAndPinned is reached from a fresh pool when OK is numbered 0. -/
theorem poolUnpinnedAndPinned_reached :
    run StatusCode.zeroOK envOK (BufMgr.init 2)
      [Call.readPage 5 1 (PagePtr.foreign 0) 0, Call.readPage 6 0 (PagePtr.foreign 0) 1,
       Call.unPinPage 9 1 false 0] = some poolUnpinnedAndPinned := by
  decide

/-- C6 (code defect): with page (5, 1) mapped to frame 0, whose pinCnt is 1, unPinPage of
(5, 1) returns HASHNOTFOUND (when OK is zero) or PAGENOTPINNED (otherwise, frame 1 being
unpinned), never OK, under every numbering of the statuses, and changes nothing. -/
theorem unPinPage_pinned_not_OK (sc : StatusCode) (dirty : Bool) (g : Int) :
    poolPinnedOnce.hashTable.find 5 1 = some 0 ∧
    (unPinPage sc poolPinnedOnce 5 1 dirty g = some (Status.HASHNOTFOUND, poolPinnedOnce) ∨
     unPinPage sc poolPinnedOnce 5 1 dirty g = some (Status.PAGENOTPINNED, poolPinnedOnce)) := by
  refine ⟨rfl, ?_⟩
  cases h : sc.truthy Status.OK
  · left
    simp [unPinPage, BufHashTbl.lookup, BufHashTbl.find, poolPinnedOnce, h]
  · right
    simp [unPinPage, BufHashTbl.lookup, BufHashTbl.find, poolPinnedOnce, h, BufMgr.descAt]

theorem truthy_HASHNOTFOUND (sc : StatusCode) (h : sc.toInt Status.OK = 0) :
    sc.truthy Status.HASHNOTFOUND = true := by
  rcases truthy_OK_or_HASHNOTFOUND sc with h1 | h1
  · simp [StatusCode.truthy, h] at h1
  · exact h1

/-- C7 (code defect): when OK is numbered 0, unPinPage of a page the Page Index does not map
enters the branch meant for a cached page; on a fresh pool of one frame it returns
PAGENOTPINNED, not HASHNOTFOUND. -/
theorem unPinPage_unmapped_not_HASHNOTFOUND (sc : StatusCode) (dirty : Bool) (g : Int)
    (h : sc.toInt Status.OK = 0) :
    (BufMgr.init 1).hashTable.find 5 0 = none ∧
    unPinPage sc (BufMgr.init 1) 5 0 dirty g = some (Status.PAGENOTPINNED, BufMgr.init 1) := by
  refine ⟨rfl, ?_⟩
  have ht := truthy_HASHNOTFOUND sc h
  have hinit : BufMgr.init 1 = ⟨0, ⟨[]⟩, [⟨0, 0, 0, 0, false, false, false⟩], [0], []⟩ := rfl
  rw [hinit]
  simp [unPinPage, BufHashTbl.lookup, BufHashTbl.find, ht, BufMgr.descAt]

/-- C7 at a concrete numbering of the statuses. -/
theorem unPinPage_unmapped_not_HASHNOTFOUND_witness :
    (BufMgr.init 1).hashTable.find 5 0 = none ∧
    unPinPage StatusCode.zeroOK (BufMgr.init 1) 5 0 true 0 =
      some (Status.PAGENOTPINNED, BufMgr.init 1) :=
  unPinPage_unmapped_not_HASHNOTFOUND StatusCode.zeroOK true 0 rfl

/-- C8 (code defect): with page (5, 1) mapped to frame 0, whose pinCnt is 0, and frame 1
pinned, unPinPage of (5, 1) returns HASHNOTFOUND (when OK is zero) or tests the pin count
of frame 1, the frame whose index is the page number, returns OK and leaves frame 0 with
pinCnt -1; it never returns PAGENOTPINNED. -/
theorem unPinPage_unpinned_not_PAGENOTPINNED (sc : StatusCode) (g : Int) :
    poolUnpinnedAndPinned.hashTable.find 5 1 = some 0 ∧
    (poolUnpinnedAndPinned.desc 0).pinCnt = 0 ∧
    (unPinPage sc poolUnpinnedAndPinned 5 1 false g =
        some (Status.HASHNOTFOUND, poolUnpinnedAndPinned) ∨
     unPinPage sc poolUnpinnedAndPinned 5 1 false g =
        some (Status.OK, poolUnpinnedAndPinned.setDesc 0 ⟨5, 1, 0, -1, false, true, true⟩)) := by
  refine ⟨rfl, rfl, ?_⟩
  cases h : sc.truthy Status.OK
  · left
    simp [unPinPage, BufHashTbl.lookup, BufHashTbl.find, poolUnpinnedAndPinned, h]
  · right
    simp [unPinPage, BufHashTbl.lookup, BufHashTbl.find, poolUnpinnedAndPinned, h,
      BufMgr.descAt]

/-- C9 (code defect): after callsUnpinTwice on a fresh pool of two frames, under every
numbering of the statuses, frame 1 has a negative pin count. -/
theorem run_reaches_negative_pinCnt (sc : StatusCode) :
    ∃ m, run sc envOK (BufMgr.init 2) callsUnpinTwice = some m ∧ (m.desc 1).pinCnt < 0 := by
  cases h1 : sc.truthy Status.OK <;> cases h2 : sc.truthy Status.HASHNOTFOUND
  · rcases truthy_OK_or_HASHNOTFOUND sc with h | h
    · rw [h1] at h; cases h
    · rw [h2] at h; cases h
  all_goals
    simp [callsUnpinTwice, callsReadUnpin, run, step, readPage, unPinPage, allocBuf,
      allocBufLoop, BufMgr.init, BufHashTbl.lookup, BufHashTbl.find, BufHashTbl.insert,
      envOK, h1, h2, BufMgr.descAt, BufMgr.desc, BufMgr.setDesc, BufMgr.advanceClock,
      BufMgr.numBufs, BufMgr.store, BufDesc.Set, List.range, List.range.loop]

/-- One more readPage of the cached page takes poolPinned k to poolPinned (k + 1) while k
is below the largest int. -/
theorem step_poolPinned (sc : StatusCode) (k : Int) (hk : k < 2147483647) :
    step sc envOK (poolPinned k) (Call.readPage 5 1 (PagePtr.foreign 0) 0) =
      some (poolPinned (k + 1)) := by
  simp [step, readPage, poolPinned, BufHashTbl.lookup, BufHashTbl.find, BufMgr.descAt,
    BufMgr.setDesc, hk]

/-- Every pool poolPinned (n + 1) with n + 1 at most the largest int is reached from a
fresh pool: by one readPage that misses and n that hit. -/
theorem poolPinned_reached (sc : StatusCode) (n : Nat) (hn : (n : Int) + 1 ≤ 2147483647) :
    Reachable sc (poolPinned ((n : Int) + 1)) := by
  induction n with
  | zero =>
    refine Reachable.call envOK (BufMgr.init 2) _ (Call.readPage 5 1 (PagePtr.foreign 0) 0)
      (Reachable.init 2) ?_
    show (readPage envOK (BufMgr.init 2) 5 1 (PagePtr.foreign 0) 0).map (fun r => r.2.1) = _
    rw [poolPinnedOnce_reached]
    rfl
  | succ n ih =>
    have hlt : (n : Int) + 1 < 2147483647 := by push_cast at hn; omega
    have h := Reachable.call envOK _ _ _ (ih (le_of_lt hlt))
      (step_poolPinned sc ((n : Int) + 1) hlt)
    have he : ((n + 1 : Nat) : Int) + 1 = (n : Int) + 1 + 1 := by push_cast; ring
    rw [he]
    exact h

/-- The pool poolPinnedMax is a state the manager can reach. -/
theorem poolPinnedMax_reached (sc : StatusCode) : Reachable sc poolPinnedMax :=
  poolPinned_reached sc 2147483646 (by norm_num)

/-- C10 fails at the largest pin count: the Page Index maps page 1 of file 5 to frame 0 of
poolPinnedMax, whose pinCnt is 2147483647; "pinCnt++" overflows the int there, so
readPage has no defined result, and in particular does not return OK with the pinCnt of
frame 0 increased by one. -/
theorem readPage_hit_fails_at_max_pinCnt :
    poolPinnedMax.hashTable.find 5 1 = some 0 ∧
    poolPinnedMax.bufTable[0]? = some ⟨5, 1, 0, 2147483647, false, true, true⟩ ∧
    readPage envOK poolPinnedMax 5 1 (PagePtr.foreign 0) 0 = none ∧
    ¬ ∃ m1, readPage envOK poolPinnedMax 5 1 (PagePtr.foreign 0) 0 =
        some (Status.OK, m1, PagePtr.pool 0) ∧
      m1.bufTable[0]? = some ⟨5, 1, 0, 2147483647 + 1, false, true, true⟩ := by
  have h : readPage envOK poolPinnedMax 5 1 (PagePtr.foreign 0) 0 = none := by
    simp [readPage, poolPinnedMax, poolPinned, BufHashTbl.lookup, BufHashTbl.find,
      BufMgr.descAt]
  refine ⟨rfl, rfl, h, ?_⟩
  rintro ⟨m1, h1, -⟩
  rw [h] at h1
  cases h1

/-- C10: when the Page Index maps (file, PageNo) to frame f and the pinCnt of f is below
2147483647, the largest int, readPage returns OK with the page reference on pool slot f;
the descriptor of f has its pinCnt increased by one and its refbit set and is otherwise
as before; every other descriptor, the Page Index, the clock hand and the pool are
unchanged, and no File Handle call is issued. -/
theorem readPage_hit (env : Collab) (m : BufMgr) (file : FilePtr) (PageNo : Int)
    (page : PagePtr) (frameNo0 : Int) (f : Nat) (d : BufDesc)
    (hfind : m.hashTable.find file PageNo = some (f : Int))
    (hd : m.bufTable[f]? = some d) (hpin : d.pinCnt < 2147483647) :
    ∃ m1, readPage env m file PageNo page frameNo0 = some (Status.OK, m1, PagePtr.pool f) ∧
      m1.bufTable[f]? = some { d with pinCnt := d.pinCnt + 1, refbit := true } ∧
      (∀ j, j ≠ f → m1.bufTable[j]? = m.bufTable[j]?) ∧
      m1.hashTable = m.hashTable ∧ m1.clockHand = m.clockHand ∧
      m1.bufPool = m.bufPool ∧ m1.trace = m.trace := by
  refine ⟨m.setDesc f { d with pinCnt := d.pinCnt + 1, refbit := true }, ?_, ?_, ?_,
    rfl, rfl, rfl, rfl⟩
  · simp [readPage, BufHashTbl.lookup, hfind, BufMgr.descAt, hd, hpin]
  · have hlt : f < m.bufTable.length := (List.getElem?_eq_some_iff.mp hd).1
    simp [BufMgr.setDesc, List.getElem?_set, hlt]
  · intro j hj
    simp [BufMgr.setDesc, List.getElem?_set, Ne.symm hj]

/-- C10 at a concrete input: a second readPage of the page cached in frame 0. -/
theorem readPage_hit_witness :
    ∃ m1, readPage envOK poolPinnedOnce 5 1 (PagePtr.foreign 0) 3 =
        some (Status.OK, m1, PagePtr.pool 0) ∧
      m1.bufTable[0]? = some ⟨5, 1, 0, 2, false, true, true⟩ ∧
      (∀ j, j ≠ 0 → m1.bufTable[j]? = poolPinnedOnce.bufTable[j]?) ∧
      m1.hashTable = poolPinnedOnce.hashTable ∧ m1.clockHand = poolPinnedOnce.clockHand ∧
      m1.bufPool = poolPinnedOnce.bufPool ∧ m1.trace = poolPinnedOnce.trace :=
  readPage_hit envOK poolPinnedOnce 5 1 (PagePtr.foreign 0) 3 0
    ⟨5, 1, 0, 1, false, true, true⟩ rfl rfl (by decide)

/-! ## Lemmas on the scan of allocBuf -/

theorem scanLoop_succ (n : Nat) (m : BufMgr) :
    scanLoop (n + 1) m =
      if (m.advanceClock.desc m.advanceClock.clockHand).valid = false then
        ⟨ScanStop.invalidFrame, m.advanceClock, 1⟩
      else if (m.advanceClock.desc m.advanceClock.clockHand).refbit = true then
        (scanLoop n (m.advanceClock.setDesc m.advanceClock.clockHand
          { m.advanceClock.desc m.advanceClock.clockHand with refbit := false })).bump 1
      else if (m.advanceClock.desc m.advanceClock.clockHand).pinCnt > 0 then
        (scanLoop n m.advanceClock).bump 1
      else if (m.advanceClock.desc m.advanceClock.clockHand).dirty = true then
        ⟨ScanStop.dirtyVictim, m.advanceClock, 1⟩
      else ⟨ScanStop.cleanVictim, m.advanceClock, 1⟩ := rfl

theorem allocBufLoop_succ (env : Collab) (n : Nat) (m : BufMgr) (frame : Int) :
    allocBufLoop env (n + 1) m frame =
      if (m.advanceClock.desc m.advanceClock.clockHand).valid = false then
        (Status.OK, m.advanceClock, frame)
      else if (m.advanceClock.desc m.advanceClock.clockHand).refbit = true then
        allocBufLoop env n (m.advanceClock.setDesc m.advanceClock.clockHand
          { m.advanceClock.desc m.advanceClock.clockHand with refbit := false }) frame
      else if (m.advanceClock.desc m.advanceClock.clockHand).pinCnt > 0 then
        allocBufLoop env n m.advanceClock frame
      else if (m.advanceClock.desc m.advanceClock.clockHand).dirty = true then
        if (flushFile env m.advanceClock
            (m.advanceClock.desc m.advanceClock.clockHand).file).1 ≠ Status.OK then
          (Status.UNIXERR, (flushFile env m.advanceClock
            (m.advanceClock.desc m.advanceClock.clockHand).file).2, frame)
        else (Status.OK, (flushFile env m.advanceClock
            (m.advanceClock.desc m.advanceClock.clockHand).file).2, frame)
      else (Status.OK, m.advanceClock, frame) := rfl

theorem finishAlloc_bump (env : Collab) (frame : Int) (s : Scan) (k : Nat) :
    finishAlloc env frame (s.bump k) = finishAlloc env frame s := rfl

/-- The loop of allocBuf is its scan followed by the finishing step. -/
theorem allocBufLoop_eq_finish (env : Collab) (frame : Int) (n : Nat) :
    ∀ m : BufMgr, allocBufLoop env n m frame = finishAlloc env frame (scanLoop n m) := by
  induction n with
  | zero => intro m; rfl
  | succ n ih =>
    intro m
    rw [allocBufLoop_succ, scanLoop_succ]
    by_cases h1 : (m.advanceClock.desc m.advanceClock.clockHand).valid = false
    · rw [if_pos h1, if_pos h1]; rfl
    · rw [if_neg h1, if_neg h1]
      by_cases h2 : (m.advanceClock.desc m.advanceClock.clockHand).refbit = true
      · rw [if_pos h2, if_pos h2, finishAlloc_bump]; exact ih _
      · rw [if_neg h2, if_neg h2]
        by_cases h3 : (m.advanceClock.desc m.advanceClock.clockHand).pinCnt > 0
        · rw [if_pos h3, if_pos h3, finishAlloc_bump]; exact ih _
        · rw [if_neg h3, if_neg h3]
          by_cases h4 : (m.advanceClock.desc m.advanceClock.clockHand).dirty = true
          · rw [if_pos h4, if_pos h4]; rfl
          · rw [if_neg h4, if_neg h4]; rfl

/-- The method allocBuf is its scan followed by the finishing step. -/
theorem allocBuf_eq_finish (env : Collab) (m : BufMgr) (frame : Int) :
    allocBuf env m frame = finishAlloc env frame (allocScan m) :=
  allocBufLoop_eq_finish env frame _ m

theorem scanLoop_advances_le (n : Nat) : ∀ m : BufMgr, (scanLoop n m).advances ≤ n := by
  induction n with
  | zero => intro m; exact Nat.le_refl 0
  | succ n ih =>
    intro m
    rw [scanLoop_succ]
    split_ifs
    · exact Nat.succ_le_succ (Nat.zero_le n)
    · exact Nat.succ_le_succ (ih _)
    · exact Nat.succ_le_succ (ih _)
    · exact Nat.succ_le_succ (Nat.zero_le n)
    · exact Nat.succ_le_succ (Nat.zero_le n)

theorem scanLoop_exhausted_advances (n : Nat) :
    ∀ m : BufMgr, (scanLoop n m).stop = ScanStop.exhausted → (scanLoop n m).advances = n := by
  induction n with
  | zero => intro m _; rfl
  | succ n ih =>
    intro m
    rw [scanLoop_succ]
    split_ifs
    · intro h; cases h
    · intro h; exact congrArg (· + 1) (ih _ h)
    · intro h; exact congrArg (· + 1) (ih _ h)
    · intro h; cases h
    · intro h; cases h

/-- The scan changes only reference bits and the clock hand. -/
theorem scanLoop_ScanRel (n : Nat) : ∀ m : BufMgr, ScanRel m (scanLoop n m).state := by
  induction n with
  | zero => intro m; exact ScanRel.refl m
  | succ n ih =>
    intro m
    rw [scanLoop_succ]
    split_ifs
    · exact ScanRel.advance m
    · exact (ScanRel.advance m).trans ((ScanRel.clearRef _ _).trans (ih _))
    · exact (ScanRel.advance m).trans (ih _)
    · exact ScanRel.advance m
    · exact ScanRel.advance m

/-- The descriptor under the clock hand when the scan has stopped on a frame. -/
theorem scanLoop_stop (n : Nat) : ∀ m : BufMgr,
    ((scanLoop n m).stop = ScanStop.invalidFrame →
      ((scanLoop n m).state.desc (scanLoop n m).state.clockHand).valid = false) ∧
    ((scanLoop n m).stop = ScanStop.cleanVictim →
      ((scanLoop n m).state.desc (scanLoop n m).state.clockHand).valid = true ∧
      ((scanLoop n m).state.desc (scanLoop n m).state.clockHand).refbit = false ∧
      ((scanLoop n m).state.desc (scanLoop n m).state.clockHand).pinCnt ≤ 0 ∧
      ((scanLoop n m).state.desc (scanLoop n m).state.clockHand).dirty = false) ∧
    ((scanLoop n m).stop = ScanStop.dirtyVictim →
      ((scanLoop n m).state.desc (scanLoop n m).state.clockHand).valid = true ∧
      ((scanLoop n m).state.desc (scanLoop n m).state.clockHand).refbit = false ∧
      ((scanLoop n m).state.desc (scanLoop n m).state.clockHand).pinCnt ≤ 0 ∧
      ((scanLoop n m).state.desc (scanLoop n m).state.clockHand).dirty = true) := by
  induction n with
  | zero =>
    intro m
    refine ⟨fun h => ?_, fun h => ?_, fun h => ?_⟩ <;> cases h
  | succ n ih =>
    intro m
    rw [scanLoop_succ]
    split_ifs with h1 h2 h3 h4
    · refine ⟨fun _ => h1, fun h => ?_, fun h => ?_⟩ <;> cases h
    · exact ih _
    · exact ih _
    · refine ⟨fun h => ?_, fun h => ?_, fun _ => ⟨by simpa using h1, by simpa using h2,
        Int.not_lt.mp h3, h4⟩⟩ <;> cases h
    · refine ⟨fun h => ?_, fun _ => ⟨by simpa using h1, by simpa using h2,
        Int.not_lt.mp h3, by simpa using h4⟩, fun h => ?_⟩ <;> cases h

/-- When the scan ends with the loop not run out, the clock hand is on a frame of the
pool, provided the pool is not empty. -/
theorem scanLoop_hand_lt (n : Nat) : ∀ m : BufMgr, 0 < m.numBufs →
    (scanLoop n m).stop ≠ ScanStop.exhausted →
    (scanLoop n m).state.clockHand < (scanLoop n m).state.numBufs := by
  induction n with
  | zero => intro m _ h; exact absurd rfl h
  | succ n ih =>
    intro m hN
    rw [scanLoop_succ]
    split_ifs
    · intro _; exact advanceClock_lt m hN
    · intro h; exact ih _ (by rw [setDesc_numBufs]; exact hN) h
    · intro h; exact ih _ hN h
    · intro _; exact advanceClock_lt m hN
    · intro _; exact advanceClock_lt m hN

/-- Once the scan has stopped on a frame, further iterations change nothing. -/
theorem scanLoop_stable (n : Nat) : ∀ (m : BufMgr) (k : Nat),
    (scanLoop n m).stop ≠ ScanStop.exhausted → scanLoop (n + k) m = scanLoop n m := by
  induction n with
  | zero => intro m k h; exact absurd rfl h
  | succ n ih =>
    intro m k
    rw [Nat.add_right_comm, scanLoop_succ, scanLoop_succ]
    split_ifs
    · intro _; rfl
    · intro h; rw [ih _ k h]
    · intro h; rw [ih _ k h]
    · intro _; rfl
    · intro _; rfl

/-- While the scan has not stopped after t iterations, the scan with t + k iterations is
the scan with k iterations from the state reached, with t more advances. -/
theorem scanLoop_add (t : Nat) : ∀ (m : BufMgr) (k : Nat),
    (scanLoop t m).stop = ScanStop.exhausted →
    scanLoop (t + k) m = (scanLoop k (scanLoop t m).state).bump t := by
  induction t with
  | zero =>
    intro m k _
    rw [Nat.zero_add]
    rfl
  | succ t ih =>
    intro m k
    rw [Nat.add_right_comm, scanLoop_succ, scanLoop_succ]
    split_ifs
    · intro h; cases h
    · intro h
      rw [ih _ k h]
      simp only [Scan.bump, Nat.add_assoc]
    · intro h
      rw [ih _ k h]
      simp only [Scan.bump, Nat.add_assoc]
    · intro h; cases h
    · intro h; cases h

theorem bump_stop (s : Scan) (k : Nat) : (s.bump k).stop = s.stop := rfl

theorem bump_state (s : Scan) (k : Nat) : (s.bump k).state = s.state := rfl

theorem bump_advances (s : Scan) (k : Nat) : (s.bump k).advances = s.advances + k := rfl

theorem advanceClock_desc (m : BufMgr) (i : Nat) : m.advanceClock.desc i = m.desc i := rfl

theorem advanceClock_numBufs (m : BufMgr) : m.advanceClock.numBufs = m.numBufs := rfl

theorem advanceClock_hand (m : BufMgr) :
    m.advanceClock.clockHand = (m.clockHand + 1) % m.numBufs := rfl

theorem setDesc_clockHand (m : BufMgr) (i : Nat) (d : BufDesc) :
    (m.setDesc i d).clockHand = m.clockHand := rfl

theorem desc_setDesc_self (m : BufMgr) (i : Nat) (d : BufDesc) (h : i < m.numBufs) :
    (m.setDesc i d).desc i = d := by
  unfold BufMgr.numBufs at h
  simp [BufMgr.setDesc, BufMgr.desc, List.getD_eq_getElem?_getD, List.getElem?_set, h]

/-- Every frame index is reached within numBufs advances of the clock. -/
theorem exists_advance_to (c e N : Nat) (he : e < N) :
    ∃ t, 1 ≤ t ∧ t ≤ N ∧ (c + t) % N = e := by
  have hr : c % N < N := Nat.mod_lt _ (Nat.zero_lt_of_lt he)
  generalize hq : c % N = r at hr
  by_cases hlt : r < e
  · refine ⟨e - r, by omega, by omega, ?_⟩
    rw [Nat.add_mod, hq, Nat.mod_eq_of_lt (a := e - r) (by omega)]
    have : r + (e - r) = e := by omega
    rw [this, Nat.mod_eq_of_lt he]
  · refine ⟨N - r + e, by omega, by omega, ?_⟩
    rw [Nat.add_mod, hq, Nat.add_mod_mod]
    have : r + (N - r + e) = N + e := by omega
    rw [this, Nat.add_mod_left, Nat.mod_eq_of_lt he]

/-- The scan stops on a frame when a frame that is invalid, or unpinned with its reference
bit clear, is within reach of the remaining iterations. -/
theorem scanLoop_ready (n : Nat) : ∀ (m : BufMgr) (e : Nat), e < m.numBufs →
    ((m.desc e).valid = false ∨ ((m.desc e).pinCnt ≤ 0 ∧ (m.desc e).refbit = false)) →
    (∃ t, 1 ≤ t ∧ t ≤ n ∧ (m.clockHand + t) % m.numBufs = e) →
    (scanLoop n m).stop ≠ ScanStop.exhausted := by
  induction n with
  | zero =>
    intro m e _ _ ⟨t, h1, h2, _⟩
    omega
  | succ n ih =>
    intro m e he hready ⟨t, ht1, ht2, ht⟩
    rw [scanLoop_succ]
    by_cases hc : m.advanceClock.clockHand = e
    · rw [hc, advanceClock_desc]
      rcases hready with hv | ⟨hp, hr⟩
      · rw [if_pos hv]
        intro h; cases h
      · split_ifs with h1 h2 h3 h4
        · intro h; cases h
        · rw [hr] at h2; cases h2
        · exact absurd h3 (Int.not_lt.mpr hp)
        · intro h; cases h
        · intro h; cases h
    · have ht2' : 2 ≤ t := by
        rcases Nat.lt_or_ge t 2 with h | h
        · have : t = 1 := by omega
          subst this
          exact absurd ht hc
        · exact h
      have hnext : ∀ m1 : BufMgr, m1.clockHand = m.advanceClock.clockHand →
          m1.numBufs = m.numBufs →
          ∃ t1, 1 ≤ t1 ∧ t1 ≤ n ∧ (m1.clockHand + t1) % m1.numBufs = e := by
        intro m1 h1 h2
        refine ⟨t - 1, by omega, by omega, ?_⟩
        rw [h1, h2, advanceClock_hand, Nat.mod_add_mod]
        have : m.clockHand + 1 + (t - 1) = m.clockHand + t := by omega
        rw [this]
        exact ht
      split_ifs with h1 h2 h3 h4
      · intro h; cases h
      · rw [bump_stop]
        refine ih _ e (by rw [setDesc_numBufs]; exact he) ?_ (hnext _ rfl (setDesc_numBufs _ _ _))
        rw [desc_setDesc_ne _ _ _ _ hc]
        exact hready
      · rw [bump_stop]
        exact ih _ e he hready (hnext _ rfl rfl)
      · intro h; cases h
      · intro h; cases h

/-- The scan stops on a frame when a frame that is invalid or unpinned is within reach
with one more pass to spare. -/
theorem scanLoop_eligible (n : Nat) : ∀ (m : BufMgr) (e : Nat), e < m.numBufs →
    ((m.desc e).valid = false ∨ (m.desc e).pinCnt ≤ 0) →
    (∃ t, 1 ≤ t ∧ t + m.numBufs ≤ n ∧ (m.clockHand + t) % m.numBufs = e) →
    (scanLoop n m).stop ≠ ScanStop.exhausted := by
  induction n with
  | zero =>
    intro m e _ _ ⟨t, h1, h2, _⟩
    omega
  | succ n ih =>
    intro m e he helig ⟨t, ht1, ht2, ht⟩
    rw [scanLoop_succ]
    by_cases hc : m.advanceClock.clockHand = e
    · rw [hc, advanceClock_desc]
      split_ifs with h1 h2 h3 h4
      · intro h; cases h
      · rw [bump_stop]
        have he' : e < (m.advanceClock.setDesc e { m.desc e with refbit := false }).numBufs := by
          rw [setDesc_numBufs]; exact he
        apply scanLoop_ready n _ e he'
        · right
          rw [desc_setDesc_self m.advanceClock _ _ he]
          rcases helig with hv | hp
          · exact absurd hv h1
          · exact ⟨hp, rfl⟩
        · refine ⟨m.numBufs, Nat.zero_lt_of_lt he, by omega, ?_⟩
          rw [setDesc_numBufs, setDesc_clockHand, hc, advanceClock_numBufs, Nat.add_mod_right,
            Nat.mod_eq_of_lt he]
      · rcases helig with hv | hp
        · exact absurd hv h1
        · exact absurd h3 (Int.not_lt.mpr hp)
      · intro h; cases h
      · intro h; cases h
    · have ht2' : 2 ≤ t := by
        rcases Nat.lt_or_ge t 2 with h | h
        · have : t = 1 := by omega
          subst this
          exact absurd ht hc
        · exact h
      have hnext : ∀ m1 : BufMgr, m1.clockHand = m.advanceClock.clockHand →
          m1.numBufs = m.numBufs →
          ∃ t1, 1 ≤ t1 ∧ t1 + m1.numBufs ≤ n ∧ (m1.clockHand + t1) % m1.numBufs = e := by
        intro m1 h1 h2
        refine ⟨t - 1, by omega, by rw [h2]; omega, ?_⟩
        rw [h1, h2, advanceClock_hand, Nat.mod_add_mod]
        have : m.clockHand + 1 + (t - 1) = m.clockHand + t := by omega
        rw [this]
        exact ht
      split_ifs with h1 h2 h3 h4
      · intro h; cases h
      · rw [bump_stop]
        refine ih _ e (by rw [setDesc_numBufs]; exact he) ?_ (hnext _ rfl (setDesc_numBufs _ _ _))
        rw [desc_setDesc_ne _ _ _ _ hc]
        exact helig
      · rw [bump_stop]
        exact ih _ e he helig (hnext _ rfl rfl)
      · intro h; cases h
      · intro h; cases h

/-- The scan of allocBuf stops on a frame whenever some frame is invalid or unpinned. -/
theorem allocScan_stops (m : BufMgr) (d : BufDesc) (hd : d ∈ m.bufTable)
    (helig : d.valid = false ∨ d.pinCnt ≤ 0) : (allocScan m).stop ≠ ScanStop.exhausted := by
  obtain ⟨e, he⟩ := List.mem_iff_getElem?.mp hd
  have hlt : e < m.numBufs := (List.getElem?_eq_some_iff.mp he).1
  obtain ⟨t, ht1, ht2, ht⟩ := exists_advance_to m.clockHand e m.numBufs hlt
  apply scanLoop_eligible _ m e hlt
  · rw [desc_of_getElem? he]; exact helig
  · exact ⟨t, ht1, by omega, ht⟩

theorem finishAlloc_exceeded_iff (env : Collab) (frame : Int) (s : Scan) :
    (finishAlloc env frame s).1 = Status.BUFFEREXCEEDED ↔ s.stop = ScanStop.exhausted := by
  unfold finishAlloc
  cases hs : s.stop <;> simp
  split <;> simp

theorem finishAlloc_hand (env : Collab) (frame : Int) (s : Scan) :
    (finishAlloc env frame s).2.1.clockHand = s.state.clockHand := by
  unfold finishAlloc
  cases hs : s.stop <;> simp
  split <;> exact (flushFileLoop_fields env _ _ _ _).1

/-- The frame the scan stopped on was, before the call, invalid or unpinned. -/
theorem allocScan_victim (m : BufMgr) (h : (allocScan m).stop ≠ ScanStop.exhausted) :
    ∃ v, m.bufTable[(allocScan m).state.clockHand]? = some v ∧
      (v.valid = false ∨ v.pinCnt ≤ 0) := by
  have hrel : ScanRel m (allocScan m).state := scanLoop_ScanRel _ m
  have hpos : 0 < m.numBufs := by
    rcases Nat.eq_zero_or_pos m.numBufs with h0 | h0
    · exfalso
      apply h
      unfold allocScan
      rw [h0]
      rfl
    · exact h0
  have hlt := scanLoop_hand_lt _ m hpos h
  obtain ⟨v, hv, hc⟩ := hrel.symm.frame (getElem?_desc hlt)
  obtain ⟨-, -, hpc, -, hvl⟩ := core_fields hc
  refine ⟨v, hv, ?_⟩
  obtain ⟨h1, h2, h3⟩ := scanLoop_stop (m.numBufs * 2) m
  cases hs : (allocScan m).stop with
  | exhausted => exact absurd hs h
  | invalidFrame => left; rw [hvl]; exact h1 hs
  | cleanVictim => right; rw [hpc]; exact (h2 hs).2.2.1
  | dirtyVictim => right; rw [hpc]; exact (h3 hs).2.2.1

/-- One iteration of the scan. -/
theorem scanLoop_one (m : BufMgr) :
    scanLoop 1 m =
      if (m.advanceClock.desc m.advanceClock.clockHand).valid = false then
        ⟨ScanStop.invalidFrame, m.advanceClock, 1⟩
      else if (m.advanceClock.desc m.advanceClock.clockHand).refbit = true then
        ⟨ScanStop.exhausted, m.advanceClock.setDesc m.advanceClock.clockHand
          { m.advanceClock.desc m.advanceClock.clockHand with refbit := false }, 1⟩
      else if (m.advanceClock.desc m.advanceClock.clockHand).pinCnt > 0 then
        ⟨ScanStop.exhausted, m.advanceClock, 1⟩
      else if (m.advanceClock.desc m.advanceClock.clockHand).dirty = true then
        ⟨ScanStop.dirtyVictim, m.advanceClock, 1⟩
      else ⟨ScanStop.cleanVictim, m.advanceClock, 1⟩ := by
  rw [scanLoop_succ]
  split_ifs <;> rfl

/-- The scan with one more iteration, seen from the state the shorter scan reached. -/
theorem scanLoop_snoc (t : Nat) (m : BufMgr) (h : (scanLoop t m).stop = ScanStop.exhausted) :
    scanLoop (t + 1) m = (scanLoop 1 (scanLoop t m).state).bump t :=
  scanLoop_add t m 1 h

/-- A scan that has not stopped had not stopped earlier. -/
theorem scanLoop_prefix (s k : Nat) (m : BufMgr)
    (h : (scanLoop (s + k) m).stop = ScanStop.exhausted) :
    (scanLoop s m).stop = ScanStop.exhausted := by
  by_contra hne
  rw [scanLoop_stable s m k hne] at h
  exact hne h

theorem scanLoop_numBufs (n : Nat) (m : BufMgr) : (scanLoop n m).state.numBufs = m.numBufs :=
  (scanLoop_ScanRel n m).length

/-- The position of the clock hand after the scan made its advances. -/
theorem scanLoop_hand (n : Nat) : ∀ m : BufMgr, 0 < n → 0 < (scanLoop n m).advances ∧
    (scanLoop n m).state.clockHand = (m.clockHand + (scanLoop n m).advances) % m.numBufs := by
  induction n with
  | zero => intro m h; omega
  | succ n ih =>
    intro m _
    rw [scanLoop_succ]
    have step : ∀ m1 : BufMgr, m1.clockHand = m.advanceClock.clockHand →
        m1.numBufs = m.numBufs →
        0 < ((scanLoop n m1).bump 1).advances ∧
        ((scanLoop n m1).bump 1).state.clockHand =
          (m.clockHand + ((scanLoop n m1).bump 1).advances) % m.numBufs := by
      intro m1 h1 h2
      rw [bump_advances, bump_state]
      refine ⟨Nat.succ_pos _, ?_⟩
      rcases Nat.eq_zero_or_pos n with h0 | h0
      · subst h0
        show m1.clockHand = _
        rw [h1]
        rfl
      · rw [(ih m1 h0).2, h1, h2, advanceClock_hand, Nat.mod_add_mod]
        congr 1
        omega
    split_ifs
    · exact ⟨Nat.one_pos, rfl⟩
    · exact step _ rfl (setDesc_numBufs _ _ _)
    · exact step _ rfl rfl
    · exact ⟨Nat.one_pos, rfl⟩
    · exact ⟨Nat.one_pos, rfl⟩

/-- One iteration of the scan changes no descriptor other than, at most, the reference
bit of the frame the hand advances to. -/
theorem scanLoop_one_desc (m : BufMgr) (i : Nat)
    (h : (scanLoop 1 m).state.clockHand ≠ i) : (scanLoop 1 m).state.desc i = m.desc i := by
  rw [scanLoop_one] at h ⊢
  split_ifs at h ⊢
  · rfl
  · exact desc_setDesc_ne _ _ _ _ h
  · rfl
  · rfl
  · rfl

/-- One iteration of the scan sets no reference bit. -/
theorem scanLoop_one_refbit (m : BufMgr) (i : Nat) (h : (m.desc i).refbit = false) :
    ((scanLoop 1 m).state.desc i).refbit = false := by
  by_cases hc : (scanLoop 1 m).state.clockHand = i
  · rw [scanLoop_one] at hc ⊢
    split_ifs at hc ⊢ with h1 h2
    · exact h
    · by_cases hlt : i < m.numBufs
      · have hc' : m.advanceClock.clockHand = i := hc
        rw [hc', desc_setDesc_self m.advanceClock _ _ hlt]
      · have hc' : m.advanceClock.clockHand = i := hc
        rw [hc'] at h2
        rw [advanceClock_desc, h] at h2
        cases h2
    · exact h
    · exact h
    · exact h
  · rw [scanLoop_one_desc m i hc]
    exact h

theorem ScanRel.desc_core {m m0 : BufMgr} (h : ScanRel m m0) {i : Nat} (hi : i < m.numBufs) :
    (m0.desc i).core = (m.desc i).core := by
  obtain ⟨d0, hd0, hc⟩ := h.frame (getElem?_desc hi)
  rw [desc_of_getElem? hd0]
  exact hc

/-- A frame the clock hand has not been on during the scan so far has its descriptor
unchanged. -/
theorem scanLoop_unvisited (v : Nat) (m : BufMgr) (t : Nat) :
    (scanLoop t m).stop = ScanStop.exhausted →
    (∀ s, 1 ≤ s → s ≤ t → (scanLoop s m).state.clockHand ≠ v) →
    (scanLoop t m).state.desc v = m.desc v := by
  induction t with
  | zero => intro _ _; rfl
  | succ t ih =>
    intro hex hnot
    have hex0 := scanLoop_prefix t 1 m hex
    have h0 := ih hex0 (fun s h1 h2 => hnot s h1 (Nat.le_succ_of_le h2))
    have hlast := hnot (t + 1) (Nat.succ_pos t) (Nat.le_refl _)
    rw [scanLoop_snoc t m hex0, bump_state] at hlast ⊢
    rw [scanLoop_one_desc _ v hlast]
    exact h0

/-- A valid unpinned frame the clock hand has been on during a scan that is still running
has its reference bit clear. -/
theorem scanLoop_visited (v : Nat) (m : BufMgr) (hv : v < m.numBufs)
    (hpin : (m.desc v).pinCnt ≤ 0) (t : Nat) :
    (scanLoop t m).stop = ScanStop.exhausted →
    (∃ s, 1 ≤ s ∧ s ≤ t ∧ (scanLoop s m).state.clockHand = v) →
    ((scanLoop t m).state.desc v).refbit = false := by
  induction t with
  | zero =>
    rintro _ ⟨s, h1, h2, _⟩
    omega
  | succ t ih =>
    rintro hex ⟨s, hs1, hs2, hs⟩
    have hex0 := scanLoop_prefix t 1 m hex
    rcases Nat.lt_or_ge s (t + 1) with hlt | hge
    · have h0 := ih hex0 ⟨s, hs1, Nat.le_of_lt_succ hlt, hs⟩
      rw [scanLoop_snoc t m hex0, bump_state]
      exact scanLoop_one_refbit _ v h0
    · have hst : s = t + 1 := Nat.le_antisymm hs2 hge
      subst hst
      have hcore := (scanLoop_ScanRel t m).desc_core hv
      obtain ⟨-, -, hpc, -, hvl⟩ := core_fields hcore
      have hv' : v < (scanLoop t m).state.numBufs := by rw [scanLoop_numBufs]; exact hv
      rw [scanLoop_snoc t m hex0] at hs hex ⊢
      rw [bump_state] at hs ⊢
      rw [bump_stop] at hex
      rw [scanLoop_one] at hs hex ⊢
      split_ifs at hs hex ⊢ with h1 h2 h3 h4
      · have hc : (scanLoop t m).state.advanceClock.clockHand = v := hs
        rw [hc]
        show (((scanLoop t m).state.advanceClock.setDesc v _).desc v).refbit = false
        rw [desc_setDesc_self (scanLoop t m).state.advanceClock _ _ hv']
      · have hc : (scanLoop t m).state.advanceClock.clockHand = v := hs
        rw [hc, advanceClock_desc, hpc] at h3
        exact absurd h3 (Int.not_lt.mpr hpin)

/-- Second chance, first visit: when the scan, still running after t advances, advances
onto a valid unpinned frame whose reference bit is set, it does not stop there; it clears
that reference bit and changes nothing else. -/
theorem scanLoop_first_visit (v : Nat) (m : BufMgr) (t : Nat)
    (hex : (scanLoop t m).stop = ScanStop.exhausted)
    (hhand : (scanLoop t m).state.advanceClock.clockHand = v)
    (hvalid : ((scanLoop t m).state.desc v).valid = true)
    (href : ((scanLoop t m).state.desc v).refbit = true) :
    scanLoop (t + 1) m =
      ⟨ScanStop.exhausted,
        (scanLoop t m).state.advanceClock.setDesc v
          { (scanLoop t m).state.desc v with refbit := false }, t + 1⟩ := by
  rw [scanLoop_snoc t m hex, scanLoop_one, hhand, advanceClock_desc]
  rw [if_neg (by rw [hvalid]; simp), if_pos href]
  simp [Scan.bump, Nat.add_comm]

/-- Second chance, later visit: when the scan, still running after t advances, advances
onto a valid unpinned frame whose reference bit is clear, it stops there. -/
theorem scanLoop_second_visit (v : Nat) (m : BufMgr) (t : Nat)
    (hex : (scanLoop t m).stop = ScanStop.exhausted)
    (hhand : (scanLoop t m).state.advanceClock.clockHand = v)
    (hvalid : ((scanLoop t m).state.desc v).valid = true)
    (hpin : ((scanLoop t m).state.desc v).pinCnt ≤ 0)
    (href : ((scanLoop t m).state.desc v).refbit = false) :
    ((scanLoop (t + 1) m).stop = ScanStop.cleanVictim ∨
      (scanLoop (t + 1) m).stop = ScanStop.dirtyVictim) ∧
    (scanLoop (t + 1) m).state = (scanLoop t m).state.advanceClock ∧
    (scanLoop (t + 1) m).advances = t + 1 := by
  rw [scanLoop_snoc t m hex, scanLoop_one, hhand, advanceClock_desc]
  rw [if_neg (by rw [hvalid]; simp), if_neg (by rw [href]; simp),
    if_neg (Int.not_lt.mpr hpin)]
  split_ifs
  · exact ⟨Or.inr rfl, rfl, by simp [Scan.bump, Nat.add_comm]⟩
  · exact ⟨Or.inl rfl, rfl, by simp [Scan.bump, Nat.add_comm]⟩

theorem add_mod_ne_self (c s N : Nat) (hc : c < N) (h1 : 1 ≤ s) (h2 : s < N) :
    (c + s) % N ≠ c := by
  by_cases h : c + s < N
  · rw [Nat.mod_eq_of_lt h]; omega
  · have : c + s = N + (c + s - N) := by omega
    rw [this, Nat.add_mod_left, Nat.mod_eq_of_lt (by omega)]
    omega

/-- One pass over referenced frames: in a pool whose frames are all valid, clean and
unpinned, when the next k frames under the clock are referenced and all other frames are
not, the scan clears those k reference bits and stops on the frame after them. -/
theorem scanLoop_pass (k : Nat) : ∀ m : BufMgr, k ≤ m.numBufs → 0 < m.numBufs →
    (∀ i, i < m.numBufs →
      (m.desc i).valid = true ∧ (m.desc i).dirty = false ∧ (m.desc i).pinCnt ≤ 0) →
    (∀ s, 1 ≤ s → s ≤ k → (m.desc ((m.clockHand + s) % m.numBufs)).refbit = true) →
    (∀ i, i < m.numBufs → (∀ s, 1 ≤ s → s ≤ k → (m.clockHand + s) % m.numBufs ≠ i) →
      (m.desc i).refbit = false) →
    (scanLoop (k + 1) m).stop = ScanStop.cleanVictim ∧
    (scanLoop (k + 1) m).advances = k + 1 ∧
    (scanLoop (k + 1) m).state.clockHand = (m.clockHand + (k + 1)) % m.numBufs ∧
    ∀ i, i < m.numBufs → ((scanLoop (k + 1) m).state.desc i).refbit = false := by
  induction k with
  | zero =>
    intro m _ hN hall _ hclear
    have hc : m.advanceClock.clockHand < m.numBufs := advanceClock_lt m hN
    obtain ⟨hv, hd, hp⟩ := hall _ hc
    have hr := hclear _ hc (fun s h1 h2 => by omega)
    rw [scanLoop_one, advanceClock_desc, if_neg (by rw [hv]; simp), if_neg (by rw [hr]; simp),
      if_neg (Int.not_lt.mpr hp), if_neg (by rw [hd]; simp)]
    refine ⟨rfl, rfl, rfl, ?_⟩
    intro i hi
    exact hclear i hi (fun s h1 h2 => by omega)
  | succ k ih =>
    intro m hk hN hall href hclear
    have hc : m.advanceClock.clockHand < m.numBufs := advanceClock_lt m hN
    obtain ⟨hv, hd, hp⟩ := hall _ hc
    have hr : (m.desc m.advanceClock.clockHand).refbit = true := by
      have := href 1 (Nat.le_refl 1) (Nat.succ_le_succ (Nat.zero_le k))
      exact this
    rw [scanLoop_succ, advanceClock_desc, if_neg (by rw [hv]; simp), if_pos hr]
    have hdesc : ∀ i, i ≠ m.advanceClock.clockHand →
        (m.advanceClock.setDesc m.advanceClock.clockHand
          { m.desc m.advanceClock.clockHand with refbit := false }).desc i = m.desc i := by
      intro i hi
      rw [desc_setDesc_ne _ _ _ _ (Ne.symm hi)]
      rfl
    have hself : (m.advanceClock.setDesc m.advanceClock.clockHand
          { m.desc m.advanceClock.clockHand with refbit := false }).desc
          m.advanceClock.clockHand = { m.desc m.advanceClock.clockHand with refbit := false } :=
      desc_setDesc_self m.advanceClock _ _ hc
    have hpos : ∀ s, (m.advanceClock.clockHand + s) % m.numBufs =
        (m.clockHand + (s + 1)) % m.numBufs := by
      intro s
      rw [advanceClock_hand, Nat.mod_add_mod]
      congr 1
      omega
    have key := ih (m.advanceClock.setDesc m.advanceClock.clockHand
          { m.desc m.advanceClock.clockHand with refbit := false })
      (by rw [setDesc_numBufs]; exact Nat.le_of_succ_le hk)
      (by rw [setDesc_numBufs]; exact hN)
      (by
        intro i hi
        rw [setDesc_numBufs] at hi
        by_cases hic : i = m.advanceClock.clockHand
        · rw [hic, hself]
          exact ⟨hv, hd, hp⟩
        · rw [hdesc i hic]
          exact hall i hi)
      (by
        intro s h1 h2
        rw [setDesc_numBufs, setDesc_clockHand]
        have hne : (m.advanceClock.clockHand + s) % m.numBufs ≠ m.advanceClock.clockHand :=
          add_mod_ne_self _ s _ hc h1 (by omega)
        rw [advanceClock_numBufs, hdesc _ hne, hpos]
        exact href (s + 1) (by omega) (by omega))
      (by
        intro i hi hout
        rw [setDesc_numBufs] at hi hout
        rw [setDesc_clockHand] at hout
        by_cases hic : i = m.advanceClock.clockHand
        · rw [hic, hself]
        · rw [hdesc i hic]
          apply hclear i hi
          intro s h1 h2
          rcases Nat.lt_or_ge s 2 with hs | hs
          · have : s = 1 := by omega
            subst this
            exact fun e => hic e.symm
          · have := hout (s - 1) (by omega) (by omega)
            rw [advanceClock_numBufs, hpos] at this
            have e : s - 1 + 1 = s := by omega
            rw [e] at this
            exact this)
    obtain ⟨k1, k2, k3, k4⟩ := key
    rw [bump_stop, bump_advances, bump_state]
    refine ⟨k1, by rw [k2], ?_, ?_⟩
    · rw [k3, setDesc_numBufs, setDesc_clockHand, advanceClock_numBufs, hpos]
    · intro i hi
      exact k4 i (by rw [setDesc_numBufs]; exact hi)

/-- The scan of allocBuf is the scan with fewer iterations once that one has stopped. -/
theorem allocScan_eq_of_stopped (m : BufMgr) (n : Nat) (hn : n ≤ m.numBufs * 2)
    (h : (scanLoop n m).stop ≠ ScanStop.exhausted) : allocScan m = scanLoop n m := by
  unfold allocScan
  have : m.numBufs * 2 = n + (m.numBufs * 2 - n) := by omega
  rw [this]
  exact scanLoop_stable n m _ h

/-- In a pool whose frames are all valid, clean, unpinned and referenced, the scan of
allocBuf stops on a clean victim after numBufs + 1 advances, one frame past the position of
the clock hand, with every reference bit cleared. -/
theorem allocScan_all_referenced (m : BufMgr) (hN : 0 < m.numBufs)
    (hall : ∀ d ∈ m.bufTable,
      d.valid = true ∧ d.dirty = false ∧ d.pinCnt ≤ 0 ∧ d.refbit = true) :
    (allocScan m).stop = ScanStop.cleanVictim ∧
    (allocScan m).advances = m.numBufs + 1 ∧
    (allocScan m).state.clockHand = (m.clockHand + 1) % m.numBufs ∧
    ∀ d ∈ (allocScan m).state.bufTable, d.refbit = false := by
  have key := scanLoop_pass m.numBufs m (Nat.le_refl _) hN
    (fun i hi => by
      obtain ⟨h1, h2, h3, -⟩ := hall _ (desc_mem hi)
      exact ⟨h1, h2, h3⟩)
    (fun s _ _ => (hall _ (desc_mem (Nat.mod_lt _ hN))).2.2.2)
    (fun i hi hout => by
      obtain ⟨t, h1, h2, h3⟩ := exists_advance_to m.clockHand i m.numBufs hi
      exact absurd h3 (hout t h1 h2))
  obtain ⟨k1, k2, k3, k4⟩ := key
  have hs : allocScan m = scanLoop (m.numBufs + 1) m :=
    allocScan_eq_of_stopped m _ (by omega) (by rw [k1]; intro h; cases h)
  rw [hs]
  refine ⟨k1, k2, ?_, ?_⟩
  · rw [k3]
    have : m.clockHand + (m.numBufs + 1) = m.clockHand + 1 + m.numBufs := by omega
    rw [this, Nat.add_mod_right]
  · intro d hd
    obtain ⟨i, hi⟩ := List.mem_iff_getElem?.mp hd
    have hlt : i < (scanLoop (m.numBufs + 1) m).state.numBufs :=
      (List.getElem?_eq_some_iff.mp hi).1
    rw [← desc_of_getElem? hi]
    exact k4 i (by rw [scanLoop_numBufs] at hlt; exact hlt)

/-! ## Lemmas on flushFile -/

theorem logWrite_desc (m : BufMgr) (i j : Nat) : (logWrite m i).desc j = m.desc j := rfl

theorem logWrite_page (m : BufMgr) (i j : Nat) : (logWrite m i).page j = m.page j := rfl

theorem releaseFrame_page (m : BufMgr) (file : FilePtr) (i j : Nat) :
    (releaseFrame m file i).page j = m.page j := rfl

theorem releaseFrame_trace (m : BufMgr) (file : FilePtr) (i : Nat) :
    (releaseFrame m file i).trace = m.trace := rfl

theorem dirtyWritesFrom_congr (file : FilePtr) (m m1 : BufMgr) (k : Nat) :
    ∀ i, (∀ j, i ≤ j → m1.desc j = m.desc j) → (∀ j, m1.page j = m.page j) →
      dirtyWritesFrom file m1 k i = dirtyWritesFrom file m k i := by
  induction k with
  | zero => intro i _ _; rfl
  | succ k ih =>
    intro i hd hp
    simp only [dirtyWritesFrom]
    rw [hd i (Nat.le_refl i), hp i, ih (i + 1) (fun j hj => hd j (by omega)) hp]

/-- Case analysis of one iteration of flushFile that does not make the call return. -/
theorem flushFileLoop_OK_step (env : Collab) (file : FilePtr) (k i : Nat) (m : BufMgr)
    (hok : (flushFileLoop env file (k + 1) i m).1 = Status.OK) :
    ((m.desc i).valid = true ∧ (m.desc i).file = file ∧ (m.desc i).pinCnt ≤ 0 ∧
      (m.desc i).dirty = true ∧
      env.fileWrite m.trace (m.desc i).file (m.desc i).pageNo (m.page i) = Status.OK ∧
      flushFileLoop env file (k + 1) i m =
        flushFileLoop env file k (i + 1) (releaseFrame (logWrite m i) file i)) ∨
    ((m.desc i).valid = true ∧ (m.desc i).file = file ∧ (m.desc i).pinCnt ≤ 0 ∧
      (m.desc i).dirty = false ∧
      flushFileLoop env file (k + 1) i m =
        flushFileLoop env file k (i + 1) (releaseFrame m file i)) ∨
    ((m.desc i).file ≠ file ∧
      flushFileLoop env file (k + 1) i m = flushFileLoop env file k (i + 1) m) := by
  rw [flushFileLoop_succ] at hok ⊢
  by_cases c1 : (m.desc i).valid = true ∧ (m.desc i).file = file
  · rw [if_pos c1] at hok ⊢
    by_cases c2 : (m.desc i).pinCnt > 0
    · rw [if_pos c2] at hok; cases hok
    · rw [if_neg c2] at hok ⊢
      by_cases c3 : (m.desc i).dirty = true
      · rw [if_pos c3] at hok ⊢
        by_cases c4 : env.fileWrite m.trace (m.desc i).file (m.desc i).pageNo (m.page i)
            ≠ Status.OK
        · rw [if_pos c4] at hok; exact absurd hok c4
        · rw [if_neg c4] at hok ⊢
          exact Or.inl ⟨c1.1, c1.2, Int.not_lt.mp c2, c3, not_not.mp c4, rfl⟩
      · rw [if_neg c3] at hok ⊢
        exact Or.inr (Or.inl ⟨c1.1, c1.2, Int.not_lt.mp c2, by simpa using c3, rfl⟩)
  · rw [if_neg c1] at hok ⊢
    by_cases c5 : (m.desc i).valid = false ∧ (m.desc i).file = file
    · rw [if_pos c5] at hok; cases hok
    · rw [if_neg c5] at hok ⊢
      refine Or.inr (Or.inr ⟨?_, rfl⟩)
      intro hf
      by_cases hv : (m.desc i).valid = true
      · exact c1 ⟨hv, hf⟩
      · exact c5 ⟨by simpa using hv, hf⟩

/-- When flushFile returns OK, the calls it issued are exactly the write-backs of the
dirty frames of the file, in index order. -/
theorem flushFileLoop_OK_trace (env : Collab) (file : FilePtr) (k : Nat) :
    ∀ (i : Nat) (m : BufMgr), (flushFileLoop env file k i m).1 = Status.OK →
      (flushFileLoop env file k i m).2.trace = m.trace ++ dirtyWritesFrom file m k i := by
  induction k with
  | zero => intro i m _; simp [flushFileLoop, dirtyWritesFrom]
  | succ k ih =>
    intro i m hok
    rcases flushFileLoop_OK_step env file k i m hok with
      ⟨hv, hf, -, hd, -, e⟩ | ⟨hv, hf, -, hd, e⟩ | ⟨hf, e⟩
    · rw [e] at hok ⊢
      rw [ih _ _ hok, dirtyWritesFrom_congr file m (releaseFrame (logWrite m i) file i) k (i + 1)
        (fun j hj => by
          rw [desc_releaseFrame_ne _ _ _ _ (by omega : i ≠ j)]; rfl)
        (fun j => rfl)]
      simp only [dirtyWritesFrom, hv, hf, hd, and_self, if_true]
      rw [releaseFrame_trace]
      simp [logWrite, hf]
    · rw [e] at hok ⊢
      rw [ih _ _ hok, dirtyWritesFrom_congr file m (releaseFrame m file i) k (i + 1)
        (fun j hj => desc_releaseFrame_ne _ _ _ _ (by omega : i ≠ j))
        (fun j => rfl)]
      simp [dirtyWritesFrom, hd, releaseFrame_trace]
    · rw [e] at hok ⊢
      rw [ih _ _ hok]
      simp [dirtyWritesFrom, hf]

/-- When flushFile returns OK, every frame of the file it examined has been released and
every other frame is as before. -/
theorem flushFileLoop_OK_frames (env : Collab) (file : FilePtr) (k : Nat) :
    ∀ (i : Nat) (m : BufMgr), (flushFileLoop env file k i m).1 = Status.OK →
      ∀ j,
        ((i ≤ j ∧ j < i + k ∧ (m.desc j).file = file) →
          (m.desc j).valid = true ∧ (m.desc j).pinCnt ≤ 0 ∧
          (flushFileLoop env file k i m).2.bufTable[j]? =
            some { m.desc j with dirty := false, file := 0, pageNo := -1, valid := false }) ∧
        (¬ (i ≤ j ∧ j < i + k ∧ (m.desc j).file = file) →
          (flushFileLoop env file k i m).2.bufTable[j]? = m.bufTable[j]?) := by
  induction k with
  | zero =>
    intro i m _ j
    refine ⟨fun h => ?_, fun _ => rfl⟩
    omega
  | succ k ih =>
    intro i m hok j
    have hrel : ∀ m0 : BufMgr, (m0.desc i).valid = true → (∀ a, m0.desc a = m.desc a) →
        m0.bufTable = m.bufTable →
        (flushFileLoop env file k (i + 1) (releaseFrame m0 file i)).1 = Status.OK →
        (m.desc i).file = file → (m.desc i).pinCnt ≤ 0 →
        ((i ≤ j ∧ j < i + (k + 1) ∧ (m.desc j).file = file) →
          (m.desc j).valid = true ∧ (m.desc j).pinCnt ≤ 0 ∧
          (flushFileLoop env file k (i + 1) (releaseFrame m0 file i)).2.bufTable[j]? =
            some { m.desc j with dirty := false, file := 0, pageNo := -1, valid := false }) ∧
        (¬ (i ≤ j ∧ j < i + (k + 1) ∧ (m.desc j).file = file) →
          (flushFileLoop env file k (i + 1) (releaseFrame m0 file i)).2.bufTable[j]? =
            m.bufTable[j]?) := by
      intro m0 hv0 hsame htab hok0 hf hp
      have hI := ih (i + 1) (releaseFrame m0 file i) hok0 j
      by_cases hij : i = j
      · subst hij
        have hnot : ¬ (i + 1 ≤ i ∧ i < i + 1 + k ∧
            ((releaseFrame m0 file i).desc i).file = file) := by omega
        have hlt : i < m0.bufTable.length :=
          (List.getElem?_eq_some_iff.mp (getElem?_of_desc_valid hv0)).1
        refine ⟨fun _ => ⟨by rw [← hsame]; exact hv0, hp, ?_⟩, fun hn => ?_⟩
        · rw [hI.2 hnot, releaseFrame_bufTable, hsame]
          simp [List.getElem?_set, hlt]
        · exact absurd ⟨Nat.le_refl i, by omega, hf⟩ hn
      · have hd : (releaseFrame m0 file i).desc j = m.desc j := by
          rw [desc_releaseFrame_ne _ _ _ _ hij, hsame]
        have htj : (releaseFrame m0 file i).bufTable[j]? = m.bufTable[j]? := by
          rw [releaseFrame_bufTable, List.getElem?_set_ne hij, htab]
        rw [hd] at hI
        refine ⟨fun h => hI.1 ⟨by omega, by omega, h.2.2⟩, fun hn => ?_⟩
        rw [hI.2 (fun h => hn ⟨by omega, by omega, h.2.2⟩), htj]
    rcases flushFileLoop_OK_step env file k i m hok with
      ⟨hv, hf, hp, -, -, e⟩ | ⟨hv, hf, hp, -, e⟩ | ⟨hf, e⟩
    · rw [e] at hok ⊢
      exact hrel (logWrite m i) hv (fun _ => rfl) rfl hok hf hp
    · rw [e] at hok ⊢
      exact hrel m hv (fun _ => rfl) rfl hok hf hp
    · rw [e] at hok ⊢
      have hI := ih (i + 1) m hok j
      by_cases hij : i = j
      · subst hij
        refine ⟨fun h => absurd h.2.2 hf, fun _ => hI.2 (by omega)⟩
      · refine ⟨fun h => hI.1 ⟨by omega, by omega, h.2.2⟩, fun hn => ?_⟩
        exact hI.2 (fun h => hn ⟨by omega, by omega, h.2.2⟩)

/-- The flush of a file leaves the index entries of other files alone. -/
theorem flushFileLoop_other_files (env : Collab) (file : FilePtr) (k i : Nat) (m : BufMgr)
    (f : FilePtr) (p : Int) (hf : f ≠ file) :
    (flushFileLoop env file k i m).2.hashTable.find f p = m.hashTable.find f p := by
  refine flushFileLoop_rel env file
    (fun a b => b.hashTable.find f p = a.hashTable.find f p)
    (fun _ => rfl) (fun _ _ _ h1 h2 => h2.trans h1) ?_ ?_ k i m
  · intro m i _ _ _ _
    rfl
  · intro m i _ _ _
    exact find_remove_ne _ _ _ _ _ (fun h => hf h.1.symm)

/-- The loop of flushFile over a + b frames is the loop over the first a frames followed,
when that returns OK, by the loop over the next b frames. -/
theorem flushFileLoop_add (env : Collab) (file : FilePtr) (b : Nat) (a : Nat) :
    ∀ (i : Nat) (m : BufMgr), flushFileLoop env file (a + b) i m =
      if (flushFileLoop env file a i m).1 = Status.OK then
        flushFileLoop env file b (i + a) (flushFileLoop env file a i m).2
      else flushFileLoop env file a i m := by
  induction a with
  | zero =>
    intro i m
    rw [Nat.zero_add]
    simp [flushFileLoop]
  | succ a ih =>
    intro i m
    have hidx : i + (a + 1) = i + 1 + a := by omega
    rw [Nat.add_right_comm, flushFileLoop_succ, flushFileLoop_succ, hidx]
    by_cases c1 : (m.desc i).valid = true ∧ (m.desc i).file = file
    · rw [if_pos c1, if_pos c1]
      by_cases c2 : (m.desc i).pinCnt > 0
      · rw [if_pos c2, if_pos c2]; simp
      · rw [if_neg c2, if_neg c2]
        by_cases c3 : (m.desc i).dirty = true
        · rw [if_pos c3, if_pos c3]
          by_cases c4 : env.fileWrite m.trace (m.desc i).file (m.desc i).pageNo (m.page i)
              ≠ Status.OK
          · rw [if_pos c4, if_pos c4, if_neg c4]
          · rw [if_neg c4, if_neg c4]
            exact ih _ _
        · rw [if_neg c3, if_neg c3]
          exact ih _ _
    · rw [if_neg c1, if_neg c1]
      by_cases c5 : (m.desc i).valid = false ∧ (m.desc i).file = file
      · rw [if_pos c5, if_pos c5]; simp
      · rw [if_neg c5, if_neg c5]
        exact ih _ _

/-- The loop of flushFile returns OK when every write succeeds and every descriptor in
its range that names the file is valid and unpinned. -/
theorem flushFileLoop_OK_of (env : Collab) (file : FilePtr)
    (hw : ∀ tr f p c, env.fileWrite tr f p c = Status.OK) (k : Nat) :
    ∀ (i : Nat) (m : BufMgr),
      (∀ a, i ≤ a → a < i + k → (m.desc a).file = file →
        (m.desc a).valid = true ∧ (m.desc a).pinCnt ≤ 0) →
      (flushFileLoop env file k i m).1 = Status.OK := by
  induction k with
  | zero => intro i m _; rfl
  | succ k ih =>
    intro i m h
    have hnext : ∀ m1 : BufMgr, (∀ a, i + 1 ≤ a → m1.desc a = m.desc a) →
        (flushFileLoop env file k (i + 1) m1).1 = Status.OK := by
      intro m1 hs
      apply ih
      intro a h1 h2 hf
      rw [hs a h1] at hf ⊢
      exact h a (by omega) (by omega) hf
    rw [flushFileLoop_succ]
    by_cases hf : (m.desc i).file = file
    · obtain ⟨hv, hp⟩ := h i (Nat.le_refl i) (by omega) hf
      rw [if_pos ⟨hv, hf⟩, if_neg (Int.not_lt.mpr hp)]
      split_ifs with c3 c4
      · exact absurd (hw _ _ _ _) c4
      · exact hnext _ (fun a ha => by
          rw [desc_releaseFrame_ne _ _ _ _ (by omega : i ≠ a)]; rfl)
      · exact hnext _ (fun a ha => desc_releaseFrame_ne _ _ _ _ (by omega : i ≠ a))
    · rw [if_neg (fun c => hf c.2), if_neg (fun c => hf c.2)]
      exact hnext m (fun _ _ => rfl)

/-- The loop of flushFile changes nothing when no descriptor in its range names the file. -/
theorem flushFileLoop_skip (env : Collab) (file : FilePtr) (k : Nat) :
    ∀ (i : Nat) (m : BufMgr), (∀ a, i ≤ a → a < i + k → (m.desc a).file ≠ file) →
      flushFileLoop env file k i m = (Status.OK, m) := by
  induction k with
  | zero => intro i m _; rfl
  | succ k ih =>
    intro i m h
    have hf := h i (Nat.le_refl i) (by omega)
    rw [flushFileLoop_succ, if_neg (fun c => hf c.2), if_neg (fun c => hf c.2)]
    exact ih (i + 1) m (fun a h1 h2 => h a (by omega) (by omega))

/-- When the write-back of a dirty frame of the file fails, flushFile does not return OK
and that frame is as it was. -/
theorem flushFileLoop_write_fails (env : Collab) (file : FilePtr) (j : Nat) (k : Nat) :
    ∀ (i : Nat) (m : BufMgr), i ≤ j → j < i + k → (m.desc j).valid = true →
      (m.desc j).file = file → (m.desc j).dirty = true →
      (∀ tr, env.fileWrite tr file (m.desc j).pageNo (m.page j) ≠ Status.OK) →
      (flushFileLoop env file k i m).1 ≠ Status.OK ∧
      (flushFileLoop env file k i m).2.bufTable[j]? = m.bufTable[j]? := by
  induction k with
  | zero => intro i m h1 h2; omega
  | succ k ih =>
    intro i m hij hjk hv hf hd hw
    rw [flushFileLoop_succ]
    by_cases he : i = j
    · subst he
      rw [if_pos ⟨hv, hf⟩]
      split_ifs with c2 c4
      · exact ⟨by simp, rfl⟩
      · exact ⟨c4, rfl⟩
      · rw [hf] at c4
        exact absurd c4 (by simpa using hw m.trace)
    · have hnext : ∀ m1 : BufMgr, m1.desc j = m.desc j → m1.page j = m.page j →
          m1.bufTable[j]? = m.bufTable[j]? →
          (flushFileLoop env file k (i + 1) m1).1 ≠ Status.OK ∧
          (flushFileLoop env file k (i + 1) m1).2.bufTable[j]? = m.bufTable[j]? := by
        intro m1 h1 h2 h3
        have := ih (i + 1) m1 (by omega) (by omega) (by rw [h1]; exact hv)
          (by rw [h1]; exact hf) (by rw [h1]; exact hd) (by rw [h1, h2]; exact hw)
        rw [h3] at this
        exact this
      have hrel : ∀ m0 : BufMgr, m0.desc j = m.desc j → m0.page j = m.page j →
          m0.bufTable[j]? = m.bufTable[j]? →
          (flushFileLoop env file k (i + 1) (releaseFrame m0 file i)).1 ≠ Status.OK ∧
          (flushFileLoop env file k (i + 1) (releaseFrame m0 file i)).2.bufTable[j]? =
            m.bufTable[j]? := by
        intro m0 h1 h2 h3
        apply hnext
        · rw [desc_releaseFrame_ne _ _ _ _ he, h1]
        · exact h2
        · rw [releaseFrame_bufTable, List.getElem?_set_ne he, h3]
      split_ifs with c1 c2 c3 c4 c5
      · exact ⟨by simp, rfl⟩
      · exact ⟨c4, rfl⟩
      · exact hrel (logWrite m i) rfl rfl rfl
      · exact hrel m rfl rfl rfl
      · exact ⟨by simp, rfl⟩
      · exact hnext m rfl rfl rfl

theorem dirtyWrites_filter_nil (file : FilePtr) (m : BufMgr) (p : Int) (k : Nat) :
    ∀ i, (∀ a, i ≤ a → a < i + k →
        ¬ ((m.desc a).valid = true ∧ (m.desc a).file = file ∧ (m.desc a).pageNo = p)) →
      (dirtyWritesFrom file m k i).filter (IOEvent.isWriteOf file p) = [] := by
  induction k with
  | zero => intro i _; rfl
  | succ k ih =>
    intro i h
    simp only [dirtyWritesFrom, List.filter_append]
    rw [ih (i + 1) (fun a h1 h2 => h a (by omega) (by omega))]
    have := h i (Nat.le_refl i) (by omega)
    split_ifs with c
    · have hne : (m.desc i).pageNo ≠ p := fun e => this ⟨c.1, c.2.1, e⟩
      simp [IOEvent.isWriteOf, hne]
    · rfl

/-- Among the write-backs of a flush, exactly one is for the page of a dirty frame of the
file when no other valid frame of the file holds the same page, and it carries the
content of that frame's pool slot. -/
theorem dirtyWrites_filter_one (file : FilePtr) (m : BufMgr) (p : Int) (v : Nat) (k : Nat) :
    ∀ i, i ≤ v → v < i + k →
      (m.desc v).valid = true → (m.desc v).file = file → (m.desc v).dirty = true →
      (m.desc v).pageNo = p →
      (∀ a, a ≠ v →
        ¬ ((m.desc a).valid = true ∧ (m.desc a).file = file ∧ (m.desc a).pageNo = p)) →
      (dirtyWritesFrom file m k i).filter (IOEvent.isWriteOf file p) =
        [IOEvent.write file p (m.page v)] := by
  induction k with
  | zero => intro i h1 h2; omega
  | succ k ih =>
    intro i hiv hvk hv hf hd hp huniq
    simp only [dirtyWritesFrom, List.filter_append]
    by_cases he : i = v
    · subst he
      rw [dirtyWrites_filter_nil file m p k (i + 1)
        (fun a h1 _ => huniq a (by omega))]
      simp [hv, hf, hd, hp, IOEvent.isWriteOf]
    · rw [ih (i + 1) (by omega) (by omega) hv hf hd hp huniq]
      have := huniq i he
      split_ifs with c
      · have hne : (m.desc i).pageNo ≠ p := fun e => this ⟨c.1, c.2.1, e⟩
        simp [IOEvent.isWriteOf, hne]
      · rfl

theorem ScanRel.page {m m0 : BufMgr} (h : ScanRel m m0) (i : Nat) : m0.page i = m.page i := by
  unfold BufMgr.page
  rw [h.2.2.1]

/-! ## Consistency of the states the manager can reach -/

theorem Sane_init (bufs : Nat) : Sane (BufMgr.init bufs) := by
  constructor
  · intro d hd _
    simp only [BufMgr.init, List.mem_map] at hd
    obtain ⟨a, -, rfl⟩ := hd
    rfl
  · intro f p fr h
    simp [BufMgr.init, BufHashTbl.find] at h

theorem Sane_congr {m m1 : BufMgr} (hb : m1.bufTable = m.bufTable)
    (hh : m1.hashTable = m.hashTable) (hm : Sane m) : Sane m1 := by
  unfold Sane BufMgr.numBufs at *
  rw [hb, hh]
  exact hm

theorem Sane_setDesc (m : BufMgr) (i : Nat) (x : BufDesc) (hm : Sane m)
    (hx : x.valid = false → x.file = 0) : Sane (m.setDesc i x) := by
  constructor
  · intro d hd
    rcases List.mem_or_eq_of_mem_set hd with h | h
    · exact hm.1 d h
    · rw [h]; exact hx
  · intro f p fr h
    have := hm.2 f p fr h
    rw [setDesc_numBufs]
    exact this

theorem Sane_remove (m : BufMgr) (file : FilePtr) (pageNo : Int) (hm : Sane m) :
    Sane { m with hashTable := (m.hashTable.remove file pageNo).2 } := by
  refine ⟨hm.1, ?_⟩
  intro f p fr h
  by_cases hk : file = f ∧ pageNo = p
  · have h' : (m.hashTable.remove file pageNo).2.find f p = some fr := h
    rw [← hk.1, ← hk.2, find_remove_self] at h'
    cases h'
  · have h' : (m.hashTable.remove file pageNo).2.find f p = some fr := h
    rw [find_remove_ne _ _ _ _ _ hk] at h'
    exact hm.2 f p fr h'

theorem Sane_insert (m : BufMgr) (file : FilePtr) (p fr : Int) (err : Bool) (d : BufDesc)
    (hm : Sane m) (hins : (m.hashTable.insert file p fr err).1 ≠ Status.HASHTBLERROR)
    (hd : m.descAt fr = some d) :
    Sane { m with hashTable := (m.hashTable.insert file p fr err).2 } := by
  obtain ⟨-, htab⟩ := insert_ok hins
  obtain ⟨h0, hdm⟩ := descAt_some hd
  have hlt : fr.toNat < m.bufTable.length := (List.getElem?_eq_some_iff.mp hdm).1
  refine ⟨hm.1, ?_⟩
  intro f q g h
  have h' : (m.hashTable.insert file p fr err).2.find f q = some g := h
  rw [htab, find_cons] at h'
  split at h'
  · have hg : fr = g := Option.some.inj h'
    subst hg
    refine ⟨h0, ?_⟩
    show fr < (m.bufTable.length : Int)
    omega
  · exact hm.2 f q g h'

theorem Sane_scan {m m0 : BufMgr} (h : ScanRel m m0) (hm : Sane m) : Sane m0 := by
  constructor
  · intro d0 hd0 hv
    have : d0.core ∈ m0.bufTable.map BufDesc.core := List.mem_map_of_mem _ hd0
    rw [h.1] at this
    obtain ⟨d, hd, hc⟩ := List.mem_map.mp this
    obtain ⟨hf, -, -, -, hvl⟩ := core_fields hc
    rw [← hf]
    exact hm.1 d hd (hvl.trans hv)
  · intro f p fr hfind
    rw [h.2.1] at hfind
    rw [h.length]
    exact hm.2 f p fr hfind

theorem Sane_flushFileLoop (env : Collab) (file : FilePtr) (k i : Nat) (m : BufMgr)
    (hm : Sane m) : Sane (flushFileLoop env file k i m).2 := by
  refine flushFileLoop_rel env file (fun a b => Sane a → Sane b)
    (fun _ h => h) (fun _ _ _ h1 h2 h => h2 (h1 h)) ?_ ?_ k i m hm
  · intro m i _ _ _ _ h
    exact Sane_congr rfl rfl h
  · intro m i _ _ _ h
    exact Sane_setDesc _ i _ (Sane_remove m file _ h) (fun _ => rfl)

theorem Sane_allocBuf (env : Collab) (m : BufMgr) (frame : Int) (hm : Sane m) :
    Sane (allocBuf env m frame).2.1 := by
  obtain ⟨m0, hrel, -, hout⟩ := allocBuf_scan env m frame
  have h0 := Sane_scan hrel hm
  rcases hout with h | ⟨h, -⟩ | ⟨-, -, -, -, h⟩ <;> rw [h]
  · exact h0
  · exact h0
  · exact Sane_flushFileLoop env _ _ _ m0 h0

theorem Sane_store (m : BufMgr) (page : PagePtr) (data : PageData) (hm : Sane m) :
    Sane (m.store page data) := by
  unfold BufMgr.store
  split
  · split
    · exact Sane_congr rfl rfl hm
    · exact hm
  · exact hm

theorem Sane_readPage (env : Collab) (m : BufMgr) (file : FilePtr) (PageNo : Int)
    (page : PagePtr) (frameNo0 : Int) (r : Status × BufMgr × PagePtr) (hm : Sane m)
    (h : readPage env m file PageNo page frameNo0 = some r) : Sane r.2.1 := by
  unfold readPage at h
  simp only at h
  have ha := Sane_allocBuf env m (m.hashTable.lookup file PageNo frameNo0).2 hm
  split at h
  · split at h
    · cases h; exact ha
    · split at h
      · cases h
        exact Sane_congr rfl rfl ha
      · split at h
        · cases h
          exact Sane_store _ _ _ (Sane_congr rfl rfl ha)
        · rename_i hins
          split at h
          · cases h
          · rename_i d hd
            cases h
            exact Sane_setDesc _ _ _
              (Sane_insert _ _ _ _ _ d (Sane_store _ _ _ (Sane_congr rfl rfl ha)) hins hd)
              (fun hv => by cases hv)
  · split at h
    · cases h
    · rename_i d hd
      split at h
      · cases h
        obtain ⟨-, hdm⟩ := descAt_some hd
        exact Sane_setDesc m _ _ hm (hm.1 d (List.getElem?_mem hdm))
      · cases h

theorem Sane_unPinPage (sc : StatusCode) (m : BufMgr) (file : FilePtr) (PageNo : Int)
    (dirty : Bool) (frameNo0 : Int) (r : Status × BufMgr) (hm : Sane m)
    (h : unPinPage sc m file PageNo dirty frameNo0 = some r) : Sane r.2 := by
  unfold unPinPage at h
  simp only at h
  split at h
  · split at h
    · cases h
    · split at h
      · cases h; exact hm
      · split at h
        · cases h
        · rename_i d hd
          split at h
          · cases h
            obtain ⟨-, hdm⟩ := descAt_some hd
            refine Sane_setDesc m _ _ hm ?_
            have := hm.1 d (List.getElem?_mem hdm)
            split <;> exact this
          · cases h
  · cases h; exact hm

theorem Sane_allocPage (env : Collab) (m : BufMgr) (file : FilePtr) (pageNo0 : Int)
    (page : PagePtr) (frameNo0 : Int) (r : Status × BufMgr × Int × PagePtr)
    (hm : Sane m) (h : allocPage env m file pageNo0 page frameNo0 = some r) :
    Sane r.2.1 := by
  unfold allocPage at h
  simp only at h
  have ha := Sane_allocBuf env
    { m with trace := m.trace ++ [IOEvent.allocate file] } frameNo0
    (Sane_congr rfl rfl hm)
  split at h
  · cases h; exact ha
  · split at h
    · cases h; exact ha
    · rename_i hins
      split at h
      · cases h
      · rename_i d hd
        cases h
        exact Sane_setDesc _ _ _ (Sane_insert _ _ _ _ _ d ha hins hd) (fun hv => by cases hv)

theorem Sane_disposePage (env : Collab) (m : BufMgr) (file : FilePtr) (pageNo : Int)
    (r : Status × BufMgr) (hm : Sane m)
    (h : disposePage env m file pageNo = some r) : Sane r.2 := by
  unfold disposePage at h
  simp only at h
  split at h
  · cases h
  · rename_i m1 hcl
    cases h
    have hm1 : Sane m1 := by
      split at hcl
      · split at hcl
        · cases hcl
        · cases hcl
          exact Sane_setDesc m _ _ hm (fun _ => rfl)
      · cases hcl
        exact hm
    exact Sane_congr rfl rfl (Sane_remove m1 file pageNo hm1)

/-- Every call of the public interface keeps the state consistent. -/
theorem Sane_step (sc : StatusCode) (env : Collab) (m m1 : BufMgr) (c : Call)
    (hm : Sane m) (h : step sc env m c = some m1) : Sane m1 := by
  cases c with
  | readPage file PageNo page frameNo0 =>
    simp only [step, Option.map_eq_some'] at h
    obtain ⟨r, hr, rfl⟩ := h
    exact Sane_readPage env m file PageNo page frameNo0 r hm hr
  | allocPage file pageNo0 page frameNo0 =>
    simp only [step, Option.map_eq_some'] at h
    obtain ⟨r, hr, rfl⟩ := h
    exact Sane_allocPage env m file pageNo0 page frameNo0 r hm hr
  | unPinPage file PageNo dirty frameNo0 =>
    simp only [step, Option.map_eq_some'] at h
    obtain ⟨r, hr, rfl⟩ := h
    exact Sane_unPinPage sc m file PageNo dirty frameNo0 r hm hr
  | disposePage file pageNo =>
    simp only [step, Option.map_eq_some'] at h
    obtain ⟨r, hr, rfl⟩ := h
    exact Sane_disposePage env m file pageNo r hm hr
  | flushFile file =>
    simp only [step, Option.some.injEq] at h
    subst h
    exact Sane_flushFileLoop env file _ _ m hm

/-- In every state the manager can reach, an unoccupied descriptor names no file and the
Page Index holds only frame numbers of the pool. -/
theorem Reachable.sane {sc : StatusCode} {m : BufMgr} (h : Reachable sc m) : Sane m := by
  induction h with
  | init bufs => exact Sane_init bufs
  | call env m m1 c _ hstep ih => exact Sane_step sc env m m1 c ih hstep

theorem descAt_none_of_out (m : BufMgr) (g : Int) (n : Nat) (hn : m.bufTable.length = n)
    (h : g < 0 ∨ (n : Int) ≤ g) : m.descAt g = none := by
  unfold BufMgr.descAt
  split
  · rcases h with h | h
    · omega
    · apply List.getElem?_eq_none
      omega
  · rfl

theorem int_cases_two (g : Int) : g = 0 ∨ g = 1 ∨ (g < 0 ∨ (2 : Int) ≤ g) := by omega

theorem lookup_of_find_some {ht : BufHashTbl} {file : FilePtr} {p f g : Int}
    (h : ht.find file p = some f) : ht.lookup file p g = (Status.OK, f) := by
  simp [BufHashTbl.lookup, h]

theorem lookup_of_find_none {ht : BufHashTbl} {file : FilePtr} {p g : Int}
    (h : ht.find file p = none) : ht.lookup file p g = (Status.HASHNOTFOUND, g) := by
  simp [BufHashTbl.lookup, h]

/-- When the loop of flushFile returns OK, the only index entries it removed are those of
the frames of the file among the frames it examined. -/
theorem flushFileLoop_OK_index (env : Collab) (file : FilePtr) (g : FilePtr) (p : Int)
    (k : Nat) :
    ∀ (i : Nat) (m : BufMgr), (flushFileLoop env file k i m).1 = Status.OK →
      (∀ a, i ≤ a → a < i + k → (m.desc a).file = file →
        ¬ (g = file ∧ p = (m.desc a).pageNo)) →
      (flushFileLoop env file k i m).2.hashTable.find g p = m.hashTable.find g p := by
  induction k with
  | zero =>
    intro i m _ _
    rfl
  | succ k ih =>
    intro i m hok hne
    have hrel : ∀ m0 : BufMgr, (∀ a, m0.desc a = m.desc a) → m0.hashTable = m.hashTable →
        (flushFileLoop env file k (i + 1) (releaseFrame m0 file i)).1 = Status.OK →
        (m.desc i).file = file →
        (flushFileLoop env file k (i + 1) (releaseFrame m0 file i)).2.hashTable.find g p =
          m.hashTable.find g p := by
      intro m0 hsame hht hok0 hf
      have hrest : ∀ a, i + 1 ≤ a → a < i + 1 + k →
          ((releaseFrame m0 file i).desc a).file = file →
          ¬ (g = file ∧ p = ((releaseFrame m0 file i).desc a).pageNo) := by
        intro a ha1 ha2 hfa
        have hia : i ≠ a := by omega
        rw [desc_releaseFrame_ne _ _ _ _ hia, hsame] at hfa ⊢
        exact hne a (by omega) (by omega) hfa
      rw [ih (i + 1) (releaseFrame m0 file i) hok0 hrest]
      show ((m0.hashTable.remove file (m0.desc i).pageNo).2).find g p = _
      rw [hsame, hht]
      exact find_remove_ne _ _ _ _ _
        (fun h => hne i (Nat.le_refl i) (by omega) hf ⟨h.1.symm, h.2.symm⟩)
    rcases flushFileLoop_OK_step env file k i m hok with
      ⟨-, hf, -, -, -, e⟩ | ⟨-, hf, -, -, e⟩ | ⟨-, e⟩
    · rw [e] at hok ⊢
      exact hrel (logWrite m i) (fun _ => rfl) rfl hok hf
    · rw [e] at hok ⊢
      exact hrel m (fun _ => rfl) rfl hok hf
    · rw [e] at hok ⊢
      exact ih (i + 1) m hok (fun a h1 h2 => hne a (by omega) (by omega))

/-! ## The claims, continued -/

/-- C11 (code defect): on a fresh pool of two frames, a readPage of the uncached page (5, 1)
with page pointing outside the pool either has undefined behaviour (frameNo outside the
pool) or returns OK with the clock hand on frame 0 while the page read (content 101) is in
no pool slot, the page reference is still the caller's pointer, and the Page Index maps
(5, 1) to whatever the uninitialised local frameNo held. -/
theorem readPage_miss_page_not_set (g : Int) :
    (envOK.fileRead [] 5 1).2 = 101 ∧
    (readPage envOK (BufMgr.init 2) 5 1 (PagePtr.foreign 0) g = none ∨
     ∃ m1, readPage envOK (BufMgr.init 2) 5 1 (PagePtr.foreign 0) g =
         some (Status.OK, m1, PagePtr.foreign 0) ∧
       m1.clockHand = 0 ∧ m1.bufPool = [0, 0] ∧ m1.hashTable.find 5 1 = some g) := by
  refine ⟨rfl, ?_⟩
  rcases int_cases_two g with rfl | rfl | h
  · exact Or.inr ⟨_, rfl, rfl, rfl, rfl⟩
  · exact Or.inr ⟨_, rfl, rfl, rfl, rfl⟩
  · left
    have hl : (BufMgr.init 2).hashTable.lookup 5 1 g = (Status.HASHNOTFOUND, g) := rfl
    have ha : allocBuf envOK (BufMgr.init 2) g =
        (Status.OK, ⟨0, ⟨[]⟩, (BufMgr.init 2).bufTable, [0, 0], []⟩, g) := rfl
    have hr : envOK.fileRead [] 5 1 = (Status.OK, 101) := rfl
    have hi : ∀ tr, envOK.insertErr tr 5 1 g = false := fun _ => rfl
    simp only [readPage, hl, ha, hr, hi, BufMgr.store, BufHashTbl.insert, BufHashTbl.find]
    simp
    have hd : ∀ (c : Nat) (ht : BufHashTbl) (bp : List PageData) (tr : List IOEvent),
        (⟨c, ht, (BufMgr.init 2).bufTable, bp, tr⟩ : BufMgr).descAt g = none :=
      fun c ht bp tr => descAt_none_of_out _ g 2 rfl h
    rw [hd]

/-- C12 (code defect): on a fresh pool of two frames, allocPage for file 5 with page pointing
outside the pool either has undefined behaviour (frameNo outside the pool) or returns OK
and the new page number 1 with the clock hand on frame 0, while the page reference is
still the caller's pointer and the Page Index maps (5, 1) to whatever the uninitialised
local frameNo held. -/
theorem allocPage_page_not_set (g : Int) :
    allocPage envOK (BufMgr.init 2) 5 0 (PagePtr.foreign 0) g = none ∨
    ∃ m1, allocPage envOK (BufMgr.init 2) 5 0 (PagePtr.foreign 0) g =
        some (Status.OK, m1, 1, PagePtr.foreign 0) ∧
      m1.clockHand = 0 ∧ m1.hashTable.find 5 1 = some g := by
  rcases int_cases_two g with rfl | rfl | h
  · exact Or.inr ⟨_, rfl, rfl, rfl⟩
  · exact Or.inr ⟨_, rfl, rfl, rfl⟩
  · left
    have ha : allocBuf envOK
        { BufMgr.init 2 with trace := (BufMgr.init 2).trace ++ [IOEvent.allocate 5] } g =
        (Status.OK, ⟨0, ⟨[]⟩, (BufMgr.init 2).bufTable, [0, 0], [IOEvent.allocate 5]⟩, g) := rfl
    have hal : envOK.fileAllocate (BufMgr.init 2).trace 5 0 = (Status.OK, 1) := rfl
    have hi : ∀ tr, envOK.insertErr tr 5 1 g = false := fun _ => rfl
    simp only [allocPage, ha, hal, hi, BufHashTbl.insert, BufHashTbl.find]
    simp
    have hd : ∀ (c : Nat) (ht : BufHashTbl) (bp : List PageData) (tr : List IOEvent),
        (⟨c, ht, (BufMgr.init 2).bufTable, bp, tr⟩ : BufMgr).descAt g = none :=
      fun c ht bp tr => descAt_none_of_out _ g 2 rfl h
    rw [hd]

/-- C13 (code defect): on a fresh pool of two frames, when allocatePage of the File Handle
reports UNIXERR, allocPage either has undefined behaviour (frameNo outside the pool) or
returns OK: the status of allocatePage is discarded. -/
theorem allocPage_ignores_allocate_error (g : Int) :
    (envAllocFails.fileAllocate [] 5 3).1 = Status.UNIXERR ∧
    (allocPage envAllocFails (BufMgr.init 2) 5 3 (PagePtr.foreign 0) g = none ∨
     ∃ m1, allocPage envAllocFails (BufMgr.init 2) 5 3 (PagePtr.foreign 0) g =
        some (Status.OK, m1, 3, PagePtr.foreign 0)) := by
  refine ⟨rfl, ?_⟩
  rcases int_cases_two g with rfl | rfl | h
  · exact Or.inr ⟨_, rfl⟩
  · exact Or.inr ⟨_, rfl⟩
  · left
    have ha : allocBuf envAllocFails
        { BufMgr.init 2 with trace := (BufMgr.init 2).trace ++ [IOEvent.allocate 5] } g =
        (Status.OK, ⟨0, ⟨[]⟩, (BufMgr.init 2).bufTable, [0, 0], [IOEvent.allocate 5]⟩, g) := rfl
    have hal : envAllocFails.fileAllocate (BufMgr.init 2).trace 5 3 = (Status.UNIXERR, 3) := rfl
    have hi : ∀ tr, envAllocFails.insertErr tr 5 3 g = false := fun _ => rfl
    simp only [allocPage, ha, hal, hi, BufHashTbl.insert, BufHashTbl.find]
    simp
    have hd : ∀ (c : Nat) (ht : BufHashTbl) (bp : List PageData) (tr : List IOEvent),
        (⟨c, ht, (BufMgr.init 2).bufTable, bp, tr⟩ : BufMgr).descAt g = none :=
      fun c ht bp tr => descAt_none_of_out _ g 2 rfl h
    rw [hd]

/-- C14: disposePage, when the frame the Page Index names for the page (if any) is a frame
of the pool, returns exactly the status of the File Handle's disposePage; afterwards the
index has no mapping for the page, every other index entry is as before, the descriptor of
the frame the page was mapped to is cleared (valid = false, pinCnt = 0, dirty = false,
refbit = false, file NULL) whatever its pin count was, and every other descriptor is
unchanged. -/
theorem disposePage_effect (env : Collab) (m : BufMgr) (file : FilePtr) (pageNo : Int)
    (hin : ∀ f, m.hashTable.find file pageNo = some f → 0 ≤ f ∧ f < (m.numBufs : Int)) :
    ∃ m1, disposePage env m file pageNo = some (env.fileDispose m.trace file pageNo, m1) ∧
      m1.hashTable.find file pageNo = none ∧
      (∀ f p, ¬ (file = f ∧ pageNo = p) → m1.hashTable.find f p = m.hashTable.find f p) ∧
      (∀ j : Nat, m.hashTable.find file pageNo = some (j : Int) →
        ∃ d1, m1.bufTable[j]? = some d1 ∧ d1.valid = false ∧ d1.pinCnt = 0 ∧
          d1.dirty = false ∧ d1.refbit = false ∧ d1.file = 0) ∧
      (∀ j : Nat, m.hashTable.find file pageNo ≠ some (j : Int) →
        m1.bufTable[j]? = m.bufTable[j]?) ∧
      m1.trace = m.trace ++ [IOEvent.dispose file pageNo] := by
  cases hfind : m.hashTable.find file pageNo with
  | none =>
    refine ⟨{ m with hashTable := (m.hashTable.remove file pageNo).2,
                     trace := m.trace ++ [IOEvent.dispose file pageNo] }, ?_,
      find_remove_self _ _ _, fun f p h => find_remove_ne _ _ _ _ _ h, ?_, fun _ _ => rfl, rfl⟩
    · simp [disposePage, lookup_of_find_none hfind]
    · intro j hj
      cases hj
  | some f =>
    obtain ⟨h0, hlt⟩ := hin f hfind
    have hlt1 : f.toNat < m.bufTable.length := by
      unfold BufMgr.numBufs at hlt
      omega
    have hd : m.descAt f = some (m.bufTable[f.toNat]) := by
      simp [BufMgr.descAt, h0, List.getElem?_eq_getElem hlt1]
    refine ⟨{ (m.setDesc f.toNat (m.bufTable[f.toNat]).Clear) with
        hashTable := (m.hashTable.remove file pageNo).2,
        trace := m.trace ++ [IOEvent.dispose file pageNo] }, ?_,
      find_remove_self _ _ _, fun f p h => find_remove_ne _ _ _ _ _ h, ?_, ?_, rfl⟩
    · simp [disposePage, lookup_of_find_some hfind, hd, BufMgr.setDesc]
    · intro j hj
      have hjf : f = (j : Int) := Option.some.inj hj
      subst hjf
      refine ⟨(m.bufTable[(j : Int).toNat]).Clear, ?_, rfl, rfl, rfl, rfl, rfl⟩
      simp only [BufMgr.setDesc, Int.toNat_ofNat] at hlt1 ⊢
      simp [List.getElem?_set, hlt1]
    · intro j hj
      have hne : f.toNat ≠ j := by
        intro e
        apply hj
        rw [← e, Int.toNat_of_nonneg h0]
      simp [BufMgr.setDesc, List.getElem?_set_ne hne]

/-- C14 at a concrete input: disposing the pinned page (5, 1). -/
theorem disposePage_effect_witness :
    ∃ m1, disposePage envOK poolPinnedOnce 5 1 =
        some (envOK.fileDispose poolPinnedOnce.trace 5 1, m1) ∧
      m1.hashTable.find 5 1 = none ∧
      (∀ f p, ¬ (5 = f ∧ 1 = p) → m1.hashTable.find f p = poolPinnedOnce.hashTable.find f p) ∧
      (∀ j : Nat, poolPinnedOnce.hashTable.find 5 1 = some (j : Int) →
        ∃ d1, m1.bufTable[j]? = some d1 ∧ d1.valid = false ∧ d1.pinCnt = 0 ∧
          d1.dirty = false ∧ d1.refbit = false ∧ d1.file = 0) ∧
      (∀ j : Nat, poolPinnedOnce.hashTable.find 5 1 ≠ some (j : Int) →
        m1.bufTable[j]? = poolPinnedOnce.bufTable[j]?) ∧
      m1.trace = poolPinnedOnce.trace ++ [IOEvent.dispose 5 1] :=
  disposePage_effect envOK poolPinnedOnce 5 1 (by
    intro f hf
    have : f = 0 := (Option.some.inj hf).symm
    subst this
    decide)

/-- C15: when flushFile of a file returns OK, no frame is valid with that file afterwards;
every frame that was valid and owned by the file has its mapping removed from the Page
Index and its dirty flag false; the File Handle calls issued are exactly one
writePage(pageNo, content of the pool slot) for each such frame that was dirty, in index
order, and nothing else; every frame not owned by the file and every index entry of
another file is unchanged. -/
theorem flushFile_OK_effect (env : Collab) (m : BufMgr) (file : FilePtr)
    (hok : (flushFile env m file).1 = Status.OK) :
    (∀ d ∈ (flushFile env m file).2.bufTable, ¬ (d.valid = true ∧ d.file = file)) ∧
    (∀ (i : Nat) (d : BufDesc), m.bufTable[i]? = some d → d.valid = true → d.file = file →
      (flushFile env m file).2.hashTable.find file d.pageNo = none ∧
      ∃ d1, (flushFile env m file).2.bufTable[i]? = some d1 ∧ d1.dirty = false ∧
        d1.valid = false) ∧
    (flushFile env m file).2.trace = m.trace ++ dirtyWritesFrom file m m.numBufs 0 ∧
    (∀ (i : Nat) (d : BufDesc), m.bufTable[i]? = some d → d.file ≠ file →
      (flushFile env m file).2.bufTable[i]? = some d) ∧
    (∀ f p, f ≠ file → (flushFile env m file).2.hashTable.find f p = m.hashTable.find f p) ∧
    (flushFile env m file).2.bufPool = m.bufPool := by
  have hfr := flushFileLoop_OK_frames env file m.numBufs 0 m hok
  refine ⟨?_, ?_, flushFileLoop_OK_trace env file _ 0 m hok, ?_,
    fun f p hf => flushFileLoop_other_files env file _ 0 m f p hf,
    (flushFileLoop_fields env file _ 0 m).2.1⟩
  · intro d hd ⟨hv, hf⟩
    obtain ⟨j, hj⟩ := List.mem_iff_getElem?.mp hd
    have hjl : j < (flushFile env m file).2.numBufs := (List.getElem?_eq_some_iff.mp hj).1
    have hjm : j < m.numBufs := by
      rw [← (flushFileLoop_fields env file m.numBufs 0 m).2.2]; exact hjl
    by_cases hmf : (m.desc j).file = file
    · have := (hfr j).1 ⟨Nat.zero_le j, by omega, hmf⟩
      have e : (flushFile env m file).2.bufTable[j]? = _ := this.2.2
      rw [hj] at e
      cases e
      simp at hv
    · have e : (flushFile env m file).2.bufTable[j]? = _ := (hfr j).2 (fun h => hmf h.2.2)
      rw [hj, getElem?_desc hjm] at e
      cases e
      exact hmf hf
  · intro i d hd hv hf
    have hlt : i < m.numBufs := (List.getElem?_eq_some_iff.mp hd).1
    have hdm : m.desc i = d := desc_of_getElem? hd
    constructor
    · have := flushFileLoop_OK_unmaps env file m.numBufs 0 m hok i (Nat.zero_le i) (by omega)
        (by rw [hdm]; exact hv) (by rw [hdm]; exact hf)
      rw [hdm] at this
      exact this
    · have := (hfr i).1 ⟨Nat.zero_le i, by omega, by rw [hdm]; exact hf⟩
      exact ⟨_, this.2.2, rfl, rfl⟩
  · intro i d hd hf
    have hdm : m.desc i = d := desc_of_getElem? hd
    have e : (flushFile env m file).2.bufTable[i]? = _ :=
      (hfr i).2 (fun h => hf (by rw [← hdm]; exact h.2.2))
    rw [e, hd]

/-- C15 at a concrete input: flushing file 5, which has a dirty and a clean unpinned page. -/
theorem flushFile_OK_effect_witness :
    (flushFile envOK poolDirtyAndClean 5).2.trace = [IOEvent.write 5 0 40] ∧
    (∀ d ∈ (flushFile envOK poolDirtyAndClean 5).2.bufTable, ¬ (d.valid = true ∧ d.file = 5)) ∧
    (flushFile envOK poolDirtyAndClean 5).2.bufPool = poolDirtyAndClean.bufPool :=
  have h := flushFile_OK_effect envOK poolDirtyAndClean 5 (by decide)
  ⟨h.2.2.1, h.1, h.2.2.2.2.2⟩

/-- C16 as stated fails: with two frames of file 5, frame 0 unpinned and dirty and frame 1
pinned, flushFile returns PAGEPINNED after it has written page 0 back, removed its mapping
and marked frame 0 unoccupied. -/
theorem flushFile_not_all_or_nothing :
    (poolDirtyThenPinned.bufTable =
      [⟨5, 0, 0, 0, true, true, false⟩, ⟨5, 1, 1, 1, false, true, false⟩]) ∧
    flushFile envOK poolDirtyThenPinned 5 =
      (Status.PAGEPINNED,
        { clockHand := 1
          hashTable := ⟨[(5, 1, 1)]⟩
          bufTable := [⟨0, -1, 0, 0, false, false, false⟩, ⟨5, 1, 1, 1, false, true, false⟩]
          bufPool := [40, 41]
          trace := [IOEvent.write 5 0 40] }) ∧
    ¬ ((flushFile envOK poolDirtyThenPinned 5).1 = Status.PAGEPINNED ∧
        (flushFile envOK poolDirtyThenPinned 5).2.trace = poolDirtyThenPinned.trace ∧
        (flushFile envOK poolDirtyThenPinned 5).2.hashTable = poolDirtyThenPinned.hashTable ∧
        (flushFile envOK poolDirtyThenPinned 5).2.bufTable = poolDirtyThenPinned.bufTable) := by
  decide

/-- C16, as the code has it: flushFile stops at the first pinned frame of the file.  When
the descriptors naming the file before that frame are valid and unpinned and every write
succeeds, flushFile returns PAGEPINNED and leaves that frame, every later frame and every
frame of another file unchanged, but each frame of the file at a lower index has already
been written back if dirty (one writePage each, in index order) and released (mapping
removed, descriptor marked unoccupied).  flushFile has changed nothing when no
descriptor before the first pinned frame names the file, and it leaves every Page Index
mapping other than those of the released frames as it was. -/
theorem flushFile_stops_at_first_pinned (env : Collab) (m : BufMgr) (file : FilePtr)
    (j : Nat) (dj : BufDesc) (hj : m.bufTable[j]? = some dj) (hv : dj.valid = true)
    (hf : dj.file = file) (hp : 0 < dj.pinCnt)
    (hbefore : ∀ i, i < j → (m.desc i).file = file →
      (m.desc i).valid = true ∧ (m.desc i).pinCnt ≤ 0)
    (hw : ∀ tr f p c, env.fileWrite tr f p c = Status.OK) :
    (flushFile env m file).1 = Status.PAGEPINNED ∧
    (∀ i, j ≤ i → (flushFile env m file).2.bufTable[i]? = m.bufTable[i]?) ∧
    (∀ i, i < j → (m.desc i).file ≠ file →
      (flushFile env m file).2.bufTable[i]? = m.bufTable[i]?) ∧
    (∀ i, i < j → (m.desc i).file = file →
      (flushFile env m file).2.bufTable[i]? =
        some { m.desc i with dirty := false, file := 0, pageNo := -1, valid := false } ∧
      (flushFile env m file).2.hashTable.find file (m.desc i).pageNo = none) ∧
    (flushFile env m file).2.trace = m.trace ++ dirtyWritesFrom file m j 0 ∧
    ((∀ i, i < j → (m.desc i).file ≠ file) → (flushFile env m file).2 = m) ∧
    (∀ g p, (∀ i, i < j → (m.desc i).file = file → ¬ (g = file ∧ p = (m.desc i).pageNo)) →
      (flushFile env m file).2.hashTable.find g p = m.hashTable.find g p) := by
  have hjN : j < m.numBufs := (List.getElem?_eq_some_iff.mp hj).1
  have hdj : m.desc j = dj := desc_of_getElem? hj
  have hokA : (flushFileLoop env file j 0 m).1 = Status.OK :=
    flushFileLoop_OK_of env file hw j 0 m (fun a _ h2 h3 => hbefore a (by omega) h3)
  have hfr := flushFileLoop_OK_frames env file j 0 m hokA
  have hjsame : (flushFileLoop env file j 0 m).2.desc j = m.desc j := by
    have e := (hfr j).2 (by omega)
    unfold BufMgr.desc
    rw [List.getD_eq_getElem?_getD, List.getD_eq_getElem?_getD, e]
  have hsplit : flushFile env m file = (Status.PAGEPINNED, (flushFileLoop env file j 0 m).2) := by
    unfold flushFile
    have hN : m.numBufs = j + (m.numBufs - j - 1 + 1) := by omega
    rw [hN, flushFileLoop_add, if_pos hokA, Nat.zero_add, flushFileLoop_succ, hjsame, hdj,
      if_pos ⟨hv, hf⟩, if_pos hp]
  rw [hsplit]
  refine ⟨rfl, fun i hi => (hfr i).2 (by omega), fun i _ hne => (hfr i).2 (fun h => hne h.2.2),
    ?_, flushFileLoop_OK_trace env file j 0 m hokA, ?_, ?_⟩
  · intro i hi hfi
    obtain ⟨hvi, -, e⟩ := (hfr i).1 ⟨Nat.zero_le i, by omega, hfi⟩
    exact ⟨e, flushFileLoop_OK_unmaps env file j 0 m hokA i (Nat.zero_le i) (by omega) hvi hfi⟩
  · intro hnone
    show (flushFileLoop env file j 0 m).2 = m
    rw [flushFileLoop_skip env file j 0 m (fun a _ h2 => hnone a (by omega))]
  · intro g p hgp
    exact flushFileLoop_OK_index env file g p j 0 m hokA
      (fun a _ h2 h3 => hgp a (by omega) h3)

/-- C16 at a concrete input: the pool of flushFile_not_all_or_nothing. -/
theorem flushFile_stops_at_first_pinned_witness :
    (flushFile envOK poolDirtyThenPinned 5).1 = Status.PAGEPINNED ∧
    (flushFile envOK poolDirtyThenPinned 5).2.bufTable[1]? = poolDirtyThenPinned.bufTable[1]? ∧
    (flushFile envOK poolDirtyThenPinned 5).2.trace = [IOEvent.write 5 0 40] ∧
    (flushFile envOK poolDirtyThenPinned 5).2.hashTable.find 5 1 =
      poolDirtyThenPinned.hashTable.find 5 1 :=
  have h := flushFile_stops_at_first_pinned envOK poolDirtyThenPinned 5 1
    ⟨5, 1, 1, 1, false, true, false⟩ rfl rfl rfl (by decide)
    (by
      intro i hi _
      have : i = 0 := by omega
      subst this
      decide)
    (fun _ _ _ _ => rfl)
  ⟨h.1, h.2.1 1 (Nat.le_refl 1), h.2.2.2.2.1,
    h.2.2.2.2.2.2 5 1 (by
      intro i hi _
      have : i = 0 := by omega
      subst this
      decide)⟩

/-- C17: dirty durability on eviction.  Let the scan of allocBuf stop on the valid,
unpinned, dirty frame v, whose descriptor before the call was dv.  If no valid frame of
v's file is pinned, no unoccupied descriptor names that file, no other valid frame holds
v's page and every write succeeds, then allocBuf returns OK, exactly one writePage was
issued for v's page, carrying the content of v's pool slot, and v's dirty flag is false
afterwards.  If instead the write of v's page fails, allocBuf returns UNIXERR and v's
descriptor still records the page as valid and dirty. -/
theorem allocBuf_dirty_victim (env : Collab) (m : BufMgr) (frame : Int) (v : Nat)
    (dv : BufDesc) (hstop : (allocScan m).stop = ScanStop.dirtyVictim)
    (hhand : (allocScan m).state.clockHand = v) (hdv : m.bufTable[v]? = some dv) :
    (dv.valid = true ∧ dv.dirty = true ∧ dv.pinCnt ≤ 0) ∧
    ((∀ d ∈ m.bufTable, d.valid = true → d.file = dv.file → d.pinCnt ≤ 0) →
      (∀ d ∈ m.bufTable, d.valid = false → d.file ≠ dv.file) →
      (∀ (j : Nat) (dj : BufDesc), m.bufTable[j]? = some dj → dj.valid = true →
        dj.file = dv.file → dj.pageNo = dv.pageNo → j = v) →
      (∀ tr f p c, env.fileWrite tr f p c = Status.OK) →
      (allocBuf env m frame).1 = Status.OK ∧
      (∃ new, (allocBuf env m frame).2.1.trace = m.trace ++ new ∧
        new.filter (IOEvent.isWriteOf dv.file dv.pageNo) =
          [IOEvent.write dv.file dv.pageNo (m.page v)]) ∧
      ∃ d1, (allocBuf env m frame).2.1.bufTable[v]? = some d1 ∧ d1.dirty = false) ∧
    ((∀ tr, env.fileWrite tr dv.file dv.pageNo (m.page v) ≠ Status.OK) →
      (allocBuf env m frame).1 = Status.UNIXERR ∧
      ∃ d1, (allocBuf env m frame).2.1.bufTable[v]? = some d1 ∧ d1.valid = true ∧
        d1.dirty = true ∧ d1.file = dv.file ∧ d1.pageNo = dv.pageNo) := by
  have hrel : ScanRel m (allocScan m).state := scanLoop_ScanRel _ m
  have hv : v < m.numBufs := (List.getElem?_eq_some_iff.mp hdv).1
  have hdm : m.desc v = dv := desc_of_getElem? hdv
  have hcore := hrel.desc_core hv
  rw [hdm] at hcore
  obtain ⟨hf0, hpn0, hpc0, hdt0, hvl0⟩ := core_fields hcore
  obtain ⟨s1, -, s3, s4⟩ := (scanLoop_stop (m.numBufs * 2) m).2.2 hstop
  change ((allocScan m).state.desc (allocScan m).state.clockHand).valid = true at s1
  change ((allocScan m).state.desc (allocScan m).state.clockHand).pinCnt ≤ 0 at s3
  change ((allocScan m).state.desc (allocScan m).state.clockHand).dirty = true at s4
  rw [hhand] at s1 s3 s4
  have hN : (allocScan m).state.numBufs = m.numBufs := hrel.length
  have hfin : allocBuf env m frame =
      if (flushFile env (allocScan m).state dv.file).1 ≠ Status.OK then
        (Status.UNIXERR, (flushFile env (allocScan m).state dv.file).2, frame)
      else (Status.OK, (flushFile env (allocScan m).state dv.file).2, frame) := by
    rw [allocBuf_eq_finish]
    unfold finishAlloc
    rw [hstop]
    simp only [hhand, hf0]
  refine ⟨⟨hvl0 ▸ s1, hdt0 ▸ s4, hpc0 ▸ s3⟩, ?_, ?_⟩
  · intro hpin hcons huniq hw
    have hcoreAll : ∀ a, a < m.numBufs → ((allocScan m).state.desc a).core = (m.desc a).core :=
      fun a ha => hrel.desc_core ha
    have hok : (flushFile env (allocScan m).state dv.file).1 = Status.OK := by
      apply flushFileLoop_OK_of env dv.file hw
      intro a _ ha hfa
      rw [Nat.zero_add, hN] at ha
      obtain ⟨ef, -, epc, -, evl⟩ := core_fields (hcoreAll a ha)
      have hmem : m.desc a ∈ m.bufTable := desc_mem ha
      rw [ef] at hfa
      rw [evl, epc]
      by_cases hva : (m.desc a).valid = true
      · exact ⟨hva, hpin _ hmem hva hfa⟩
      · exact absurd hfa (hcons _ hmem (by simpa using hva))
    rw [hfin, if_neg (not_not.mpr hok)]
    refine ⟨rfl, ⟨dirtyWritesFrom dv.file (allocScan m).state (allocScan m).state.numBufs 0,
      ?_, ?_⟩, ?_⟩
    · have htr : (flushFile env (allocScan m).state dv.file).2.trace =
          (allocScan m).state.trace ++
            dirtyWritesFrom dv.file (allocScan m).state (allocScan m).state.numBufs 0 :=
        flushFileLoop_OK_trace env dv.file _ 0 _ hok
      show (flushFile env (allocScan m).state dv.file).2.trace = _
      rw [htr, hrel.2.2.2]
    · rw [dirtyWrites_filter_one dv.file (allocScan m).state dv.pageNo v _ 0 (Nat.zero_le v)
        (by rw [Nat.zero_add, hN]; exact hv) s1 hf0 s4 hpn0, hrel.page]
      intro a hav ⟨h1, h2, h3⟩
      by_cases ha : a < m.numBufs
      · obtain ⟨ef, epn, -, -, evl⟩ := core_fields (hcoreAll a ha)
        exact hav (huniq a (m.desc a) (getElem?_desc ha) (evl ▸ h1) (ef ▸ h2) (epn ▸ h3))
      · have : (allocScan m).state.bufTable[a]? = some ((allocScan m).state.desc a) :=
          getElem?_of_desc_valid h1
        have hlt := (List.getElem?_eq_some_iff.mp this).1
        exact ha (by rw [← hN]; exact hlt)
    · have := (flushFileLoop_OK_frames env dv.file _ 0 _ hok v).1
        ⟨Nat.zero_le v, by rw [Nat.zero_add, hN]; exact hv, hf0⟩
      exact ⟨_, this.2.2, rfl⟩
  · intro hwf
    have key : (flushFile env (allocScan m).state dv.file).1 ≠ Status.OK ∧
        (flushFile env (allocScan m).state dv.file).2.bufTable[v]? =
          (allocScan m).state.bufTable[v]? :=
      flushFileLoop_write_fails env dv.file v (allocScan m).state.numBufs 0
        (allocScan m).state (Nat.zero_le v) (by rw [Nat.zero_add, hN]; exact hv) s1 hf0 s4
        (by rw [hpn0, hrel.page]; exact hwf)
    rw [hfin, if_pos key.1]
    refine ⟨rfl, (allocScan m).state.desc v, ?_, s1, s4, hf0, hpn0⟩
    show (flushFile env (allocScan m).state dv.file).2.bufTable[v]? = _
    rw [key.2]
    exact getElem?_desc (by rw [hN]; exact hv)

/-- C17 at a concrete input: the dirty victim in frame 0 of a pool of two unpinned frames
of file 5, with writes that succeed and with writes that fail. -/
theorem allocBuf_dirty_victim_witness :
    ((allocBuf envOK poolDirtyAndClean 0).1 = Status.OK ∧
      (∃ new, (allocBuf envOK poolDirtyAndClean 0).2.1.trace = poolDirtyAndClean.trace ++ new ∧
        new.filter (IOEvent.isWriteOf 5 0) = [IOEvent.write 5 0 40]) ∧
      ∃ d1, (allocBuf envOK poolDirtyAndClean 0).2.1.bufTable[0]? = some d1 ∧
        d1.dirty = false) ∧
    ((allocBuf envWriteFails poolDirtyAndClean 0).1 = Status.UNIXERR ∧
      ∃ d1, (allocBuf envWriteFails poolDirtyAndClean 0).2.1.bufTable[0]? = some d1 ∧
        d1.valid = true ∧ d1.dirty = true ∧ d1.file = 5 ∧ d1.pageNo = 0) :=
  ⟨(allocBuf_dirty_victim envOK poolDirtyAndClean 0 0 ⟨5, 0, 0, 0, true, true, false⟩
      (by decide) (by decide) (by decide)).2.1 (by decide) (by decide)
      (by
        intro j dj hj _ _ hp
        match j, hj with
        | 0, _ => rfl
        | 1, hj =>
          have : dj = ⟨5, 1, 1, 0, false, true, false⟩ := by
            simpa [poolDirtyAndClean] using hj.symm
          subst this
          exact absurd hp (by decide)
        | n + 2, hj => simp [poolDirtyAndClean] at hj)
      (fun _ _ _ _ => rfl),
   (allocBuf_dirty_victim envWriteFails poolDirtyAndClean 0 0 ⟨5, 0, 0, 0, true, true, false⟩
      (by decide) (by decide) (by decide)).2.2 (fun _ h => by cases h)⟩

/-- C18 (code defect): with two frames of file 5, frame 0 a dirty unpinned victim and
frame 1 pinned, and a File Handle whose every write succeeds, allocBuf writes page 0 back,
releases frame 0, meets the pinned frame 1 in flushFile and returns UNIXERR. -/
theorem allocBuf_UNIXERR_without_write_error :
    (∀ tr f p c, envOK.fileWrite tr f p c = Status.OK) ∧
    allocBuf envOK poolDirtyThenPinned 0 =
      (Status.UNIXERR,
        { clockHand := 0
          hashTable := ⟨[(5, 1, 1)]⟩
          bufTable := [⟨0, -1, 0, 0, false, false, false⟩, ⟨5, 1, 1, 1, false, true, false⟩]
          bufPool := [40, 41]
          trace := [IOEvent.write 5 0 40] }, 0) ∧
    flushFile envOK poolDirtyThenPinned.advanceClock 5 =
      (Status.PAGEPINNED, (allocBuf envOK poolDirtyThenPinned 0).2.1) := by
  refine ⟨fun _ _ _ _ => rfl, ?_, ?_⟩ <;> decide

/-- C19: two passes suffice.  If some frame is invalid or has pinCnt ≤ 0, allocBuf does not
return BUFFEREXCEEDED: its scan stops, within 2 * numBufs advances of the clock, on a frame
that was invalid or unpinned before the call.  Conversely allocBuf returns BUFFEREXCEEDED
only when every frame is valid and pinned, after exactly 2 * numBufs advances. -/
theorem allocBuf_two_passes (env : Collab) (m : BufMgr) (frame : Int) :
    ((∃ d ∈ m.bufTable, d.valid = false ∨ d.pinCnt ≤ 0) →
      (allocBuf env m frame).1 ≠ Status.BUFFEREXCEEDED ∧
      (allocScan m).stop ≠ ScanStop.exhausted ∧
      (allocScan m).advances ≤ 2 * m.numBufs ∧
      ∃ v, m.bufTable[(allocBuf env m frame).2.1.clockHand]? = some v ∧
        (v.valid = false ∨ v.pinCnt ≤ 0)) ∧
    ((allocBuf env m frame).1 = Status.BUFFEREXCEEDED →
      (∀ d ∈ m.bufTable, d.valid = true ∧ 0 < d.pinCnt) ∧
      (allocScan m).stop = ScanStop.exhausted ∧
      (allocScan m).advances = 2 * m.numBufs) := by
  constructor
  · rintro ⟨d, hd, helig⟩
    have hstop := allocScan_stops m d hd helig
    refine ⟨?_, hstop, ?_, ?_⟩
    · rw [allocBuf_eq_finish]
      intro h
      exact hstop ((finishAlloc_exceeded_iff env frame _).mp h)
    · have := scanLoop_advances_le (m.numBufs * 2) m
      unfold allocScan
      omega
    · rw [allocBuf_eq_finish, finishAlloc_hand]
      exact allocScan_victim m hstop
  · intro h
    rw [allocBuf_eq_finish] at h
    have hex := (finishAlloc_exceeded_iff env frame _).mp h
    refine ⟨?_, hex, ?_⟩
    · intro d hd
      by_contra hcon
      apply allocScan_stops m d hd _ hex
      by_cases hv : d.valid = true
      · right
        by_contra hp
        exact hcon ⟨hv, Int.not_le.mp hp⟩
      · left
        simpa using hv
    · have := scanLoop_exhausted_advances (m.numBufs * 2) m hex
      unfold allocScan
      omega

/-- C20: second chance.  Let v be a frame that is valid, unpinned and referenced, and let the
scan of a call of allocBuf, still running after t advances, advance the clock hand onto v.
If the hand has not been on v earlier in the call, v is not selected: the scan goes on, and
the state differs from the one before only in the clock hand and in the reference bit of v,
now false.  If the hand has been on v earlier in the call, the scan stops on v, and within
the 2 * numBufs advances of a call allocBuf ends with the hand on v.  In particular, in a
pool of N ≥ 1 frames that are all valid, clean, unpinned and referenced, with the hand at
h, allocBuf returns OK after exactly N + 1 advances with the hand on (h + 1) mod N and
every reference bit cleared. -/
theorem allocBuf_second_chance (env : Collab) (m : BufMgr) (frame : Int) :
    (∀ (v : Nat) (d : BufDesc), m.bufTable[v]? = some d → d.valid = true → d.pinCnt ≤ 0 →
      d.refbit = true →
      ∀ t, (scanLoop t m).stop = ScanStop.exhausted →
        (scanLoop t m).state.advanceClock.clockHand = v →
        ((∀ s, 1 ≤ s → s ≤ t → (scanLoop s m).state.clockHand ≠ v) →
          scanLoop (t + 1) m = ⟨ScanStop.exhausted,
            (scanLoop t m).state.advanceClock.setDesc v { d with refbit := false }, t + 1⟩) ∧
        ((∃ s, 1 ≤ s ∧ s ≤ t ∧ (scanLoop s m).state.clockHand = v) →
          ((scanLoop (t + 1) m).stop = ScanStop.cleanVictim ∨
            (scanLoop (t + 1) m).stop = ScanStop.dirtyVictim) ∧
          (scanLoop (t + 1) m).state.clockHand = v ∧
          (scanLoop (t + 1) m).advances = t + 1 ∧
          (t + 1 ≤ m.numBufs * 2 →
            (allocBuf env m frame).2.1.clockHand = v ∧
            (allocBuf env m frame).1 ≠ Status.BUFFEREXCEEDED))) ∧
    (0 < m.numBufs →
      (∀ d ∈ m.bufTable, d.valid = true ∧ d.dirty = false ∧ d.pinCnt ≤ 0 ∧ d.refbit = true) →
      (allocBuf env m frame).1 = Status.OK ∧
      (allocScan m).advances = m.numBufs + 1 ∧
      (allocBuf env m frame).2.1.clockHand = (m.clockHand + 1) % m.numBufs ∧
      (∀ d ∈ (allocBuf env m frame).2.1.bufTable, d.refbit = false) ∧
      (allocBuf env m frame).2.1.bufTable.map BufDesc.core = m.bufTable.map BufDesc.core) := by
  constructor
  · intro v d hd hvalid hpin href t hex hhand
    have hv : v < m.numBufs := (List.getElem?_eq_some_iff.mp hd).1
    have hdm : m.desc v = d := desc_of_getElem? hd
    have hcore := (scanLoop_ScanRel t m).desc_core hv
    obtain ⟨-, -, hpc, -, hvl⟩ := core_fields hcore
    rw [hdm] at hpc hvl
    constructor
    · intro hfirst
      have hsame := scanLoop_unvisited v m t hex hfirst
      have := scanLoop_first_visit v m t hex hhand (by rw [hsame, hdm]; exact hvalid)
        (by rw [hsame, hdm]; exact href)
      rw [hsame, hdm] at this
      exact this
    · intro hseen
      have hclear := scanLoop_visited v m hv (by rw [hdm]; exact hpin) t hex hseen
      obtain ⟨h1, h2, h3⟩ := scanLoop_second_visit v m t hex hhand (hvl.trans hvalid)
        (by rw [hpc]; exact hpin) hclear
      refine ⟨h1, by rw [h2]; exact hhand, h3, ?_⟩
      intro hle
      have hne : (scanLoop (t + 1) m).stop ≠ ScanStop.exhausted := by
        rcases h1 with h | h <;> rw [h] <;> intro hc <;> cases hc
      have hs := allocScan_eq_of_stopped m (t + 1) hle hne
      rw [allocBuf_eq_finish, finishAlloc_hand, hs, h2]
      refine ⟨hhand, ?_⟩
      intro hc
      exact hne ((finishAlloc_exceeded_iff env frame _).mp hc)
  · intro hN hall
    obtain ⟨k1, k2, k3, k4⟩ := allocScan_all_referenced m hN hall
    have hfin : allocBuf env m frame = (Status.OK, (allocScan m).state, frame) := by
      rw [allocBuf_eq_finish]
      unfold finishAlloc
      rw [k1]
    rw [hfin]
    exact ⟨rfl, k2, k3, k4, (scanLoop_ScanRel _ m).1⟩

/-- C20 at concrete inputs.  With three referenced frames and the hand on frame 1, the hand
is first on frame 0 after the second advance, and the scan stops on frame 2 after the
fourth.  With frame 0 unpinned, frame 1 pinned, both referenced, and the hand on frame 1,
the hand is on frame 0 after the first advance and again after the third, where the scan
stops. -/
theorem allocBuf_second_chance_witness :
    (scanLoop 2 poolAllReferenced =
      ⟨ScanStop.exhausted,
        (scanLoop 1 poolAllReferenced).state.advanceClock.setDesc 0
          ⟨5, 0, 0, 0, false, true, false⟩, 2⟩) ∧
    ((allocBuf envOK poolAllReferenced 0).1 = Status.OK ∧
      (allocScan poolAllReferenced).advances = 4 ∧
      (allocBuf envOK poolAllReferenced 0).2.1.clockHand = 2 ∧
      (∀ d ∈ (allocBuf envOK poolAllReferenced 0).2.1.bufTable, d.refbit = false) ∧
      (allocBuf envOK poolAllReferenced 0).2.1.bufTable.map BufDesc.core =
        poolAllReferenced.bufTable.map BufDesc.core) ∧
    ((scanLoop 3 poolUnpinnedAndPinned).state.clockHand = 0 ∧
      (scanLoop 3 poolUnpinnedAndPinned).advances = 3 ∧
      (allocBuf envOK poolUnpinnedAndPinned 0).2.1.clockHand = 0) :=
  have h := allocBuf_second_chance envOK poolAllReferenced 0
  have h2 := (allocBuf_second_chance envOK poolUnpinnedAndPinned 0).1 0
    ⟨5, 1, 0, 0, false, true, true⟩ rfl rfl (by decide) rfl 2 (by decide) (by decide)
  have h3 := h2.2 ⟨1, by decide, by decide, by decide⟩
  ⟨(h.1 0 ⟨5, 0, 0, 0, false, true, true⟩ rfl rfl (by decide) rfl 1 (by decide)
      (by decide)).1 (by
        intro s h1 h2
        have : s = 1 := Nat.le_antisymm h2 h1
        subst this
        decide),
    h.2 (by decide) (by decide),
    h3.2.1, h3.2.2.1, (h3.2.2.2 (by decide)).1⟩

end Buf
